import Mathlib

/-!
# kubevirt/dra-pci-driver: allocation controller and device agent

A shallow embedding of the controller side of the DRA PCI driver
(`cmd/virt-dra-controller/pci.go`, `cmd/virt-dra-controller/driver.go`), of the
device agent (`cmd/kubelet-plugin/state.go`, `driver.go`, `cdi.go`,
`discovery.go`, `pci_device.go`) and of the record types of `api/kubevirt.io/resource/pci/nas/v1alpha1/nas.go`.

Conventions of the embedding:

* a Go `map[string]V` is an association list `GoMap V`; a nil map and an empty
  map are both `[]` (they read alike, and the two `make` guards of the driver
  keep every write away from a nil map);
* a Go pointer that may be nil is an `Option`;
* a run-time panic (nil dereference) is the outer `none` of an `Option` result;
* the order in which `range` walks a Go map is not fixed by the language: it is
  an explicit argument `order`, and the theorems quantify over every `order`
  that returns a permutation of the map's entries;
* the record client (`client.Get`, `client.Update`) is an argument `NasClient`:
  what `Get` fetched and whether an `Update` of a given spec succeeds;
* the per-node mutex is held for the whole of each operation, so an operation
  is one atomic step on the pending cache.
-/

namespace DraPci

/-! ## Go maps -/

/-- A Go `map[string]V`, as an association list. -/
abbrev GoMap (V : Type) := List (String × V)

namespace GoMap

variable {V : Type}

/-- The lookup `m[k]` with its presence flag. -/
def get : GoMap V → String → Option V
  | [], _ => none
  | e :: es, k => if e.1 = k then some e.2 else get es k

/-- The test `_, exists := m[k]`. -/
def has (m : GoMap V) (k : String) : Bool := (get m k).isSome

/-- The assignment `m[k] = v`. -/
def set (m : GoMap V) (k : String) (v : V) : GoMap V :=
  if has m k then m.map (fun e => if e.1 = k then (k, v) else e) else m ++ [(k, v)]

/-- The builtin `delete(m, k)`. -/
def delete (m : GoMap V) (k : String) : GoMap V := m.filter (fun e => decide (e.1 ≠ k))

end GoMap

/-! ## Record types (nas.go) -/

/-- An allocatable Pci on a node. -/
structure AllocatablePci where
  UUID : String
  ResourceName : String
  PciAddress : String
  deriving DecidableEq, Repr

/-- An allocatable device on a node; `Pci` is a pointer. -/
structure AllocatableDevice where
  Pci : Option AllocatablePci
  deriving DecidableEq, Repr

/-- Modelled from the spec: the constant `PciDeviceType`, whose declaration is
not part of the sources; only its difference from `UnknownDeviceType` matters. -/
def PciDeviceType : String := "pci"

/-- Modelled from the spec: the constant `UnknownDeviceType`, whose declaration
is not part of the sources. -/
def UnknownDeviceType : String := "unknown"

/-- The method `AllocatableDevice.Type`. -/
def AllocatableDevice.Type (d : AllocatableDevice) : String :=
  if d.Pci.isSome then PciDeviceType else UnknownDeviceType

/-- An allocated PCI. -/
structure AllocatedPci where
  UUID : String
  deriving DecidableEq, Repr

/-- A set of allocated PCIs. -/
structure AllocatedPcis where
  Devices : List AllocatedPci
  deriving DecidableEq, Repr

/-- A set of allocated devices; `Pci` is a pointer. -/
structure AllocatedDevices where
  Pci : Option AllocatedPcis
  deriving DecidableEq, Repr

/-- The method `AllocatedDevices.Type`. -/
def AllocatedDevices.Type (r : AllocatedDevices) : String :=
  if r.Pci.isSome then PciDeviceType else UnknownDeviceType

/-- A prepared PCI on a node. -/
structure PreparedPci where
  UUID : String
  deriving DecidableEq, Repr

/-- A set of prepared PCIs on a node. -/
structure PreparedPcis where
  Devices : List PreparedPci
  deriving DecidableEq, Repr

/-- A set of prepared devices on a node; `Pci` is a pointer. -/
structure PreparedDevices where
  Pci : Option PreparedPcis
  deriving DecidableEq, Repr

/-- The spec of the NodeAllocationState record. -/
structure NodeAllocationStateSpec where
  AllocatableDevices : List AllocatableDevice
  AllocatedClaims : GoMap AllocatedDevices
  PreparedClaims : GoMap PreparedDevices
  deriving DecidableEq, Repr

/-- The per-node record: its spec and its readiness status. -/
structure NodeAllocationState where
  Spec : NodeAllocationStateSpec
  Status : String
  deriving DecidableEq, Repr

/-- Modelled from the spec: the status constant `NodeAllocationStateStatusReady`
(the readiness enum is NotReady or Ready); its declaration is not part of the
sources. -/
def NodeAllocationStateStatusReady : String := "Ready"

/-- Modelled from the spec: the status constant
`NodeAllocationStateStatusNotReady`; its declaration is not part of the
sources. -/
def NodeAllocationStateStatusNotReady : String := "NotReady"

/-! ## Claims as the controller sees them -/

/-- The claim parameters `PciClaimParametersSpec`: the requested device name. -/
structure PciClaimParametersSpec where
  DeviceName : String
  deriving DecidableEq, Repr

/-- The dynamic type of `ClaimAllocation.ClaimParameters` (an `interface{}`):
a pointer to PCI claim parameters, or anything else. -/
inductive ClaimParameters where
  | pci (spec : PciClaimParametersSpec)
  | other
  deriving DecidableEq, Repr

/-- One requirement of a node selector term. -/
structure NodeSelectorRequirement where
  Key : String
  Operator : String
  Values : List String
  deriving DecidableEq, Repr

/-- A node selector term. -/
structure NodeSelectorTerm where
  MatchFields : List NodeSelectorRequirement
  deriving DecidableEq, Repr

/-- A node selector. -/
structure NodeSelector where
  NodeSelectorTerms : List NodeSelectorTerm
  deriving DecidableEq, Repr

/-- The allocation result handed back to the scheduler. -/
structure AllocationResult where
  AvailableOnNodes : Option NodeSelector
  Shareable : Bool
  deriving DecidableEq, Repr

/-- A resource claim: its UID and `Status.Allocation`. -/
structure ResourceClaim where
  UID : String
  Allocation : Option AllocationResult
  deriving DecidableEq, Repr

/-- The errors the controller returns, one constructor per `fmt.Errorf`. -/
inductive DriverError where
  | immediateNotSupported
  | retrievingCRD
  | statusNotReady (status : String)
  | noAllocationsGenerated (claimUID node : String)
  | unknownParametersKind
  | unableToAllocate (node : String) (cause : DriverError)
  | updatingCRD
  | invalidClaimParameters (claimUID : String)
  | unknownAllocatedType (type : String)
  | unableToDeallocate (cause : DriverError)
  | processingKind (cause : DriverError)
  | processingNode (node : String) (cause : DriverError)
  | unsupportedDeviceType (deviceName : String)
  deriving DecidableEq, Repr

/-- The scheduler's `controller.ClaimAllocation`. -/
structure ClaimAllocation where
  Claim : ResourceClaim
  ClaimParameters : ClaimParameters
  UnsuitableNodes : List String
  Allocation : Option AllocationResult
  Error : Option DriverError
  deriving DecidableEq, Repr

/-! ## The pending allocation cache -/

/-- Modelled from the spec: the pending allocation cache
`PerNodeAllocatedClaims`, whose source file is not part of the sources. The
spec keys an entry by (claim-id, node-name) and gives it the tentative device
set decided during filtering. -/
structure PerNodeAllocatedClaims where
  allocations : List ((String × String) × AllocatedDevices)
  deriving DecidableEq, Repr

namespace PerNodeAllocatedClaims

/-- Modelled from the spec: the constructor `NewPerNodeAllocatedClaims` (missing
from the sources), the empty cache. -/
def new : PerNodeAllocatedClaims := ⟨[]⟩

/-- Modelled from the spec: the lookup behind `exists` and `get` of the cache
(missing from the sources). -/
def find (p : PerNodeAllocatedClaims) (claimUID node : String) : Option AllocatedDevices :=
  (p.allocations.find? (fun e => decide (e.1 = (claimUID, node)))).map (fun e => e.2)

/-- Modelled from the spec: `exists(claim, node)` of the cache (`Exists`, missing
from the sources). -/
def Exists (p : PerNodeAllocatedClaims) (claimUID node : String) : Bool :=
  (p.find claimUID node).isSome

/-- Modelled from the spec: `get(claim, node)` of the cache (`Get`, missing from
the sources); for an absent entry it is the zero value of `AllocatedDevices`. -/
def Get (p : PerNodeAllocatedClaims) (claimUID node : String) : AllocatedDevices :=
  (p.find claimUID node).getD ⟨none⟩

/-- Modelled from the spec: `set(claim, node, devices)` of the cache (`Set`,
missing from the sources). -/
def Set (p : PerNodeAllocatedClaims) (claimUID node : String) (devices : AllocatedDevices) :
    PerNodeAllocatedClaims :=
  ⟨p.allocations.filter (fun e => decide (e.1 ≠ (claimUID, node))) ++ [((claimUID, node), devices)]⟩

/-- Modelled from the spec: `remove(claim)` of the cache (`Remove`, missing from
the sources): the claim loses its entries on every node. -/
def Remove (p : PerNodeAllocatedClaims) (claimUID : String) : PerNodeAllocatedClaims :=
  ⟨p.allocations.filter (fun e => decide (e.1.1 ≠ claimUID))⟩

/-- Modelled from the spec: the entries `visitNode(node, fn)` of the cache
(`VisitNode`, missing from the sources) walks: the (claim, devices) pairs held
for the node. -/
def nodeEntries (p : PerNodeAllocatedClaims) (node : String) : List (String × AllocatedDevices) :=
  (p.allocations.filter (fun e => decide (e.1.2 = node))).map (fun e => (e.1.1, e.2))

end PerNodeAllocatedClaims

/-! ## The PCI driver (pci.go) -/

/-- The struct `pcidriver`: it owns the pending allocation cache. -/
structure pcidriver where
  PendingAllocatedClaims : PerNodeAllocatedClaims
  deriving DecidableEq, Repr

/-- The constructor `NewPciDriver`. -/
def NewPciDriver : pcidriver := ⟨PerNodeAllocatedClaims.new⟩

/-- The method `pcidriver.ValidateClaimParameters`: the only device name the
driver supports is `devices.kubevirt.io/nvme`. -/
def pcidriver.ValidateClaimParameters (claimParams : PciClaimParametersSpec) :
    Option DriverError :=
  if claimParams.DeviceName ≠ "devices.kubevirt.io/nvme" then
    some (.unsupportedDeviceType claimParams.DeviceName)
  else none

/-- The order in which the `range` of step `k` walks the `available` map. -/
abbrev RangeOrder := Nat → GoMap AllocatablePci → GoMap AllocatablePci

/-- The body of the first loop of `pcidriver.allocate`: a device that is not of
PCI type, or whose UUID is a key of `AllocatedClaims`, is skipped; any other is
stored in `available` under its UUID. -/
def availableStep (allocatedClaims : GoMap AllocatedDevices) (available : GoMap AllocatablePci)
    (device : AllocatableDevice) : GoMap AllocatablePci :=
  if device.Type ≠ PciDeviceType then available
  else
    match device.Pci with
    | none => available
    | some pci =>
      if GoMap.has allocatedClaims pci.UUID then available
      else GoMap.set available pci.UUID pci

/-- The first loop of `pcidriver.allocate`: the `available` map of the record. -/
def availableDevices (crd : NodeAllocationState) : GoMap AllocatablePci :=
  crd.Spec.AllocatableDevices.foldl (availableStep crd.Spec.AllocatedClaims) []

/-- The inner loop `for uuid, device := range available` with its `break`: the
first entry of the walk whose resource name is the requested one. -/
def firstMatch (walk : GoMap AllocatablePci) (deviceName : String) :
    Option (String × AllocatablePci) :=
  walk.find? (fun e => decide (e.2.ResourceName = deviceName))

/-- The loop `allocated[claimUID] = append(allocated[claimUID], device.UUID)` over
the devices of a claim that is already in `AllocatedClaims`. -/
def appendAllocated (claimUID : String) (devices : List AllocatedPci)
    (allocated : GoMap (List String)) : GoMap (List String) :=
  devices.foldl
    (fun acc device => GoMap.set acc claimUID ((GoMap.get acc claimUID).getD [] ++ [device.UUID]))
    allocated

/-- The second loop of `pcidriver.allocate`, from batch position `k` on. The
result is `none` when the Go code dereferences a nil pointer: `v.Pci.Devices` on
an allocated claim without PCI part, or `claimParams.DeviceName` when the
parameters are not PCI claim parameters and `available` has an entry to walk. -/
def allocateLoop (order : RangeOrder) (allocatedClaims : GoMap AllocatedDevices) :
    Nat → List ClaimAllocation → GoMap AllocatablePci → GoMap (List String) →
    Option (GoMap (List String))
  | _, [], _, allocated => some allocated
  | k, ca :: cas, available, allocated =>
    match GoMap.get allocatedClaims ca.Claim.UID with
    | some v =>
      match v.Pci with
      | none => none
      | some pcis =>
        allocateLoop order allocatedClaims (k + 1) cas available
          (appendAllocated ca.Claim.UID pcis.Devices allocated)
    | none =>
      match ca.ClaimParameters with
      | .other =>
        match order k available with
        | [] => allocateLoop order allocatedClaims (k + 1) cas available allocated
        | _ :: _ => none
      | .pci claimParams =>
        match firstMatch (order k available) claimParams.DeviceName with
        | some (uuid, device) =>
          allocateLoop order allocatedClaims (k + 1) cas (GoMap.delete available uuid)
            (GoMap.set allocated ca.Claim.UID [device.UUID])
        | none => allocateLoop order allocatedClaims (k + 1) cas available allocated

/-- The method `pcidriver.allocate`: for every claim of the batch the device
UUIDs filtering holds for it (the receiver, the pod, `allcas` and the node name
are not read by the Go body). -/
def pcidriver.allocate (order : RangeOrder) (crd : NodeAllocationState)
    (pcicas : List ClaimAllocation) : Option (GoMap (List String)) :=
  allocateLoop order crd.Spec.AllocatedClaims 0 pcicas (availableDevices crd) []

/-- The callback type `OnSuccessCallback`, as its effect on the pending cache. -/
abbrev OnSuccessCallback := PerNodeAllocatedClaims → PerNodeAllocatedClaims

/-- The method `pcidriver.Allocate`: the record with the cached device set
copied into `AllocatedClaims`, and the callback that removes the claim from the
cache; an error when the cache has no entry for (claim, selected node). -/
def pcidriver.Allocate (p : pcidriver) (crd : NodeAllocationState) (claim : ResourceClaim)
    (selectedNode : String) : Except DriverError (NodeAllocationState × OnSuccessCallback) :=
  if ¬ p.PendingAllocatedClaims.Exists claim.UID selectedNode then
    .error (.noAllocationsGenerated claim.UID selectedNode)
  else
    .ok ({ crd with Spec := { crd.Spec with
             AllocatedClaims := GoMap.set crd.Spec.AllocatedClaims claim.UID
               (p.PendingAllocatedClaims.Get claim.UID selectedNode) } },
         fun pending => pending.Remove claim.UID)

/-- The method `pcidriver.Deallocate`: the claim leaves the pending cache. -/
def pcidriver.Deallocate (p : pcidriver) (claim : ResourceClaim) : pcidriver :=
  ⟨p.PendingAllocatedClaims.Remove claim.UID⟩

/-- The visitor `pcidriver.UnsuitableNode` hands to `VisitNode`: a cached claim
that is already in `AllocatedClaims` leaves the cache, any other is copied into
the in-memory `AllocatedClaims`. -/
def visitStep (state : NodeAllocationState × PerNodeAllocatedClaims)
    (entry : String × AllocatedDevices) : NodeAllocationState × PerNodeAllocatedClaims :=
  if GoMap.has state.1.Spec.AllocatedClaims entry.1 then
    (state.1, state.2.Remove entry.1)
  else
    ({ state.1 with Spec := { state.1.Spec with
         AllocatedClaims := GoMap.set state.1.Spec.AllocatedClaims entry.1 entry.2 } },
     state.2)

/-- Modelled from the spec: `visitNode(node, fn)` of the cache (`VisitNode`,
missing from the sources) applied to the visitor of `pcidriver.UnsuitableNode`:
the visitor runs once for every entry the cache holds for the node. The visitor
removes no claim but the one it is visiting, so the entries still to come are
the ones present at the start. -/
def visitNode (crd : NodeAllocationState) (pending : PerNodeAllocatedClaims)
    (potentialNode : String) : NodeAllocationState × PerNodeAllocatedClaims :=
  (pending.nodeEntries potentialNode).foldl visitStep (crd, pending)

/-- What a filtering call leaves behind: the returned error, the claim
allocations with their unsuitable-node lists, and the pending cache. -/
structure FilterOutcome where
  err : Option DriverError
  allcas : List ClaimAllocation
  pending : PerNodeAllocatedClaims
  deriving DecidableEq, Repr

/-- The statement `ca.UnsuitableNodes = append(ca.UnsuitableNodes, potentialNode)`
for every claim allocation of `allcas`. -/
def markUnsuitable (allcas : List ClaimAllocation) (potentialNode : String) :
    List ClaimAllocation :=
  allcas.map (fun ca => { ca with UnsuitableNodes := ca.UnsuitableNodes ++ [potentialNode] })

/-- The loop of `pcidriver.UnsuitableNode` over the PCI claim allocations. The
result is `none` only for the index `allocated[claimUID][0]` out of range, which
the length test before it excludes. -/
def unsuitableLoop (allocated : GoMap (List String)) (potentialNode : String) :
    List ClaimAllocation → List ClaimAllocation → PerNodeAllocatedClaims → Option FilterOutcome
  | [], allcas, pending => some ⟨none, allcas, pending⟩
  | ca :: cas, allcas, pending =>
    match ca.ClaimParameters with
    | .other => some ⟨some (.invalidClaimParameters ca.Claim.UID), allcas, pending⟩
    | .pci _ =>
      if ((GoMap.get allocated ca.Claim.UID).getD []).length ≠ 1 then
        some ⟨none, markUnsuitable allcas potentialNode, pending⟩
      else
        match (GoMap.get allocated ca.Claim.UID).getD [] with
        | [] => none
        | uuid :: _ =>
          unsuitableLoop allocated potentialNode cas allcas
            (pending.Set ca.Claim.UID potentialNode ⟨some ⟨[⟨uuid⟩]⟩⟩)

/-- The method `pcidriver.UnsuitableNode`: merge the cache entries of the node
into the in-memory record, allocate, then record or reject. -/
def pcidriver.UnsuitableNode (order : RangeOrder) (p : pcidriver) (crd : NodeAllocationState)
    (pcicas allcas : List ClaimAllocation) (potentialNode : String) : Option FilterOutcome :=
  let visited := visitNode crd p.PendingAllocatedClaims potentialNode
  match pcidriver.allocate order visited.1 pcicas with
  | none => none
  | some allocated => unsuitableLoop allocated potentialNode pcicas allcas visited.2

/-! ## The controller driver (driver.go) -/

/-- The struct `driver`: its PCI driver (the lock, the namespace and the
clientset are outside the embedding). -/
structure driver where
  pci : pcidriver
  deriving DecidableEq, Repr

/-- The record client of one operation: what `client.Get` fetched (`none` when
it failed) and whether `client.Update` of a given spec succeeds. -/
structure NasClient where
  getResult : Option NodeAllocationState
  updateOk : NodeAllocationStateSpec → Bool

/-- The function `buildAllocationResult`. -/
def buildAllocationResult (selectedNode : String) (shareable : Bool) : AllocationResult :=
  { AvailableOnNodes := some
      { NodeSelectorTerms :=
          [{ MatchFields := [{ Key := "metadata.name", Operator := "In", Values := [selectedNode] }] }] },
    Shareable := shareable }

/-- What a commit leaves behind: the returned result or error, the specs
handed to `client.Update` (in call order), and the pending cache. -/
structure CommitOutcome where
  result : Except DriverError AllocationResult
  updates : List NodeAllocationStateSpec
  pending : PerNodeAllocatedClaims

/-- The method `driver.allocate`, the commit of one claim on the selected node
(`claim.Spec.ParametersRef`, which the default branch reads only to print its
error, is outside the embedding). -/
def driver.allocate (d : driver) (client : NasClient) (claim : ResourceClaim)
    (claimParameters : ClaimParameters) (selectedNode : String) : CommitOutcome :=
  if selectedNode = "" then
    ⟨.error .immediateNotSupported, [], d.pci.PendingAllocatedClaims⟩
  else
    match client.getResult with
    | none => ⟨.error .retrievingCRD, [], d.pci.PendingAllocatedClaims⟩
    | some crd =>
      if crd.Status ≠ NodeAllocationStateStatusReady then
        ⟨.error (.statusNotReady crd.Status), [], d.pci.PendingAllocatedClaims⟩
      else if GoMap.has crd.Spec.AllocatedClaims claim.UID then
        ⟨.ok (buildAllocationResult selectedNode true), [], d.pci.PendingAllocatedClaims⟩
      else
        let allocated : Except DriverError (NodeAllocationState × OnSuccessCallback) :=
          match claimParameters with
          | .pci _ => d.pci.Allocate crd claim selectedNode
          | .other => .error .unknownParametersKind
        match allocated with
        | .error err =>
          ⟨.error (.unableToAllocate selectedNode err), [], d.pci.PendingAllocatedClaims⟩
        | .ok (crd2, onSuccess) =>
          if client.updateOk crd2.Spec then
            ⟨.ok (buildAllocationResult selectedNode true), [crd2.Spec],
              onSuccess d.pci.PendingAllocatedClaims⟩
          else
            ⟨.error .updatingCRD, [crd2.Spec], d.pci.PendingAllocatedClaims⟩

/-- The loop of `driver.unsuitableNode` that sorts the claim allocations by the
kind of their parameters: the PCI ones, or an error at the first other kind. -/
def perKindCas : List ClaimAllocation → Except DriverError (List ClaimAllocation)
  | [] => .ok []
  | ca :: cas =>
    match ca.ClaimParameters with
    | .pci _ =>
      match perKindCas cas with
      | .ok rest => .ok (ca :: rest)
      | .error err => .error err
    | .other => .error .unknownParametersKind

/-- The method `driver.unsuitableNode`, the filtering of one candidate node for
a batch of claims. -/
def driver.unsuitableNode (order : RangeOrder) (d : driver) (client : NasClient)
    (allcas : List ClaimAllocation) (potentialNode : String) : Option FilterOutcome :=
  match client.getResult with
  | none => some ⟨none, markUnsuitable allcas potentialNode, d.pci.PendingAllocatedClaims⟩
  | some crd =>
    if crd.Status ≠ NodeAllocationStateStatusReady then
      some ⟨none, markUnsuitable allcas potentialNode, d.pci.PendingAllocatedClaims⟩
    else
      match perKindCas allcas with
      | .error err => some ⟨some err, allcas, d.pci.PendingAllocatedClaims⟩
      | .ok pcicas =>
        match d.pci.UnsuitableNode order crd pcicas allcas potentialNode with
        | none => none
        | some out =>
          match out.err with
          | none => some out
          | some err => some { out with err := some (.processingKind err) }

/-- The function `getSelectedNode`: the node the allocation of the claim selects,
the empty string when there is no allocation or no node selector. The result is
`none` when one of the three indexings `[0]` is out of range. -/
def getSelectedNode (claim : ResourceClaim) : Option String :=
  match claim.Allocation with
  | none => some ""
  | some allocation =>
    match allocation.AvailableOnNodes with
    | none => some ""
    | some selector =>
      match selector.NodeSelectorTerms with
      | [] => none
      | term :: _ =>
        match term.MatchFields with
        | [] => none
        | field :: _ =>
          match field.Values with
          | [] => none
          | value :: _ => some value

/-- What a deallocation leaves behind: the returned error, the specs handed to
`client.Update` (in call order), and the pending cache. -/
structure DeallocateOutcome where
  err : Option DriverError
  updates : List NodeAllocationStateSpec
  pending : PerNodeAllocatedClaims
  deriving DecidableEq, Repr

/-- The method `driver.Deallocate` of the controller. The guard on a nil
`AllocatedClaims` is the guard on an empty map of the embedding. -/
def driver.Deallocate (d : driver) (client : NasClient) (claim : ResourceClaim) :
    Option DeallocateOutcome :=
  match getSelectedNode claim with
  | none => none
  | some selectedNode =>
    if selectedNode = "" then
      some ⟨none, [], d.pci.PendingAllocatedClaims⟩
    else
      match client.getResult with
      | none => some ⟨some .retrievingCRD, [], d.pci.PendingAllocatedClaims⟩
      | some crd =>
        if crd.Spec.AllocatedClaims = [] then
          some ⟨none, [], d.pci.PendingAllocatedClaims⟩
        else
          match GoMap.get crd.Spec.AllocatedClaims claim.UID with
          | none => some ⟨none, [], d.pci.PendingAllocatedClaims⟩
          | some devices =>
            if devices.Type = PciDeviceType then
              let spec : NodeAllocationStateSpec :=
                { crd.Spec with
                  AllocatedClaims := GoMap.delete crd.Spec.AllocatedClaims claim.UID }
              if client.updateOk spec then
                some ⟨none, [spec], (d.pci.Deallocate claim).PendingAllocatedClaims⟩
              else
                some ⟨some .updatingCRD, [spec], (d.pci.Deallocate claim).PendingAllocatedClaims⟩
            else
              some ⟨some (.unableToDeallocate (.unknownAllocatedType devices.Type)), [],
                d.pci.PendingAllocatedClaims⟩

/-! ## The device agent (cmd/kubelet-plugin)

The agent lives in its own Go package, whose `driver`, `PreparedDevices` and
`PreparedPcis` are not those of the controller and of the record. What the world
outside the agent answers during one attempt of a retried operation (the fetch
of the record, the write of a CDI spec file, the update of the record, the
removal of a CDI spec file) is an argument `Attempt`; the order in which `range`
walks the maps of `GetUpdatedSpec` is an argument `SpecWalk`. -/

namespace KubeletPlugin

/-- The struct `PCIDevice` of pci_device.go. -/
structure PCIDevice where
  uuid : String
  vendorSelector : String
  resourceName : String
  pciAddress : String
  driver : String
  iommuGroup : String
  numaNode : Int
  pciID : String
  deriving DecidableEq, Repr

/-- The type `AllocatableDevices`: device UUID to device (an
`AllocatableDeviceInfo` is its embedded `PCIDevice`). -/
abbrev AllocatableDevices := GoMap PCIDevice

/-- The struct `PreparedPcis` of the agent. -/
structure PreparedPcis where
  Devices : List PCIDevice
  deriving DecidableEq, Repr

/-- The struct `PreparedDevices` of the agent; `Pci` is a pointer. -/
structure PreparedDevices where
  Pci : Option PreparedPcis
  deriving DecidableEq, Repr

/-- The method `PreparedDevices.Type` of the agent. -/
def PreparedDevices.Type (d : PreparedDevices) : String :=
  if d.Pci.isSome then PciDeviceType else UnknownDeviceType

/-- The type `PreparedClaims`: claim UID to prepared devices. -/
abbrev PreparedClaims := GoMap PreparedDevices

/-- The errors of the agent, one constructor per error site. -/
inductive NodeError where
  | unknownDeviceType (type : String)
  | pciDoesNotExist (uuid : String)
  | allocationFailed (cause : NodeError)
  | createSpecFile (cause : NodeError)
  | deleteSpecFile (cause : NodeError)
  | getDeviceNames (cause : NodeError)
  | unprepareFailed (cause : NodeError)
  | writeSpec
  | removeSpec
  | syncPrepared (cause : NodeError)
  | getFailed
  | updateConflict
  | updateFailed
  | allocatingDevices (claimUID : String) (cause : NodeError)
  | unpreparingDevices (claimUID : String) (cause : NodeError)
  | updatedSpec (cause : NodeError)
  | preparingResource (cause : NodeError)
  | unpreparingResource (cause : NodeError)
  | createHandler
  | commonSpecFile
  | syncFromRecord (cause : NodeError)
  deriving DecidableEq, Repr

/-- Modelled from the spec: the constant `DriverName`, whose declaration is not
part of the sources; no theorem depends on its value. -/
def DriverName : String := "pci.resource.kubevirt.io"

/-- The constant `cdiVendor`. -/
def cdiVendor : String := "k8s." ++ DriverName

/-- The constant `cdiClass`. -/
def cdiClass : String := "pci"

/-- The constant `cdiCommonDeviceName`. -/
def cdiCommonDeviceName : String := "common"

/-- The library function `cdiapi.QualifiedName`: `vendor/class=name`. -/
def QualifiedName (vendor cls name : String) : String := vendor ++ "/" ++ cls ++ "=" ++ name

/-- The struct `CDIHandler`: of its registry, the claim spec files, each kept as
the claim UID and the devices it was written for. -/
structure CDIHandler where
  claimSpecs : GoMap PreparedDevices
  deriving DecidableEq, Repr

/-- The method `CDIHandler.CreateClaimSpecFile`; `writeOk` tells whether the
library calls `MinimumRequiredVersion` and `WriteSpec` succeed. -/
def CDIHandler.CreateClaimSpecFile (cdi : CDIHandler) (writeOk : Bool) (claimUID : String)
    (devices : PreparedDevices) : Except NodeError CDIHandler :=
  if devices.Type = PciDeviceType then
    if writeOk then .ok ⟨GoMap.set cdi.claimSpecs claimUID devices⟩ else .error .writeSpec
  else .error (.unknownDeviceType devices.Type)

/-- The method `CDIHandler.DeleteClaimSpecFile`; `removeOk` tells whether the
library call `RemoveSpec` succeeds. -/
def CDIHandler.DeleteClaimSpecFile (cdi : CDIHandler) (removeOk : Bool) (claimUID : String) :
    Except NodeError CDIHandler :=
  if removeOk then .ok ⟨GoMap.delete cdi.claimSpecs claimUID⟩ else .error .removeSpec

/-- The method `CDIHandler.GetClaimDevices`: the qualified name of the common
device, then one qualified name per device. -/
def CDIHandler.GetClaimDevices (devices : PreparedDevices) : Except NodeError (List String) :=
  match devices.Pci with
  | some pcis =>
    .ok (QualifiedName cdiVendor cdiClass cdiCommonDeviceName ::
      pcis.Devices.map (fun device => QualifiedName cdiVendor cdiClass device.uuid))
  | none => .error (.unknownDeviceType devices.Type)

/-- The struct `DeviceState` (its mutex is held for the whole of each method). -/
structure DeviceState where
  cdi : CDIHandler
  allocatable : AllocatableDevices
  prepared : PreparedClaims
  deriving DecidableEq, Repr

/-- The loop of `DeviceState.preparePcis`. The result is `none` when the Go code
dereferences a nil pointer: `s.allocatable[device.UUID].PCIDevice` is evaluated
before the test that the key exists, and the lookup of a missing key is nil. -/
def preparePcisLoop (allocatable : AllocatableDevices) :
    List AllocatedPci → List PCIDevice → Option (Except NodeError PreparedPcis)
  | [], devices => some (.ok ⟨devices⟩)
  | device :: rest, devices =>
    match GoMap.get allocatable device.UUID with
    | none => none
    | some pciInfo =>
      if ¬ GoMap.has allocatable device.UUID then
        some (.error (.pciDoesNotExist device.UUID))
      else preparePcisLoop allocatable rest (devices ++ [pciInfo])

/-- The method `DeviceState.preparePcis`. -/
def DeviceState.preparePcis (s : DeviceState) (allocated : AllocatedPcis) :
    Option (Except NodeError PreparedPcis) :=
  preparePcisLoop s.allocatable allocated.Devices []

/-- The method `DeviceState.Prepare`: the returned handles or error, and the
state afterwards; `none` when `preparePcis` faults. -/
def DeviceState.Prepare (s : DeviceState) (writeOk : Bool) (claimUID : String)
    (allocation : AllocatedDevices) : Option (Except NodeError (List String) × DeviceState) :=
  match GoMap.get s.prepared claimUID with
  | some devices =>
    match CDIHandler.GetClaimDevices devices with
    | .error err => some (.error (.getDeviceNames err), s)
    | .ok cdiDevices => some (.ok cdiDevices, s)
  | none =>
    match allocation.Pci with
    | none => some (.error (.allocationFailed (.unknownDeviceType allocation.Type)), s)
    | some allocated =>
      match s.preparePcis allocated with
      | none => none
      | some (.error err) => some (.error (.allocationFailed err), s)
      | some (.ok pcis) =>
        match s.cdi.CreateClaimSpecFile writeOk claimUID ⟨some pcis⟩ with
        | .error err => some (.error (.createSpecFile err), s)
        | .ok cdi =>
          match CDIHandler.GetClaimDevices ⟨some pcis⟩ with
          | .error err =>
            some (.error (.getDeviceNames err),
              { s with cdi := cdi, prepared := GoMap.set s.prepared claimUID ⟨some pcis⟩ })
          | .ok cdiDevices =>
            some (.ok cdiDevices,
              { s with cdi := cdi, prepared := GoMap.set s.prepared claimUID ⟨some pcis⟩ })

/-- The method `DeviceState.Unprepare` (`unpreparePcis` returns nil). -/
def DeviceState.Unprepare (s : DeviceState) (removeOk : Bool) (claimUID : String) :
    Option NodeError × DeviceState :=
  match GoMap.get s.prepared claimUID with
  | none => (none, s)
  | some devices =>
    if devices.Type = PciDeviceType then
      match s.cdi.DeleteClaimSpecFile removeOk claimUID with
      | .error err => (some (.deleteSpecFile err), s)
      | .ok cdi => (none, { s with cdi := cdi, prepared := GoMap.delete s.prepared claimUID })
    else (some (.unknownDeviceType devices.Type), s)

/-- The orders in which the three `range` loops of `GetUpdatedSpec` walk their
maps: `s.allocatable`, the local map `pcis`, and `s.prepared`. -/
structure SpecWalk where
  allocatable : AllocatableDevices → AllocatableDevices
  pcis : GoMap AllocatableDevice → GoMap AllocatableDevice
  prepared : PreparedClaims → PreparedClaims

/-- The method `DeviceState.syncAllocatableDevicesToCRDSpec`. -/
def DeviceState.syncAllocatableDevicesToCRDSpec (walk : SpecWalk) (s : DeviceState)
    (spec : NodeAllocationStateSpec) : NodeAllocationStateSpec :=
  let pcis : GoMap AllocatableDevice :=
    (walk.allocatable s.allocatable).foldl
      (fun pcis entry => GoMap.set pcis entry.2.uuid
        ⟨some ⟨entry.2.uuid, entry.2.resourceName, entry.2.pciAddress⟩⟩)
      []
  { spec with AllocatableDevices := (walk.pcis pcis).map (fun entry => entry.2) }

/-- The loop of `DeviceState.syncPreparedDevicesToCRDSpec`: the map `outcas`, or
the error of the first prepared entry that is not of PCI type. -/
def syncPreparedLoop :
    List (String × PreparedDevices) → GoMap DraPci.PreparedDevices →
    Except NodeError (GoMap DraPci.PreparedDevices)
  | [], outcas => .ok outcas
  | (claim, devices) :: rest, outcas =>
    match devices.Pci with
    | none => .error (.unknownDeviceType devices.Type)
    | some pcis =>
      syncPreparedLoop rest
        (GoMap.set outcas claim ⟨some ⟨pcis.Devices.map (fun device => ⟨device.uuid⟩)⟩⟩)

/-- The method `DeviceState.syncPreparedDevicesToCRDSpec`. -/
def DeviceState.syncPreparedDevicesToCRDSpec (walk : SpecWalk) (s : DeviceState)
    (spec : NodeAllocationStateSpec) : Except NodeError NodeAllocationStateSpec :=
  match syncPreparedLoop (walk.prepared s.prepared) [] with
  | .error err => .error err
  | .ok outcas => .ok { spec with PreparedClaims := outcas }

/-- The method `DeviceState.GetUpdatedSpec` (the deep copy of `inspec` is the
value `inspec` itself). -/
def DeviceState.GetUpdatedSpec (walk : SpecWalk) (s : DeviceState)
    (inspec : NodeAllocationStateSpec) : Except NodeError NodeAllocationStateSpec :=
  match s.syncPreparedDevicesToCRDSpec walk (s.syncAllocatableDevicesToCRDSpec walk inspec) with
  | .error err => .error (.syncPrepared err)
  | .ok outspec => .ok outspec

/-- The outcome of `nasclient.Update`: success, a conflict (the only error
`retry.RetryOnConflict` retries), or any other error. -/
inductive UpdateResult where
  | ok
  | conflict
  | failed
  deriving DecidableEq, Repr

/-- What the world outside the agent answers during one attempt: the record
`nasclient.Get` fetches (`none` when it fails), whether the write of a CDI spec
file succeeds, the outcome of `nasclient.Update`, and whether the removal of a
CDI spec file succeeds. -/
structure Attempt where
  fetched : Option NodeAllocationState
  writeOk : Bool
  update : UpdateResult
  removeOk : Bool
  deriving DecidableEq, Repr

/-- The struct `driver` of the agent: its device state (`nascrd` is read only
after a successful `Get` of the same attempt, when it is the fetched record). -/
structure driver where
  state : DeviceState
  deriving DecidableEq, Repr

/-- The method `driver.prepare` of the agent, given what `Get` fetched. -/
def driver.prepare (d : driver) (fetched : Option NodeAllocationState) (writeOk : Bool)
    (claimUID : String) : Option (Except NodeError (List String) × driver) :=
  match fetched with
  | none => some (.error .getFailed, d)
  | some nascrd =>
    match d.state.Prepare writeOk claimUID
        ((GoMap.get nascrd.Spec.AllocatedClaims claimUID).getD ⟨none⟩) with
    | none => none
    | some (.error err, state) => some (.error err, ⟨state⟩)
    | some (.ok prepared, state) => some (.ok prepared, ⟨state⟩)

/-- The method `driver.unprepare` of the agent, given what `Get` fetched. -/
def driver.unprepare (d : driver) (fetched : Option NodeAllocationState) (removeOk : Bool)
    (claimUID : String) : Option NodeError × driver :=
  match fetched with
  | none => (some .getFailed, d)
  | some _ =>
    match d.state.Unprepare removeOk claimUID with
    | (some err, state) => (some err, ⟨state⟩)
    | (none, state) => (none, ⟨state⟩)

/-- What one run of the function retried by `nodePrepareResource` or
`nodeUnprepareResource` leaves behind: its error, whether that error is a
conflict, the handles, the specs handed to `nasclient.Update`, the driver. -/
structure AttemptOutcome where
  err : Option NodeError
  retriable : Bool
  prepared : List String
  updates : List (NodeAllocationStateSpec × UpdateResult)
  driver : driver
  deriving DecidableEq, Repr

/-- The function `nodePrepareResource` hands to `retry.RetryOnConflict`: prepare,
compute the updated spec, update the record, and unprepare when the update
fails (an error of that unprepare is only logged). -/
def prepareAttempt (walk : SpecWalk) (d : driver) (a : Attempt) (claimUID : String) :
    Option AttemptOutcome :=
  match d.prepare a.fetched a.writeOk claimUID with
  | none => none
  | some (.error err, d1) => some ⟨some (.allocatingDevices claimUID err), false, [], [], d1⟩
  | some (.ok prepared, d1) =>
    match d1.state.GetUpdatedSpec walk ((a.fetched.map (fun nascrd => nascrd.Spec)).getD ⟨[], [], []⟩) with
    | .error err => some ⟨some (.updatedSpec err), false, prepared, [], d1⟩
    | .ok updatedSpec =>
      match a.update with
      | .ok => some ⟨none, false, prepared, [(updatedSpec, .ok)], d1⟩
      | .conflict =>
        some ⟨some .updateConflict, true, prepared, [(updatedSpec, .conflict)],
          ⟨(d1.state.Unprepare a.removeOk claimUID).2⟩⟩
      | .failed =>
        some ⟨some .updateFailed, false, prepared, [(updatedSpec, .failed)],
          ⟨(d1.state.Unprepare a.removeOk claimUID).2⟩⟩

/-- The function `nodeUnprepareResource` hands to `retry.RetryOnConflict`. -/
def unprepareAttempt (walk : SpecWalk) (d : driver) (a : Attempt) (claimUID : String) :
    Option AttemptOutcome :=
  match d.unprepare a.fetched a.removeOk claimUID with
  | (some err, d1) => some ⟨some (.unpreparingDevices claimUID err), false, [], [], d1⟩
  | (none, d1) =>
    match d1.state.GetUpdatedSpec walk ((a.fetched.map (fun nascrd => nascrd.Spec)).getD ⟨[], [], []⟩) with
    | .error err => some ⟨some (.updatedSpec err), false, [], [], d1⟩
    | .ok updatedSpec =>
      match a.update with
      | .ok => some ⟨none, false, [], [(updatedSpec, .ok)], d1⟩
      | .conflict => some ⟨some .updateConflict, true, [], [(updatedSpec, .conflict)], d1⟩
      | .failed => some ⟨some .updateFailed, false, [], [(updatedSpec, .failed)], d1⟩

/-- The number of runs `retry.DefaultRetry` allows (its field `Steps`). -/
def defaultRetrySteps : Nat := 5

/-- The library function `retry.RetryOnConflict`: run `fn` until it succeeds,
fails with an error that is not a conflict, or has run `steps` times; the
attempts are numbered from `i`, and the specs handed to `nasclient.Update` are
collected in call order. -/
def retryOnConflict (fn : driver → Attempt → Option AttemptOutcome) (env : Nat → Attempt) :
    Nat → Nat → driver → List (NodeAllocationStateSpec × UpdateResult) → Option AttemptOutcome
  | 0, _, d, updates => some ⟨some .updateConflict, true, [], updates, d⟩
  | steps + 1, i, d, updates =>
    match fn d (env i) with
    | none => none
    | some out =>
      match out.err with
      | none => some { out with updates := updates ++ out.updates }
      | some _ =>
        if out.retriable ∧ steps ≠ 0 then
          retryOnConflict fn env steps (i + 1) out.driver (updates ++ out.updates)
        else some { out with updates := updates ++ out.updates }

/-- The message `NodePrepareResourceResponse`. -/
structure NodePrepareResourceResponse where
  CDIDevices : List String
  Error : Option NodeError
  deriving DecidableEq, Repr

/-- The message `NodeUnprepareResourceResponse`. -/
structure NodeUnprepareResourceResponse where
  Error : Option NodeError
  deriving DecidableEq, Repr

/-- What a call of `nodePrepareResource` leaves behind: the response, the specs
handed to `nasclient.Update` with the outcome of each, and the driver. -/
structure PrepareOutcome where
  response : NodePrepareResourceResponse
  updates : List (NodeAllocationStateSpec × UpdateResult)
  driver : driver
  deriving DecidableEq, Repr

/-- What a call of `nodeUnprepareResource` leaves behind. -/
structure UnprepareOutcome where
  response : NodeUnprepareResourceResponse
  updates : List (NodeAllocationStateSpec × UpdateResult)
  driver : driver
  deriving DecidableEq, Repr

/-- The method `driver.nodePrepareResource` of the agent. -/
def driver.nodePrepareResource (walk : SpecWalk) (d : driver) (env : Nat → Attempt)
    (claimUID : String) : Option PrepareOutcome :=
  match retryOnConflict (fun d a => prepareAttempt walk d a claimUID) env defaultRetrySteps 0 d [] with
  | none => none
  | some out =>
    match out.err with
    | some err => some ⟨⟨[], some (.preparingResource err)⟩, out.updates, out.driver⟩
    | none => some ⟨⟨out.prepared, none⟩, out.updates, out.driver⟩

/-- The method `driver.nodeUnprepareResource` of the agent. -/
def driver.nodeUnprepareResource (walk : SpecWalk) (d : driver) (env : Nat → Attempt)
    (claimUID : String) : Option UnprepareOutcome :=
  match retryOnConflict (fun d a => unprepareAttempt walk d a claimUID) env defaultRetrySteps 0 d [] with
  | none => none
  | some out =>
    match out.err with
    | some err => some ⟨⟨some (.unpreparingResource err)⟩, out.updates, out.driver⟩
    | none => some ⟨⟨none⟩, out.updates, out.driver⟩

end KubeletPlugin

/-! ## Sample records and claims

The two-device node of the scenario of the specification, used where a theorem
is evaluated on a concrete input. -/

/-- The device `A`, of resource name `nvme`. -/
def sampleDevA : AllocatableDevice := ⟨some ⟨"A", "nvme", "0000:01:00.0"⟩⟩

/-- The device `B`, of resource name `nvme`. -/
def sampleDevB : AllocatableDevice := ⟨some ⟨"B", "nvme", "0000:02:00.0"⟩⟩

/-- A pending claim allocation with the given UID and requested device name. -/
def sampleClaim (uid deviceName : String) : ClaimAllocation :=
  ⟨⟨uid, none⟩, .pci ⟨deviceName⟩, [], none, none⟩

/-- A device set of one PCI device. -/
def oneDevice (uuid : String) : AllocatedDevices := ⟨some ⟨[⟨uuid⟩]⟩⟩

/-- The walk of a map in the order of its association list. -/
def listOrder : RangeOrder := fun _ m => m

/-- A Ready record with devices `A` and `B` and no claim. -/
def sampleReady : NodeAllocationState :=
  ⟨⟨[sampleDevA, sampleDevB], [], []⟩, NodeAllocationStateStatusReady⟩

/-- The record of `sampleReady` before the agent reported Ready. -/
def sampleNotReady : NodeAllocationState :=
  ⟨⟨[sampleDevA, sampleDevB], [], []⟩, NodeAllocationStateStatusNotReady⟩

/-- The device `A` under the resource name the driver supports. -/
def kubevirtDevA : AllocatableDevice :=
  ⟨some ⟨"A", "devices.kubevirt.io/nvme", "0000:01:00.0"⟩⟩

/-- A pending claim allocation that asks for the supported device name. -/
def nvmeClaim (uid : String) : ClaimAllocation := sampleClaim uid "devices.kubevirt.io/nvme"

/-- A Ready record with the single device `A`, held by the committed claim `X`. -/
def sampleHeld : NodeAllocationState :=
  ⟨⟨[kubevirtDevA], [("X", oneDevice "A")], []⟩, NodeAllocationStateStatusReady⟩

/-- A record client that fetched `crd` and whose updates succeed or fail as `ok`. -/
def clientOf (crd : NodeAllocationState) (ok : Bool) : NasClient := ⟨some crd, fun _ => ok⟩

/-- A driver whose cache holds device `A` for claim `C1` on node `n1`. -/
def samplePendingDriver : driver := ⟨⟨⟨[(("C1", "n1"), oneDevice "A")]⟩⟩⟩

/-- A driver with an empty cache. -/
def sampleFreshDriver : driver := ⟨NewPciDriver⟩

/-- A Ready record with the single device `A` and no claim. -/
def sampleSingle : NodeAllocationState :=
  ⟨⟨[kubevirtDevA], [], []⟩, NodeAllocationStateStatusReady⟩

/-! ## Invariants of the allocation loop -/

/-- The walk of every `range` over `available` visits exactly its entries. -/
def FairOrder (order : RangeOrder) : Prop := ∀ k m, (order k m).Perm m

/-- Every entry of `available` is stored under its own UUID and is the PCI part
of one of the allocatable devices. -/
def AvailableOk (devices : List AllocatableDevice) (available : GoMap AllocatablePci) : Prop :=
  ∀ e ∈ available, e.1 = e.2.UUID ∧ (⟨some e.2⟩ : AllocatableDevice) ∈ devices

/-- What the loop of `pcidriver.allocate` keeps true of the claims that are not
in `AllocatedClaims`: such a claim holds one device, which has left `available`,
which is an allocatable PCI device of the resource name a claim allocation of
that UID asks for, and which no other such claim holds. -/
def FreshOk (allocatedClaims : GoMap AllocatedDevices) (devices : List AllocatableDevice)
    (batch : List ClaimAllocation) (available : GoMap AllocatablePci)
    (allocated : GoMap (List String)) : Prop :=
  ∀ c, GoMap.get allocatedClaims c = none → ∀ devs, GoMap.get allocated c = some devs →
    ∃ u, devs = [u] ∧ (∀ e ∈ available, e.1 ≠ u) ∧
      (∃ ca ∈ batch, ca.Claim.UID = c ∧ ∃ params pci,
        ca.ClaimParameters = .pci params ∧ (⟨some pci⟩ : AllocatableDevice) ∈ devices ∧
        pci.UUID = u ∧ pci.ResourceName = params.DeviceName) ∧
      (∀ c2, c2 ≠ c → GoMap.get allocatedClaims c2 = none →
        ∀ devs2, GoMap.get allocated c2 = some devs2 → u ∉ devs2)

namespace KubeletPlugin

/-- The walks of `GetUpdatedSpec` visit exactly the entries of their maps. -/
def SpecWalk.Fair (walk : SpecWalk) : Prop :=
  (∀ m, (walk.allocatable m).Perm m) ∧ (∀ m, (walk.pcis m).Perm m) ∧
    (∀ m, (walk.prepared m).Perm m)

/-- The walks in the order of the association lists. -/
def listWalk : SpecWalk := ⟨fun m => m, fun m => m, fun m => m⟩

/-- An attempt in which the record is fetched, the spec file operations succeed
and the update of the record has the given outcome. -/
def attemptWith (nascrd : NodeAllocationState) (update : UpdateResult) : Attempt :=
  ⟨some nascrd, true, update, true⟩

/-- The discovered device `A` of the agent. -/
def agentDevA : PCIDevice :=
  ⟨"A", "1b36:0010", "devices.kubevirt.io/nvme", "0000:01:00.0", "vfio-pci", "20", 0, "1b36:0010"⟩

/-- An agent that discovered device `A` and has prepared nothing. -/
def freshAgent : driver := ⟨⟨⟨[]⟩, [("A", agentDevA)], []⟩⟩

/-- An agent that discovered device `A` and has prepared it for claim `C1`. -/
def preparedAgent : driver :=
  ⟨⟨⟨[("C1", ⟨some ⟨[agentDevA]⟩⟩)]⟩, [("A", agentDevA)], [("C1", ⟨some ⟨[agentDevA]⟩⟩)]⟩⟩

/-- An agent that discovered no device. -/
def emptyAgent : driver := ⟨⟨⟨[]⟩, [], []⟩⟩

end KubeletPlugin

/-- The record of the node of `freshAgent` with device `A` committed to claim
`C1` and nothing prepared, under the given status. -/
def recordAllocated (status : String) : NodeAllocationState :=
  ⟨⟨[kubevirtDevA], [("C1", oneDevice "A")], []⟩, status⟩

/-- The record of the node of `preparedAgent`: device `A` is committed to claim
`C1` and prepared for it. -/
def recordPrepared : NodeAllocationState :=
  ⟨⟨[kubevirtDevA], [("C1", oneDevice "A")], [("C1", ⟨some ⟨[⟨"A"⟩]⟩⟩)]⟩,
    NodeAllocationStateStatusReady⟩

/-- A claim whose allocation selects the given node. -/
def claimOn (uid node : String) : ResourceClaim :=
  ⟨uid, some (buildAllocationResult node true)⟩

/-! ## The node as one system

The record of a node is written by the controller and by the agent. A call of
the controller holds the lock of the node from its `Get` to its `Update`, and an
`Update` of the record succeeds only if the record is the one the `Get` of the
same call fetched, so each call of the controller and each run of the function
an agent call retries is one step on the node: it fetches the record of the node
or fails to, and its update succeeds or fails. A call of `nodePrepareResource`
or `nodeUnprepareResource` is a sequence of such runs, between which the
controller may take steps. -/

/-- A node: its name, its shared record, the controller and the agent. -/
structure NodeSystem where
  name : String
  record : NodeAllocationState
  controller : driver
  agent : KubeletPlugin.driver
  deriving DecidableEq, Repr

/-- What `Get` answers on a node: nothing, or the record of the node. -/
def NodeSystem.Fetches (sys : NodeSystem) (fetched : Option NodeAllocationState) : Prop :=
  fetched = none ∨ fetched = some sys.record

/-- The spec of the record after a call of the controller: each spec the call
handed to `client.Update` replaces the spec when that update succeeds. -/
def written (updateOk : NodeAllocationStateSpec → Bool) (updates : List NodeAllocationStateSpec)
    (current : NodeAllocationStateSpec) : NodeAllocationStateSpec :=
  updates.foldl (fun spec update => if updateOk update then update else spec) current

/-- The spec of the record after a call of the agent: each spec the call handed
to `nasclient.Update` replaces the spec when the outcome of that update is
success. -/
def KubeletPlugin.written (updates : List (NodeAllocationStateSpec × KubeletPlugin.UpdateResult))
    (current : NodeAllocationStateSpec) : NodeAllocationStateSpec :=
  updates.foldl (fun spec update => if update.2 = .ok then update.1 else spec) current

/-- What is asked of a claim before the controller deallocates it: nothing; that
the record does not list it as prepared; or that neither the record nor the
agent lists it as prepared. -/
inductive DeallocationGuard where
  | unguarded
  | record
  | prepared
  deriving DecidableEq, Repr

/-- Whether the guard lets the controller deallocate the claim on the node. -/
def DeallocationGuard.Allows (guard : DeallocationGuard) (sys : NodeSystem) (claimUID : String) :
    Prop :=
  match guard with
  | .unguarded => True
  | .record => GoMap.has sys.record.Spec.PreparedClaims claimUID = false
  | .prepared =>
    GoMap.has sys.record.Spec.PreparedClaims claimUID = false ∧
      GoMap.has sys.agent.state.prepared claimUID = false

/-- The node after a call of the controller that handed `updates` to
`client.Update` and left the pending cache `pending`. -/
def NodeSystem.afterController (sys : NodeSystem) (client : NasClient)
    (updates : List NodeAllocationStateSpec) (pending : PerNodeAllocatedClaims) : NodeSystem :=
  { sys with
    record := { sys.record with Spec := written client.updateOk updates sys.record.Spec }
    controller := ⟨⟨pending⟩⟩ }

/-- The node after one run of the function an agent call retries. -/
def NodeSystem.afterAgent (sys : NodeSystem) (out : KubeletPlugin.AttemptOutcome) : NodeSystem :=
  { sys with
    record := { sys.record with Spec := KubeletPlugin.written out.updates sys.record.Spec }
    agent := out.driver }

/-- One step on a node: the controller filters a batch, commits a claim or
deallocates a claim that the guard allows, or the agent runs once the function
that `nodePrepareResource` or `nodeUnprepareResource` retries. Every outcome of
the call is a step, whether its `Get`, its spec file operations and its `Update`
succeed or fail. -/
inductive SystemStep (guard : DeallocationGuard) : NodeSystem → NodeSystem → Prop where
  | filter (sys : NodeSystem) (order : RangeOrder) (client : NasClient)
      (allcas : List ClaimAllocation) (out : FilterOutcome) :
      FairOrder order → sys.Fetches client.getResult →
      driver.unsuitableNode order sys.controller client allcas sys.name = some out →
      SystemStep guard sys { sys with controller := ⟨⟨out.pending⟩⟩ }
  | commit (sys : NodeSystem) (client : NasClient) (claim : ResourceClaim)
      (params : ClaimParameters) :
      sys.Fetches client.getResult →
      SystemStep guard sys
        (sys.afterController client
          (driver.allocate sys.controller client claim params sys.name).updates
          (driver.allocate sys.controller client claim params sys.name).pending)
  | deallocate (sys : NodeSystem) (client : NasClient) (claim : ResourceClaim)
      (out : DeallocateOutcome) :
      guard.Allows sys claim.UID → sys.Fetches client.getResult →
      driver.Deallocate sys.controller client claim = some out →
      SystemStep guard sys (sys.afterController client out.updates out.pending)
  | prepare (sys : NodeSystem) (walk : KubeletPlugin.SpecWalk) (a : KubeletPlugin.Attempt)
      (claimUID : String) (out : KubeletPlugin.AttemptOutcome) :
      walk.Fair → sys.Fetches a.fetched →
      KubeletPlugin.prepareAttempt walk sys.agent a claimUID = some out →
      SystemStep guard sys (sys.afterAgent out)
  | unprepare (sys : NodeSystem) (walk : KubeletPlugin.SpecWalk) (a : KubeletPlugin.Attempt)
      (claimUID : String) (out : KubeletPlugin.AttemptOutcome) :
      walk.Fair → sys.Fetches a.fetched →
      KubeletPlugin.unprepareAttempt walk sys.agent a claimUID = some out →
      SystemStep guard sys (sys.afterAgent out)

/-- The states a node reaches from `init` by steps under the guard. -/
inductive Reachable (guard : DeallocationGuard) (init : NodeSystem) : NodeSystem → Prop where
  | start : Reachable guard init init
  | step (sys next : NodeSystem) :
      Reachable guard init sys → SystemStep guard sys next → Reachable guard init next

/-- A node at its start: the record lists no claim as allocated or prepared, and
the agent lists no claim as prepared. -/
def NodeSystem.Initial (sys : NodeSystem) : Prop :=
  sys.record.Spec.AllocatedClaims = [] ∧ sys.record.Spec.PreparedClaims = [] ∧
    sys.agent.state.prepared = []

/-- The node `n1` at its start: device `A` is discovered and published, the
record is Ready. -/
def sampleNode : NodeSystem :=
  ⟨"n1", sampleSingle, sampleFreshDriver, KubeletPlugin.freshAgent⟩

/-- The node `n1` after the claim `C1` was filtered against it: the cache holds
device `A` for `C1`. -/
def nodeFiltered : NodeSystem :=
  ⟨"n1", sampleSingle, samplePendingDriver, KubeletPlugin.freshAgent⟩

/-- The node `n1` after the claim `C1` was committed. -/
def nodeCommitted : NodeSystem :=
  ⟨"n1", recordAllocated NodeAllocationStateStatusReady, sampleFreshDriver,
    KubeletPlugin.freshAgent⟩

/-- The node `n1` after the agent prepared the claim `C1`. -/
def nodePrepared : NodeSystem :=
  ⟨"n1", recordPrepared, sampleFreshDriver, KubeletPlugin.preparedAgent⟩

/-- The node `n1` with the claim `C1` prepared and not allocated. -/
def nodeDeallocated : NodeSystem :=
  ⟨"n1", { recordPrepared with Spec := { recordPrepared.Spec with AllocatedClaims := [] } },
    sampleFreshDriver, KubeletPlugin.preparedAgent⟩

/-- The node `n1` after a prepare of the claim `C1` whose update of the record
and whose removal of the spec file both failed: the agent lists `C1` as
prepared, the record does not. -/
def nodeUnwritten : NodeSystem :=
  ⟨"n1", recordAllocated NodeAllocationStateStatusReady, sampleFreshDriver,
    KubeletPlugin.preparedAgent⟩

/-- The node `n1` after the controller then deallocated the claim `C1`. -/
def nodeUnwrittenDeallocated : NodeSystem :=
  ⟨"n1", sampleSingle, sampleFreshDriver, KubeletPlugin.preparedAgent⟩

/-- An attempt in which the record is fetched and the spec file is written, and
the update of the record and the removal of the spec file both fail. -/
def KubeletPlugin.failingAttempt (nascrd : NodeAllocationState) : KubeletPlugin.Attempt :=
  ⟨some nascrd, true, .failed, false⟩

/-! ## Filtering a list of candidate nodes (driver.go) -/

/-- The loop of `unique`: `set` holds the strings met so far, `news` the result
so far. -/
def uniqueLoop : List String → GoMap Unit → List String → List String
  | [], _, news => news
  | str :: rest, set, news =>
    if ¬ GoMap.has set str then uniqueLoop rest (GoMap.set set str ()) (news ++ [str])
    else uniqueLoop rest set news

/-- The function `unique`. -/
def unique (s : List String) : List String := uniqueLoop s [] []

/-- The list of first occurrences of a list, in the words of the specification:
every string is kept where it occurs first and dropped from the rest. -/
def firstOccurrences : List String → List String
  | [] => []
  | str :: rest => str :: (firstOccurrences rest).filter (fun other => decide (other ≠ str))

/-- The first loop of `driver.UnsuitableNodes`, from position `i` of
`potentialNodes` on: `order i` and `client i` are the walk of `available` and
the record client of the call of `unsuitableNode` for that position. -/
def unsuitableNodesLoop (order : Nat → RangeOrder) (client : Nat → NasClient) :
    Nat → List String → driver → List ClaimAllocation → Option FilterOutcome
  | _, [], d, cas => some ⟨none, cas, d.pci.PendingAllocatedClaims⟩
  | i, node :: rest, d, cas =>
    match driver.unsuitableNode (order i) d (client i) cas node with
    | none => none
    | some out =>
      match out.err with
      | some err => some { out with err := some (.processingNode node err) }
      | none => unsuitableNodesLoop order client (i + 1) rest ⟨⟨out.pending⟩⟩ out.allcas

/-- The method `driver.UnsuitableNodes`: filter every candidate node, then
replace each unsuitable-node list by `unique` of it. -/
def driver.UnsuitableNodes (order : Nat → RangeOrder) (client : Nat → NasClient) (d : driver)
    (cas : List ClaimAllocation) (potentialNodes : List String) : Option FilterOutcome :=
  match unsuitableNodesLoop order client 0 potentialNodes d cas with
  | none => none
  | some out =>
    match out.err with
    | some _ => some out
    | none =>
      some { out with
        allcas := out.allcas.map
          (fun ca => { ca with UnsuitableNodes := unique ca.UnsuitableNodes }) }

/-! ## Requests and devices of the allocation loop -/

/-- Whether a claim allocation is not in `AllocatedClaims` and carries PCI claim
parameters that ask for `deviceName`. -/
def requestsFresh (allocatedClaims : GoMap AllocatedDevices) (deviceName : String)
    (ca : ClaimAllocation) : Bool :=
  match GoMap.get allocatedClaims ca.Claim.UID with
  | some _ => false
  | none =>
    match ca.ClaimParameters with
    | .pci claimParams => decide (claimParams.DeviceName = deviceName)
    | .other => false

/-- The number of claim allocations of a batch that are not in `AllocatedClaims`
and ask for `deviceName`. -/
def countRequests (allocatedClaims : GoMap AllocatedDevices) (deviceName : String)
    (batch : List ClaimAllocation) : Nat :=
  batch.countP (requestsFresh allocatedClaims deviceName)

/-- The number of entries of `available` whose resource name is `deviceName`. -/
def countDevices (deviceName : String) (available : GoMap AllocatablePci) : Nat :=
  available.countP (fun e => decide (e.2.ResourceName = deviceName))

/-- A Go map holds one entry per key. -/
def GoMap.NodupKeys {V : Type} (m : GoMap V) : Prop := (m.map (fun e => e.1)).Nodup

/-- The method `PreparedDevices.Type` of the record. -/
def PreparedDevices.Type (d : PreparedDevices) : String :=
  if d.Pci.isSome then PciDeviceType else UnknownDeviceType

namespace KubeletPlugin

/-- The inner loop of `syncPreparedDevicesFromCRDSpec` over the devices of one
claim. The result is `none` when the Go code dereferences a nil pointer:
`pcis[d.UUID].PCIDevice` for a UUID that is no key of `pcis`. -/
def syncDevicesLoop (pcis : AllocatableDevices) :
    List PreparedPci → List PCIDevice → Option (List PCIDevice)
  | [], devices => some devices
  | d :: rest, devices =>
    match GoMap.get pcis d.UUID with
    | none => none
    | some device => syncDevicesLoop pcis rest (devices ++ [device])

/-- The loop of `syncPreparedDevicesFromCRDSpec` over the prepared claims of the
record: the map `prepared`, or the error of the first entry that is not of PCI
type; `none` when the inner loop faults. -/
def syncClaimsLoop (pcis : AllocatableDevices) :
    List (String × DraPci.PreparedDevices) → PreparedClaims →
    Option (Except NodeError PreparedClaims)
  | [], prepared => some (.ok prepared)
  | (claim, devices) :: rest, prepared =>
    match devices.Pci with
    | none => some (.error (.unknownDeviceType devices.Type))
    | some recorded =>
      match syncDevicesLoop pcis recorded.Devices [] with
      | none => none
      | some found => syncClaimsLoop pcis rest (GoMap.set prepared claim ⟨some ⟨found⟩⟩)

/-- The method `DeviceState.syncPreparedDevicesFromCRDSpec`; `walk` is the order
in which `range` walks the prepared claims of the record. -/
def DeviceState.syncPreparedDevicesFromCRDSpec
    (walk : GoMap DraPci.PreparedDevices → GoMap DraPci.PreparedDevices) (s : DeviceState)
    (spec : NodeAllocationStateSpec) : Option (Except NodeError DeviceState) :=
  match syncClaimsLoop s.allocatable (walk spec.PreparedClaims) [] with
  | none => none
  | some (.error err) => some (.error err)
  | some (.ok prepared) => some (.ok { s with prepared := prepared })

/-- The constructor `NewDeviceState`: `handler` is what `NewCDIHandler` returns
(`none` when the registry cannot be refreshed), `commonOk` whether
`CreateCommonSpecFile` succeeds, `spec` the spec of the record of the
configuration. -/
def NewDeviceState (handler : Option CDIHandler) (commonOk : Bool)
    (walk : GoMap DraPci.PreparedDevices → GoMap DraPci.PreparedDevices)
    (spec : NodeAllocationStateSpec) (possibleDevices : AllocatableDevices) :
    Option (Except NodeError DeviceState) :=
  match handler with
  | none => some (.error .createHandler)
  | some cdi =>
    if ¬ commonOk then some (.error .commonSpecFile)
    else
      match DeviceState.syncPreparedDevicesFromCRDSpec walk ⟨cdi, possibleDevices, []⟩ spec with
      | none => none
      | some (.error err) => some (.error (.syncFromRecord err))
      | some (.ok state) => some (.ok state)

/-- The message `Claim` of a kubelet request. -/
structure Claim where
  Namespace : String
  Uid : String
  Name : String
  ResourceHandle : String
  deriving DecidableEq, Repr

/-- What a call of `NodePrepareResources` leaves behind: the map `Claims` of the
response, the returned error, the specs handed to `nasclient.Update`, and the
driver. -/
structure PrepareResourcesOutcome where
  Claims : GoMap NodePrepareResourceResponse
  err : Option NodeError
  updates : List (NodeAllocationStateSpec × UpdateResult)
  driver : driver
  deriving DecidableEq, Repr

/-- What a call of `NodeUnprepareResources` leaves behind. -/
structure UnprepareResourcesOutcome where
  Claims : GoMap NodeUnprepareResourceResponse
  err : Option NodeError
  updates : List (NodeAllocationStateSpec × UpdateResult)
  driver : driver
  deriving DecidableEq, Repr

/-- The loop of `NodePrepareResources`, from position `i` of the request on;
`env i` are the attempts of the claim at that position. -/
def prepareResourcesLoop (walk : SpecWalk) (env : Nat → Nat → Attempt) :
    Nat → List Claim → PrepareResourcesOutcome → Option PrepareResourcesOutcome
  | _, [], acc => some acc
  | i, claim :: rest, acc =>
    match acc.driver.nodePrepareResource walk (env i) claim.Uid with
    | none => none
    | some out =>
      prepareResourcesLoop walk env (i + 1) rest
        ⟨GoMap.set acc.Claims claim.Uid out.response, none, acc.updates ++ out.updates,
          out.driver⟩

/-- The method `driver.NodePrepareResources` of the agent; the result is `none`
when the preparation of one of the claims faults. -/
def driver.NodePrepareResources (walk : SpecWalk) (d : driver) (env : Nat → Nat → Attempt)
    (claims : List Claim) : Option PrepareResourcesOutcome :=
  prepareResourcesLoop walk env 0 claims ⟨[], none, [], d⟩

/-- The loop of `NodeUnprepareResources`, from position `i` of the request on. -/
def unprepareResourcesLoop (walk : SpecWalk) (env : Nat → Nat → Attempt) :
    Nat → List Claim → UnprepareResourcesOutcome → Option UnprepareResourcesOutcome
  | _, [], acc => some acc
  | i, claim :: rest, acc =>
    match acc.driver.nodeUnprepareResource walk (env i) claim.Uid with
    | none => none
    | some out =>
      unprepareResourcesLoop walk env (i + 1) rest
        ⟨GoMap.set acc.Claims claim.Uid out.response, none, acc.updates ++ out.updates,
          out.driver⟩

/-- The method `driver.NodeUnprepareResources` of the agent. -/
def driver.NodeUnprepareResources (walk : SpecWalk) (d : driver) (env : Nat → Nat → Attempt)
    (claims : List Claim) : Option UnprepareResourcesOutcome :=
  unprepareResourcesLoop walk env 0 claims ⟨[], none, [], d⟩

/-- The library function `strings.ToLower` on the letters of a PCI id. -/
def toLower (s : String) : String := ⟨s.data.map Char.toLower⟩

/-- One entry of `/sys/bus/pci/devices` as the handler reads it: its name (the
bus address), the value of `PCI_ID` in its `uevent` file, its driver, its IOMMU
group (each `none` when the read fails), its NUMA node, and the UUID
`uuid.New` draws for it. -/
structure HostPCIDevice where
  address : String
  ueventPciID : Option String
  driver : Option String
  iommuGroup : Option String
  numaNode : Int
  uuid : String
  deriving DecidableEq, Repr

/-- The method `GetDevicePCIID` of the handler: the id in lower case. -/
def GetDevicePCIID (entry : HostPCIDevice) : Option String := entry.ueventPciID.map toLower

/-- The body of the walk of `DiscoverPermittedHostPCIDevices` for one entry. -/
def discoverStep (supportedPCIDeviceMap : GoMap String) (pciDevicesMap : GoMap (List PCIDevice))
    (entry : HostPCIDevice) : GoMap (List PCIDevice) :=
  match GetDevicePCIID entry with
  | none => pciDevicesMap
  | some pciID =>
    match GoMap.get supportedPCIDeviceMap pciID with
    | none => pciDevicesMap
    | some resourceName =>
      match entry.driver with
      | none => pciDevicesMap
      | some driver =>
        if driver ≠ "vfio-pci" then pciDevicesMap
        else
          match entry.iommuGroup with
          | none => pciDevicesMap
          | some iommuGroup =>
            GoMap.set pciDevicesMap pciID
              ((GoMap.get pciDevicesMap pciID).getD [] ++
                [⟨entry.uuid, pciID, resourceName, entry.address, driver, iommuGroup,
                  entry.numaNode, pciID⟩])

/-- The function `DiscoverPermittedHostPCIDevices` over the entries the walk of
`/sys/bus/pci/devices` visits (the walk function returns nil for every entry,
so the returned error is nil). -/
def DiscoverPermittedHostPCIDevices (host : List HostPCIDevice)
    (supportedPCIDeviceMap : GoMap String) : GoMap (List PCIDevice) :=
  host.foldl (discoverStep supportedPCIDeviceMap) []

/-- The function `enumerateAllPossibleDevices`; `walk` and `walk2` are the orders
in which its two `range` loops walk the supported devices. -/
def enumerateAllPossibleDevices (walk walk2 : AllocatableDevices → AllocatableDevices)
    (host : List HostPCIDevice) (supportedAllocatedDevices : AllocatableDevices) :
    AllocatableDevices :=
  let supportedPCIDeviceMap : GoMap String :=
    (walk supportedAllocatedDevices).foldl
      (fun m device => GoMap.set m (toLower device.2.vendorSelector) device.2.resourceName) []
  let discoveredDevices := DiscoverPermittedHostPCIDevices host supportedPCIDeviceMap
  (walk2 supportedAllocatedDevices).foldl
    (fun allDevices device =>
      match GoMap.get discoveredDevices device.2.vendorSelector with
      | some devices =>
        devices.foldl (fun all discoveredDevice => GoMap.set all discoveredDevice.uuid discoveredDevice)
          allDevices
      | none => allDevices)
    []

/-- The devices `getAllocatableDevicesFromResourceClass` builds for one selector
of the device class parameters. -/
def supportedClass (vendorSelector resourceName : String) : AllocatableDevices :=
  [(vendorSelector, ⟨"", vendorSelector, resourceName, "", "", "", 0, ""⟩)]

/-- The host entry of an NVMe device bound to `vfio-pci`, whose `uevent` file
gives the id in upper case, as the kernel prints it. -/
def hostNvme : HostPCIDevice := ⟨"0000:01:00.0", some "1B36:0010", some "vfio-pci", some "20", 0, "A"⟩

end KubeletPlugin

/-! ## Sample requests and inventories of the agent -/

/-- A Ready record with device `A`, where claim `C1` is committed to a device
`B` that the node does not publish and claim `C2` to device `A`. -/
def recordTwoClaims : NodeAllocationState :=
  ⟨⟨[kubevirtDevA], [("C1", oneDevice "B"), ("C2", oneDevice "A")], []⟩,
    NodeAllocationStateStatusReady⟩

namespace KubeletPlugin

/-- The claim of a kubelet request with the given UID. -/
def requestClaim (uid : String) : Claim := ⟨"default", uid, "claim-" ++ uid, ""⟩

/-- The inventory of an agent that started again: the device `A` is discovered
under a newly drawn UUID. -/
def restartedInventory : AllocatableDevices := [("A2", { agentDevA with uuid := "A2" })]

/-- The walk of the prepared claims of the record in the order of the
association list. -/
def listClaimsWalk : GoMap DraPci.PreparedDevices → GoMap DraPci.PreparedDevices := fun m => m

/-- Every prepared claim is of PCI type. -/
def AllPci (prepared : PreparedClaims) : Prop := ∀ e ∈ prepared, e.2.Pci.isSome = true

/-- Every prepared device is in `allocatable` under its UUID. -/
def PreparedKnown (s : DeviceState) : Prop :=
  ∀ e ∈ s.prepared, ∀ pcis, e.2.Pci = some pcis →
    ∀ device ∈ pcis.Devices, GoMap.get s.allocatable device.uuid = some device

end KubeletPlugin

namespace KubeletPlugin

/-- What the agent keeps true of its device state: the allocatable map holds one
entry per key, every device under its own UUID; the prepared map holds one entry
per claim, every entry of PCI type, every prepared device in the allocatable
map. -/
def DeviceState.WellFormed (s : DeviceState) : Prop :=
  GoMap.NodupKeys s.allocatable ∧ (∀ e ∈ s.allocatable, e.1 = e.2.uuid) ∧
    GoMap.NodupKeys s.prepared ∧ AllPci s.prepared ∧ PreparedKnown s

end KubeletPlugin

/-! ## Lemmas on Go maps and on the pending cache -/

namespace GoMap

variable {V : Type}

/-- A key absent from the front part of a map is looked up in the rest. -/
theorem get_append_of_none (m m2 : GoMap V) (k : String) (h : get m k = none) :
    get (m ++ m2) k = get m2 k := by
  induction m with
  | nil => rfl
  | cons e es ih =>
    simp only [get] at h
    split at h
    · cases h
    · rename_i hne
      simp only [List.cons_append, get, hne, if_false]
      exact ih h

/-- Lookup after replacing in place the value of every entry of key `k`. -/
theorem get_map_replace (m : GoMap V) (k j : String) (v : V) :
    get (m.map (fun e => if e.1 = k then (k, v) else e)) j
      = if j = k then (if (get m k).isSome then some v else none) else get m j := by
  induction m with
  | nil => simp [get]
  | cons e es ih =>
    simp only [List.map_cons, get]
    by_cases hek : e.1 = k
    · by_cases hjk : j = k
      · subst hjk; simp [hek]
      · have : ¬ k = j := fun h => hjk h.symm
        have h2 : ¬ e.1 = j := by rw [hek]; exact this
        simp [hek, hjk, this, h2, ih]
    · by_cases hjk : j = k
      · subst hjk; simp [hek, ih]
      · simp [hek, hjk, ih]

/-- Lookup after the assignment `m[k] = v`. -/
theorem get_set (m : GoMap V) (k j : String) (v : V) :
    get (set m k v) j = if j = k then some v else get m j := by
  unfold set has
  by_cases h : (get m k).isSome = true
  · simp only [h, if_true]
    rw [get_map_replace]
    simp [h]
  · simp only [h]
    have hn : get m k = none := by simpa using h
    by_cases hjk : j = k
    · subst hjk
      simp [get_append_of_none m _ j hn, get]
    · have hkj : ¬ k = j := fun hh => hjk hh.symm
      simp only [Bool.false_eq_true, if_false, hjk]
      by_cases hj : get m j = none
      · rw [get_append_of_none m _ j hj, hj]; simp [get, hkj]
      · clear h hn
        induction m with
        | nil => simp [get] at hj
        | cons e es ih =>
          simp only [List.cons_append, get] at hj ⊢
          split
          · rfl
          · rename_i hne
            simp only [hne, if_false] at hj
            exact ih hj

/-- The assigned key reads back the assigned value. -/
theorem get_set_self (m : GoMap V) (k : String) (v : V) : get (set m k v) k = some v := by
  rw [get_set]; simp

/-- An assignment leaves every other key as it was. -/
theorem get_set_of_ne (m : GoMap V) (k j : String) (v : V) (h : j ≠ k) :
    get (set m k v) j = get m j := by
  rw [get_set]; simp [h]

/-- The entries of `delete(m, k)` are the entries of `m` of another key. -/
theorem mem_delete (m : GoMap V) (k : String) (e : String × V) :
    e ∈ delete m k ↔ e ∈ m ∧ e.1 ≠ k := by
  simp [delete]

/-- An entry of the map after `m[k] = v` is an old entry or the new one. -/
theorem mem_set (m : GoMap V) (k : String) (v : V) (e : String × V) (h : e ∈ set m k v) :
    e ∈ m ∨ e = (k, v) := by
  unfold set at h
  split at h
  · rw [List.mem_map] at h
    obtain ⟨a, ha, hae⟩ := h
    split at hae
    · right; exact hae.symm
    · left; rw [← hae]; exact ha
  · rw [List.mem_append] at h
    rcases h with h | h
    · left; exact h
    · right; simpa using h

end GoMap

namespace PerNodeAllocatedClaims

/-- Lookup in the cache after `Set`. -/
theorem find_Set (p : PerNodeAllocatedClaims) (c n c2 n2 : String) (d : AllocatedDevices) :
    (p.Set c n d).find c2 n2 = if (c2, n2) = (c, n) then some d else p.find c2 n2 := by
  unfold PerNodeAllocatedClaims.Set find
  simp only
  induction p.allocations with
  | nil =>
    by_cases h : (c2, n2) = (c, n)
    · simp [h]
    · have h2 : ¬ (c, n) = (c2, n2) := fun hh => h hh.symm
      simp [h, List.find?, h2]
  | cons e es ih =>
    by_cases hk : e.1 = (c, n)
    · simp only [List.filter_cons, hk, ne_eq, not_true_eq_false, decide_False, Bool.false_eq_true,
        if_false]
      rw [ih]
      by_cases h : (c2, n2) = (c, n)
      · simp [h]
      · have h2 : ¬ (c, n) = (c2, n2) := fun hh => h hh.symm
        simp [h, List.find?, hk, h2]
    · simp only [List.filter_cons, hk, ne_eq, not_false_eq_true, decide_True, if_true,
        List.cons_append, List.find?]
      by_cases he : e.1 = (c2, n2)
      · have h : ¬ (c2, n2) = (c, n) := by rw [← he]; exact hk
        simp [he, h]
      · simp only [he, decide_False]
        exact ih

/-- After `Remove` the claim has no entry on any node. -/
theorem find_Remove_self (p : PerNodeAllocatedClaims) (c n : String) :
    (p.Remove c).find c n = none := by
  unfold PerNodeAllocatedClaims.Remove find
  have hnone : List.find? (fun e => decide (e.1 = (c, n)))
      (List.filter (fun e => decide (e.1.1 ≠ c)) p.allocations) = none := by
    rw [List.find?_eq_none]
    intro e he
    rw [List.mem_filter] at he
    have h1 : e.1.1 ≠ c := by simpa using he.2
    simp only [decide_eq_true_eq]
    intro h
    apply h1
    rw [h]
  simp only [hnone, Option.map_none']

end PerNodeAllocatedClaims

/-! ## The allocation loop -/

/-- Copying the devices of an allocated claim touches the key of that claim
only. -/
theorem appendAllocated_get_of_ne (claimUID : String) (devices : List AllocatedPci)
    (allocated : GoMap (List String)) (c : String) (h : c ≠ claimUID) :
    GoMap.get (appendAllocated claimUID devices allocated) c = GoMap.get allocated c := by
  unfold appendAllocated
  induction devices generalizing allocated with
  | nil => rfl
  | cons d ds ih =>
    rw [List.foldl_cons, ih, GoMap.get_set_of_ne _ _ _ _ h]

/-- One step of the first loop of `pcidriver.allocate` keeps `AvailableOk`. -/
theorem availableStep_ok (allocatedClaims : GoMap AllocatedDevices)
    (devices : List AllocatableDevice) (available : GoMap AllocatablePci)
    (device : AllocatableDevice) (hd : device ∈ devices) (h : AvailableOk devices available) :
    AvailableOk devices (availableStep allocatedClaims available device) := by
  unfold availableStep
  split
  · exact h
  · cases hp : device.Pci with
    | none => exact h
    | some pci =>
      simp only
      split
      · exact h
      · intro e he
        rcases GoMap.mem_set _ _ _ _ he with he | he
        · exact h e he
        · subst he
          refine ⟨rfl, ?_⟩
          have : device = ⟨some pci⟩ := by
            cases device
            simp only at hp
            rw [hp]
          rw [← this]
          exact hd

/-- The first loop of `pcidriver.allocate` keeps `AvailableOk`. -/
theorem foldl_availableStep_ok (allocatedClaims : GoMap AllocatedDevices)
    (devices : List AllocatableDevice) (l : List AllocatableDevice)
    (available : GoMap AllocatablePci) (hl : ∀ d ∈ l, d ∈ devices)
    (h : AvailableOk devices available) :
    AvailableOk devices (l.foldl (availableStep allocatedClaims) available) := by
  induction l generalizing available with
  | nil => exact h
  | cons d ds ih =>
    rw [List.foldl_cons]
    apply ih
    · intro x hx
      exact hl x (List.mem_cons_of_mem _ hx)
    · exact availableStep_ok _ _ _ _ (hl d (List.mem_cons_self _ _)) h

/-- The `available` map of a record satisfies `AvailableOk`. -/
theorem availableDevices_ok (crd : NodeAllocationState) :
    AvailableOk crd.Spec.AllocatableDevices (availableDevices crd) := by
  unfold availableDevices
  apply foldl_availableStep_ok
  · intro d hd; exact hd
  · intro e he; cases he

/-- The entry the inner loop stops at belongs to the walk and has the
requested resource name. -/
theorem firstMatch_some (walk : GoMap AllocatablePci) (deviceName : String)
    (e : String × AllocatablePci) (h : firstMatch walk deviceName = some e) :
    e ∈ walk ∧ e.2.ResourceName = deviceName := by
  unfold firstMatch at h
  refine ⟨List.mem_of_find?_eq_some h, ?_⟩
  have := List.find?_some h
  simpa using this

/-- The second loop of `pcidriver.allocate` keeps `FreshOk`, for every fair
walk order. -/
theorem allocateLoop_fresh (order : RangeOrder) (horder : FairOrder order)
    (allocatedClaims : GoMap AllocatedDevices) (devices : List AllocatableDevice)
    (batch : List ClaimAllocation) (cas : List ClaimAllocation) :
    ∀ (k : Nat) (available : GoMap AllocatablePci) (allocated result : GoMap (List String)),
      (∀ ca ∈ cas, ca ∈ batch) → AvailableOk devices available →
      FreshOk allocatedClaims devices batch available allocated →
      allocateLoop order allocatedClaims k cas available allocated = some result →
      ∃ available2, FreshOk allocatedClaims devices batch available2 result := by
  induction cas with
  | nil =>
    intro k available allocated result _ _ hf h
    simp only [allocateLoop, Option.some.injEq] at h
    subst h
    exact ⟨available, hf⟩
  | cons ca cas ih =>
    intro k available allocated result hsub hav hf h
    have hsub2 : ∀ x ∈ cas, x ∈ batch := fun x hx => hsub x (List.mem_cons_of_mem _ hx)
    unfold allocateLoop at h
    cases hc : GoMap.get allocatedClaims ca.Claim.UID with
    | some v =>
      simp only [hc] at h
      cases hv : v.Pci with
      | none => simp [hv] at h
      | some pcis =>
        simp only [hv] at h
        refine ih _ _ _ _ hsub2 hav ?_ h
        intro c hcn devs hdevs
        have hne : c ≠ ca.Claim.UID := by
          intro heq; rw [heq, hc] at hcn; cases hcn
        rw [appendAllocated_get_of_ne _ _ _ _ hne] at hdevs
        obtain ⟨u, hu, hout, hca, hother⟩ := hf c hcn devs hdevs
        refine ⟨u, hu, hout, hca, ?_⟩
        intro c2 hc2 hc2n devs2 hdevs2
        have hne2 : c2 ≠ ca.Claim.UID := by
          intro heq; rw [heq, hc] at hc2n; cases hc2n
        rw [appendAllocated_get_of_ne _ _ _ _ hne2] at hdevs2
        exact hother c2 hc2 hc2n devs2 hdevs2
    | none =>
      simp only [hc] at h
      cases hp : ca.ClaimParameters with
      | other =>
        simp only [hp] at h
        cases ho : order k available with
        | nil =>
          simp only [ho] at h
          exact ih _ _ _ _ hsub2 hav hf h
        | cons x xs => simp [ho] at h
      | pci params =>
        simp only [hp] at h
        cases hm : firstMatch (order k available) params.DeviceName with
        | none =>
          simp only [hm] at h
          exact ih _ _ _ _ hsub2 hav hf h
        | some e =>
          obtain ⟨uuid, device⟩ := e
          simp only [hm] at h
          obtain ⟨hmem0, hname⟩ := firstMatch_some _ _ _ hm
          have hmem : (uuid, device) ∈ available := (horder k available).mem_iff.mp hmem0
          obtain ⟨hkey, hdev⟩ := hav _ hmem
          simp only at hkey hdev hname
          have hav2 : AvailableOk devices (GoMap.delete available uuid) := by
            intro e he
            exact hav e ((GoMap.mem_delete _ _ _).mp he).1
          refine ih _ _ _ _ hsub2 hav2 ?_ h
          intro c hcn devs hdevs
          by_cases hcu : c = ca.Claim.UID
          · subst hcu
            rw [GoMap.get_set_self] at hdevs
            simp only [Option.some.injEq] at hdevs
            refine ⟨device.UUID, hdevs.symm, ?_, ?_, ?_⟩
            · intro e he
              rw [← hkey]
              exact ((GoMap.mem_delete _ _ _).mp he).2
            · exact ⟨ca, hsub ca (List.mem_cons_self _ _), rfl, params, device, hp, hdev, rfl,
                hname⟩
            · intro c2 hc2 hc2n devs2 hdevs2
              rw [GoMap.get_set_of_ne _ _ _ _ hc2] at hdevs2
              obtain ⟨u2, hu2, hout2, _, _⟩ := hf c2 hc2n devs2 hdevs2
              rw [hu2, List.mem_singleton, ← hkey]
              intro heq
              exact hout2 _ hmem heq
          · rw [GoMap.get_set_of_ne _ _ _ _ hcu] at hdevs
            obtain ⟨u, hu, hout, hca, hother⟩ := hf c hcn devs hdevs
            refine ⟨u, hu, ?_, hca, ?_⟩
            · intro e he
              exact hout e ((GoMap.mem_delete _ _ _).mp he).1
            · intro c2 hc2 hc2n devs2 hdevs2
              by_cases hc2u : c2 = ca.Claim.UID
              · subst hc2u
                rw [GoMap.get_set_self] at hdevs2
                simp only [Option.some.injEq] at hdevs2
                rw [← hdevs2, List.mem_singleton, ← hkey]
                intro heq
                exact hout _ hmem heq.symm
              · rw [GoMap.get_set_of_ne _ _ _ _ hc2u] at hdevs2
                exact hother c2 hc2 hc2n devs2 hdevs2

/-- The result of `pcidriver.allocate` satisfies `FreshOk`, for every fair
walk order. -/
theorem allocate_fresh (order : RangeOrder) (horder : FairOrder order)
    (crd : NodeAllocationState) (pcicas : List ClaimAllocation)
    (allocated : GoMap (List String))
    (h : pcidriver.allocate order crd pcicas = some allocated) :
    ∃ available, FreshOk crd.Spec.AllocatedClaims crd.Spec.AllocatableDevices pcicas
      available allocated := by
  unfold pcidriver.allocate at h
  refine allocateLoop_fresh order horder _ _ pcicas pcicas 0 _ _ _ (fun _ hca => hca)
    (availableDevices_ok crd) ?_ h
  intro c _ devs hdevs
  simp [GoMap.get] at hdevs

/-- The walk in list order is fair. -/
theorem fairOrder_listOrder : FairOrder listOrder := fun _ _ => List.Perm.refl _

/-- On the two-device node the claims `C1` and `C2` get `A` and `B` in one of
the two orders, for every fair walk order. -/
theorem allocate_two_nvme (order : RangeOrder) (horder : FairOrder order) :
    pcidriver.allocate order sampleReady [sampleClaim "C1" "nvme", sampleClaim "C2" "nvme"]
        = some [("C1", ["A"]), ("C2", ["B"])] ∨
    pcidriver.allocate order sampleReady [sampleClaim "C1" "nvme", sampleClaim "C2" "nvme"]
        = some [("C1", ["B"]), ("C2", ["A"])] := by
  have hav : availableDevices sampleReady
      = [("A", ⟨"A", "nvme", "0000:01:00.0"⟩), ("B", ⟨"B", "nvme", "0000:02:00.0"⟩)] := by
    decide
  have h0 := horder 0 [("A", ⟨"A", "nvme", "0000:01:00.0"⟩), ("B", ⟨"B", "nvme", "0000:02:00.0"⟩)]
  have hA := List.perm_singleton.mp (horder 1 [("A", ⟨"A", "nvme", "0000:01:00.0"⟩)])
  have hB := List.perm_singleton.mp (horder 1 [("B", ⟨"B", "nvme", "0000:02:00.0"⟩)])
  have hdA : GoMap.delete
      [("A", (⟨"A", "nvme", "0000:01:00.0"⟩ : AllocatablePci)),
        ("B", ⟨"B", "nvme", "0000:02:00.0"⟩)] "A"
      = [("B", ⟨"B", "nvme", "0000:02:00.0"⟩)] := by decide
  have hdB : GoMap.delete
      [("A", (⟨"A", "nvme", "0000:01:00.0"⟩ : AllocatablePci)),
        ("B", ⟨"B", "nvme", "0000:02:00.0"⟩)] "B"
      = [("A", ⟨"A", "nvme", "0000:01:00.0"⟩)] := by decide
  cases hl : order 0
      [("A", ⟨"A", "nvme", "0000:01:00.0"⟩), ("B", ⟨"B", "nvme", "0000:02:00.0"⟩)] with
  | nil =>
    rw [hl] at h0
    exact absurd h0.length_eq (by simp)
  | cons e t =>
    have he : e ∈ [("A", (⟨"A", "nvme", "0000:01:00.0"⟩ : AllocatablePci)),
        ("B", ⟨"B", "nvme", "0000:02:00.0"⟩)] :=
      h0.mem_iff.mp (by rw [hl]; exact List.mem_cons_self _ _)
    simp only [List.mem_cons, List.mem_singleton, List.not_mem_nil, or_false] at he
    rcases he with he | he
    · left
      subst he
      unfold pcidriver.allocate
      rw [hav]
      simp only [allocateLoop, sampleClaim, sampleReady, GoMap.get, hl, firstMatch,
        List.find?, decide_True, hdA, hB, zero_add]
      rfl
    · right
      subst he
      unfold pcidriver.allocate
      rw [hav]
      simp only [allocateLoop, sampleClaim, sampleReady, GoMap.get, hl, firstMatch,
        List.find?, decide_True, hdB, hA, zero_add]
      rfl

/-- The second loop of `pcidriver.allocate` does not fault when the batch
holds PCI claim parameters only and every allocated claim has a PCI part. -/
theorem allocateLoop_total (order : RangeOrder) (allocatedClaims : GoMap AllocatedDevices)
    (hclaims : ∀ c v, GoMap.get allocatedClaims c = some v → v.Pci.isSome = true)
    (cas : List ClaimAllocation)
    (hpci : ∀ ca ∈ cas, ∃ params, ca.ClaimParameters = .pci params) :
    ∀ (k : Nat) (available : GoMap AllocatablePci) (allocated : GoMap (List String)),
      ∃ result, allocateLoop order allocatedClaims k cas available allocated = some result := by
  induction cas with
  | nil =>
    intro k available allocated
    exact ⟨allocated, rfl⟩
  | cons ca cas ih =>
    intro k available allocated
    have ih2 := ih (fun x hx => hpci x (List.mem_cons_of_mem _ hx))
    obtain ⟨params, hp⟩ := hpci ca (List.mem_cons_self _ _)
    unfold allocateLoop
    cases hc : GoMap.get allocatedClaims ca.Claim.UID with
    | some v =>
      have hv := hclaims _ _ hc
      cases hvp : v.Pci with
      | none => rw [hvp] at hv; cases hv
      | some pcis =>
        simp only [hvp]
        exact ih2 _ _ _
    | none =>
      simp only [hp]
      cases hm : firstMatch (order k available) params.DeviceName with
      | none => exact ih2 _ _ _
      | some e => exact ih2 _ _ _

/-- One visit keeps every allocated claim of the in-memory record of PCI type. -/
theorem visitStep_claims_ok (state : NodeAllocationState × PerNodeAllocatedClaims)
    (entry : String × AllocatedDevices) (hentry : entry.2.Pci.isSome = true)
    (h : ∀ c v, GoMap.get state.1.Spec.AllocatedClaims c = some v → v.Pci.isSome = true) :
    ∀ c v, GoMap.get (visitStep state entry).1.Spec.AllocatedClaims c = some v →
      v.Pci.isSome = true := by
  intro c v hget
  unfold visitStep at hget
  split at hget
  · exact h c v hget
  · simp only at hget
    rw [GoMap.get_set] at hget
    split at hget
    · simp only [Option.some.injEq] at hget
      rw [← hget]; exact hentry
    · exact h c v hget

/-- The merge of the cache entries keeps every allocated claim of the
in-memory record of PCI type. -/
theorem visitNode_claims_ok (crd : NodeAllocationState) (pending : PerNodeAllocatedClaims)
    (potentialNode : String)
    (hcrd : ∀ c v, GoMap.get crd.Spec.AllocatedClaims c = some v → v.Pci.isSome = true)
    (hcache : ∀ e ∈ pending.allocations, e.2.Pci.isSome = true) :
    ∀ c v, GoMap.get (visitNode crd pending potentialNode).1.Spec.AllocatedClaims c = some v →
      v.Pci.isSome = true := by
  unfold visitNode
  have hentries : ∀ x ∈ pending.nodeEntries potentialNode, x.2.Pci.isSome = true := by
    intro x hx
    unfold PerNodeAllocatedClaims.nodeEntries at hx
    rw [List.mem_map] at hx
    obtain ⟨e, he, hex⟩ := hx
    rw [← hex]
    exact hcache e (List.mem_filter.mp he).1
  generalize pending.nodeEntries potentialNode = l at hentries
  have key : ∀ (l : List (String × AllocatedDevices))
      (state : NodeAllocationState × PerNodeAllocatedClaims),
      (∀ x ∈ l, x.2.Pci.isSome = true) →
      (∀ c v, GoMap.get state.1.Spec.AllocatedClaims c = some v → v.Pci.isSome = true) →
      ∀ c v, GoMap.get (l.foldl visitStep state).1.Spec.AllocatedClaims c = some v →
        v.Pci.isSome = true := by
    intro l
    induction l with
    | nil => intro state _ hs; exact hs
    | cons x xs ih =>
      intro state hl hs
      rw [List.foldl_cons]
      exact ih _ (fun y hy => hl y (List.mem_cons_of_mem _ hy))
        (visitStep_claims_ok state x (hl x (List.mem_cons_self _ _)) hs)
  exact key l (crd, pending) hentries hcrd

/-- A claim that is neither in the fetched `AllocatedClaims` nor cached for
the node is not in the merged `AllocatedClaims`. -/
theorem visitNode_get_none (crd : NodeAllocationState) (pending : PerNodeAllocatedClaims)
    (potentialNode c : String) (hcrd : GoMap.get crd.Spec.AllocatedClaims c = none)
    (hcache : pending.find c potentialNode = none) :
    GoMap.get (visitNode crd pending potentialNode).1.Spec.AllocatedClaims c = none := by
  unfold visitNode
  have hentries : ∀ x ∈ pending.nodeEntries potentialNode, x.1 ≠ c := by
    intro x hx hxc
    unfold PerNodeAllocatedClaims.nodeEntries at hx
    rw [List.mem_map] at hx
    obtain ⟨e, he, hex⟩ := hx
    rw [List.mem_filter] at he
    have hnode : e.1.2 = potentialNode := by simpa using he.2
    unfold PerNodeAllocatedClaims.find at hcache
    cases hf : List.find? (fun e => decide (e.1 = (c, potentialNode))) pending.allocations with
    | some y => rw [hf] at hcache; cases hcache
    | none =>
      rw [List.find?_eq_none] at hf
      have := hf e he.1
      apply this
      simp only [decide_eq_true_eq]
      rw [← hex] at hxc
      simp only at hxc
      rw [← hxc, ← hnode]
  generalize pending.nodeEntries potentialNode = l at hentries
  have key : ∀ (l : List (String × AllocatedDevices))
      (state : NodeAllocationState × PerNodeAllocatedClaims),
      (∀ x ∈ l, x.1 ≠ c) → GoMap.get state.1.Spec.AllocatedClaims c = none →
      GoMap.get (l.foldl visitStep state).1.Spec.AllocatedClaims c = none := by
    intro l
    induction l with
    | nil => intro state _ hs; exact hs
    | cons x xs ih =>
      intro state hl hs
      rw [List.foldl_cons]
      apply ih _ (fun y hy => hl y (List.mem_cons_of_mem _ hy))
      unfold visitStep
      split
      · exact hs
      · simp only
        rw [GoMap.get_set_of_ne _ _ _ _ (Ne.symm (hl x (List.mem_cons_self _ _)))]
        exact hs
  exact key l (crd, pending) hentries hcrd

/-- The loop of `pcidriver.UnsuitableNode` returns without error on a batch of
PCI claim parameters. -/
theorem unsuitableLoop_total (allocated : GoMap (List String)) (potentialNode : String)
    (allcas : List ClaimAllocation) (cas : List ClaimAllocation)
    (hpci : ∀ ca ∈ cas, ∃ params, ca.ClaimParameters = .pci params) :
    ∀ pending, ∃ out, unsuitableLoop allocated potentialNode cas allcas pending = some out ∧
      out.err = none := by
  induction cas with
  | nil =>
    intro pending
    exact ⟨_, rfl, rfl⟩
  | cons ca cas ih =>
    intro pending
    have ih2 := ih (fun x hx => hpci x (List.mem_cons_of_mem _ hx))
    obtain ⟨params, hp⟩ := hpci ca (List.mem_cons_self _ _)
    unfold unsuitableLoop
    simp only [hp]
    by_cases hlen : ((GoMap.get allocated ca.Claim.UID).getD []).length = 1
    · simp only [hlen, ne_eq, not_true_eq_false, if_false]
      cases hd : (GoMap.get allocated ca.Claim.UID).getD [] with
      | nil => rw [hd] at hlen; cases hlen
      | cons u us => exact ih2 _
    · simp only [ne_eq, hlen, not_false_eq_true, if_true]
      exact ⟨_, rfl, rfl⟩

/-- The loop of `pcidriver.UnsuitableNode` runs through a run of one-device
claims and leaves each of them cached with its device. -/
theorem unsuitableLoop_recorded (allocated : GoMap (List String)) (potentialNode : String)
    (allcas : List ClaimAllocation) (rest : List ClaimAllocation) (pre : List ClaimAllocation)
    (hpci : ∀ ca ∈ pre, ∃ params, ca.ClaimParameters = .pci params)
    (hone : ∀ ca ∈ pre, ((GoMap.get allocated ca.Claim.UID).getD []).length = 1) :
    ∀ pending, ∃ pending2,
      unsuitableLoop allocated potentialNode (pre ++ rest) allcas pending
        = unsuitableLoop allocated potentialNode rest allcas pending2 ∧
      ∀ c u, (GoMap.get allocated c).getD [] = [u] →
        (pending.find c potentialNode = some (oneDevice u) ∨ ∃ ca ∈ pre, ca.Claim.UID = c) →
        pending2.find c potentialNode = some (oneDevice u) := by
  induction pre with
  | nil =>
    intro pending
    refine ⟨pending, rfl, ?_⟩
    intro c u _ h
    rcases h with h | ⟨ca, hca, _⟩
    · exact h
    · cases hca
  | cons x xs ih =>
    intro pending
    have ih2 := ih (fun y hy => hpci y (List.mem_cons_of_mem _ hy))
      (fun y hy => hone y (List.mem_cons_of_mem _ hy))
    obtain ⟨params, hp⟩ := hpci x (List.mem_cons_self _ _)
    have hlen := hone x (List.mem_cons_self _ _)
    cases hd : (GoMap.get allocated x.Claim.UID).getD [] with
    | nil => rw [hd] at hlen; cases hlen
    | cons ux us =>
      have hus : us = [] := by
        rw [hd] at hlen
        simpa using hlen
      subst hus
      obtain ⟨pending2, heq, hrec⟩ :=
        ih2 (pending.Set x.Claim.UID potentialNode ⟨some ⟨[⟨ux⟩]⟩⟩)
      refine ⟨pending2, ?_, ?_⟩
      · rw [← heq]
        rw [List.cons_append]
        conv => lhs; unfold unsuitableLoop
        simp only [hp, hd, List.length_singleton, ne_eq, not_true_eq_false, if_false]
      · intro c u hcu h
        apply hrec c u hcu
        by_cases hcx : c = x.Claim.UID
        · left
          subst hcx
          rw [hd] at hcu
          simp only [List.cons.injEq, and_true] at hcu
          subst hcu
          rw [PerNodeAllocatedClaims.find_Set]
          simp [oneDevice]
        · rcases h with h | ⟨ca, hca, hcauid⟩
          · left
            rw [PerNodeAllocatedClaims.find_Set]
            have : ¬ (c, potentialNode) = (x.Claim.UID, potentialNode) := by
              intro hh
              exact hcx (Prod.mk.inj hh).1
            simp only [this, if_false]
            exact h
          · right
            rcases List.mem_cons.mp hca with hca | hca
            · subst hca
              exact absurd hcauid.symm hcx
            · exact ⟨ca, hca, hcauid⟩

/-! ## Device assignment during filtering -/

/-- C1: the code at the failing input. The record of the node holds one device,
`A`, which the committed claim `X` holds in `AllocatedClaims`; the claim `Y` is
not in `AllocatedClaims` and asks for the supported device name. The `available`
map still contains `A` (the guard looks the device UUID up among the claim
UIDs), `pcidriver.allocate` assigns `A` to `Y`, and the filtering call caches `A`
for `Y` without reporting the node unsuitable. The same happens when `X` holds
`A` only through a pending entry of the cache that filtering merged into
`AllocatedClaims`: afterwards the cache holds `A` for both claims. -/
theorem C1_allocate_reassigns_held_device :
    pcidriver.ValidateClaimParameters ⟨"devices.kubevirt.io/nvme"⟩ = none ∧
    GoMap.get sampleHeld.Spec.AllocatedClaims "X" = some (oneDevice "A") ∧
    GoMap.has sampleHeld.Spec.AllocatedClaims "Y" = false ∧
    availableDevices sampleHeld = [("A", ⟨"A", "devices.kubevirt.io/nvme", "0000:01:00.0"⟩)] ∧
    pcidriver.allocate listOrder sampleHeld [nvmeClaim "Y"] = some [("Y", ["A"])] ∧
    driver.unsuitableNode listOrder sampleFreshDriver (clientOf sampleHeld true)
        [nvmeClaim "Y"] "n1"
      = some ⟨none, [nvmeClaim "Y"], ⟨[(("Y", "n1"), oneDevice "A")]⟩⟩ ∧
    driver.unsuitableNode listOrder ⟨⟨⟨[(("X", "n1"), oneDevice "A")]⟩⟩⟩
        (clientOf sampleSingle true) [nvmeClaim "Y"] "n1"
      = some ⟨none, [nvmeClaim "Y"],
          ⟨[(("X", "n1"), oneDevice "A"), (("Y", "n1"), oneDevice "A")]⟩⟩ := by
  refine ⟨by decide, by decide, by decide, by decide, by decide, by decide, by decide⟩

/-- In one run of `pcidriver.allocate`, whatever the order in which the
`available` map is walked, two claims of different UID that are both absent from
`AllocatedClaims` never hold a common device; so it is in a filtering call for
two claims that are neither in the fetched `AllocatedClaims` nor in the pending
cache for the node; and on the Ready node with devices
`A` and `B` of resource name `nvme`, no allocated claim and an empty cache,
filtering the claims `C1` and `C2` that both ask for `nvme` gives each exactly
one device, `A` and `B` in one of the two orders, caches them so, and reports
the node unsuitable for neither. -/
theorem distinct_claims_distinct_devices (order : RangeOrder) (horder : FairOrder order) :
    (∀ (crd : NodeAllocationState) (pcicas : List ClaimAllocation)
        (allocated : GoMap (List String)) (c1 c2 u1 u2 : String),
      pcidriver.allocate order crd pcicas = some allocated → c1 ≠ c2 →
      GoMap.has crd.Spec.AllocatedClaims c1 = false →
      GoMap.has crd.Spec.AllocatedClaims c2 = false →
      u1 ∈ (GoMap.get allocated c1).getD [] → u2 ∈ (GoMap.get allocated c2).getD [] →
      u1 ≠ u2) ∧
    (∀ (p : pcidriver) (crd : NodeAllocationState) (pcicas : List ClaimAllocation)
        (potentialNode : String) (allocated : GoMap (List String)) (c1 c2 u1 u2 : String),
      pcidriver.allocate order (visitNode crd p.PendingAllocatedClaims potentialNode).1 pcicas
        = some allocated →
      c1 ≠ c2 →
      GoMap.has crd.Spec.AllocatedClaims c1 = false →
      p.PendingAllocatedClaims.Exists c1 potentialNode = false →
      GoMap.has crd.Spec.AllocatedClaims c2 = false →
      p.PendingAllocatedClaims.Exists c2 potentialNode = false →
      u1 ∈ (GoMap.get allocated c1).getD [] → u2 ∈ (GoMap.get allocated c2).getD [] →
      u1 ≠ u2) ∧
    ((pcidriver.allocate order sampleReady [sampleClaim "C1" "nvme", sampleClaim "C2" "nvme"]
          = some [("C1", ["A"]), ("C2", ["B"])] ∧
      driver.unsuitableNode order sampleFreshDriver (clientOf sampleReady true)
          [sampleClaim "C1" "nvme", sampleClaim "C2" "nvme"] "n1"
        = some ⟨none, [sampleClaim "C1" "nvme", sampleClaim "C2" "nvme"],
            ⟨[(("C1", "n1"), oneDevice "A"), (("C2", "n1"), oneDevice "B")]⟩⟩) ∨
     (pcidriver.allocate order sampleReady [sampleClaim "C1" "nvme", sampleClaim "C2" "nvme"]
          = some [("C1", ["B"]), ("C2", ["A"])] ∧
      driver.unsuitableNode order sampleFreshDriver (clientOf sampleReady true)
          [sampleClaim "C1" "nvme", sampleClaim "C2" "nvme"] "n1"
        = some ⟨none, [sampleClaim "C1" "nvme", sampleClaim "C2" "nvme"],
            ⟨[(("C1", "n1"), oneDevice "B"), (("C2", "n1"), oneDevice "A")]⟩⟩)) := by
  have hgen : ∀ (crd : NodeAllocationState) (pcicas : List ClaimAllocation)
      (allocated : GoMap (List String)) (c1 c2 u1 u2 : String),
      pcidriver.allocate order crd pcicas = some allocated → c1 ≠ c2 →
      GoMap.has crd.Spec.AllocatedClaims c1 = false →
      GoMap.has crd.Spec.AllocatedClaims c2 = false →
      u1 ∈ (GoMap.get allocated c1).getD [] → u2 ∈ (GoMap.get allocated c2).getD [] →
      u1 ≠ u2 := by
    intro crd pcicas allocated c1 c2 u1 u2 h hne h1 h2 hu1 hu2
    obtain ⟨available, hf⟩ := allocate_fresh order horder crd pcicas allocated h
    have hn1 : GoMap.get crd.Spec.AllocatedClaims c1 = none := by
      simpa [GoMap.has] using h1
    have hn2 : GoMap.get crd.Spec.AllocatedClaims c2 = none := by
      simpa [GoMap.has] using h2
    cases hg1 : GoMap.get allocated c1 with
    | none => simp [hg1] at hu1
    | some devs1 =>
      cases hg2 : GoMap.get allocated c2 with
      | none => simp [hg2] at hu2
      | some devs2 =>
        obtain ⟨u, hu, _, _, hother⟩ := hf c1 hn1 devs1 hg1
        simp only [hg1, hg2, Option.getD_some] at hu1 hu2
        rw [hu, List.mem_singleton] at hu1
        intro heq
        apply hother c2 (Ne.symm hne) hn2 devs2 hg2
        rw [← hu1, heq]
        exact hu2
  refine ⟨hgen, ?_, ?_⟩
  · intro p crd pcicas potentialNode allocated c1 c2 u1 u2 h hne h1 hp1 h2 hp2 hu1 hu2
    have hmerged : ∀ c, GoMap.has crd.Spec.AllocatedClaims c = false →
        p.PendingAllocatedClaims.Exists c potentialNode = false →
        GoMap.has (visitNode crd p.PendingAllocatedClaims potentialNode).1.Spec.AllocatedClaims c
          = false := by
      intro c hc hpc
      have hn : GoMap.get crd.Spec.AllocatedClaims c = none := by
        simpa [GoMap.has] using hc
      have hpn : p.PendingAllocatedClaims.find c potentialNode = none := by
        simpa [PerNodeAllocatedClaims.Exists] using hpc
      simp [GoMap.has, visitNode_get_none crd p.PendingAllocatedClaims potentialNode c hn hpn]
    exact hgen _ pcicas allocated c1 c2 u1 u2 h hne (hmerged c1 h1 hp1) (hmerged c2 h2 hp2)
      hu1 hu2
  · have hfilter : ∀ allocated,
        pcidriver.allocate order sampleReady [sampleClaim "C1" "nvme", sampleClaim "C2" "nvme"]
          = some allocated →
        driver.unsuitableNode order sampleFreshDriver (clientOf sampleReady true)
            [sampleClaim "C1" "nvme", sampleClaim "C2" "nvme"] "n1"
          = (match unsuitableLoop allocated "n1"
                [sampleClaim "C1" "nvme", sampleClaim "C2" "nvme"]
                [sampleClaim "C1" "nvme", sampleClaim "C2" "nvme"] ⟨[]⟩ with
             | none => none
             | some out =>
               match out.err with
               | none => some out
               | some err => some { out with err := some (.processingKind err) }) := by
      intro allocated h
      have hv : visitNode sampleReady sampleFreshDriver.pci.PendingAllocatedClaims "n1"
          = (sampleReady, ⟨[]⟩) := by decide
      have hk : perKindCas [sampleClaim "C1" "nvme", sampleClaim "C2" "nvme"]
          = .ok [sampleClaim "C1" "nvme", sampleClaim "C2" "nvme"] := by rfl
      simp only [driver.unsuitableNode, clientOf, hk, pcidriver.UnsuitableNode, hv, h]
      simp [sampleReady]
    rcases allocate_two_nvme order horder with h | h
    · left
      refine ⟨h, ?_⟩
      rw [hfilter _ h]
      decide
    · right
      refine ⟨h, ?_⟩
      rw [hfilter _ h]
      decide

/-- C2: the code at the failing input. The Ready record of the node `n1` holds
the single device `A` and no allocated claim; the pending cache holds `A` for
the claim `C1` on `n1`, from an earlier filtering. The batch holds `C1` and
`C2`, both absent from the `AllocatedClaims` of the fetched record, both asking
for the supported device name. The filtering call merges the entry of `C1` into
the in-memory `AllocatedClaims`, leaves `A` in `available` (the guard looks the
device UUID up among the claim UIDs), copies `A` for `C1` and assigns `A` to
`C2`: both claims receive the device `A`, the cache holds `A` for both, and the
node is reported unsuitable for neither. -/
theorem C2_cached_claim_shares_device :
    GoMap.has sampleSingle.Spec.AllocatedClaims "C1" = false ∧
    GoMap.has sampleSingle.Spec.AllocatedClaims "C2" = false ∧
    availableDevices
        (visitNode sampleSingle samplePendingDriver.pci.PendingAllocatedClaims "n1").1 =
      [("A", ⟨"A", "devices.kubevirt.io/nvme", "0000:01:00.0"⟩)] ∧
    pcidriver.allocate listOrder
        (visitNode sampleSingle samplePendingDriver.pci.PendingAllocatedClaims "n1").1
        [nvmeClaim "C1", nvmeClaim "C2"] =
      some [("C1", ["A"]), ("C2", ["A"])] ∧
    driver.unsuitableNode listOrder samplePendingDriver (clientOf sampleSingle true)
        [nvmeClaim "C1", nvmeClaim "C2"] "n1" =
      some ⟨none, [nvmeClaim "C1", nvmeClaim "C2"],
        ⟨[(("C1", "n1"), oneDevice "A"), (("C2", "n1"), oneDevice "A")]⟩⟩ := by
  refine ⟨by decide, by decide, by decide, by decide, by decide⟩

/-- C10: whatever the order in which the `available` map is walked, a claim that
is not in `AllocatedClaims` and that `pcidriver.allocate` gives devices holds
exactly one device, and this device is the UUID of a PCI-type member of the
allocatable devices of the record whose resource name is the device name
requested by a claim allocation of the batch with that UID; in every case such a
claim holds at most one device. -/
theorem C10_assigned_device_matches_request (order : RangeOrder) (horder : FairOrder order)
    (crd : NodeAllocationState) (pcicas : List ClaimAllocation)
    (allocated : GoMap (List String)) (c : String)
    (h : pcidriver.allocate order crd pcicas = some allocated)
    (hc : GoMap.has crd.Spec.AllocatedClaims c = false) :
    ((GoMap.get allocated c).getD []).length ≤ 1 ∧
    ∀ u, u ∈ (GoMap.get allocated c).getD [] →
      GoMap.get allocated c = some [u] ∧
      ∃ ca ∈ pcicas, ca.Claim.UID = c ∧
        ∃ params, ca.ClaimParameters = .pci params ∧
          ∃ device ∈ crd.Spec.AllocatableDevices, device.Type = PciDeviceType ∧
            ∃ pci, device.Pci = some pci ∧ pci.UUID = u ∧
              pci.ResourceName = params.DeviceName := by
  obtain ⟨available, hf⟩ := allocate_fresh order horder crd pcicas allocated h
  have hn : GoMap.get crd.Spec.AllocatedClaims c = none := by
    simpa [GoMap.has] using hc
  cases hg : GoMap.get allocated c with
  | none => simp
  | some devs =>
    obtain ⟨u0, hu0, _, ⟨ca, hca, huid, params, pci, hp, hdev, hpu, hpn⟩, _⟩ := hf c hn devs hg
    subst hu0
    refine ⟨by simp, ?_⟩
    intro u hu
    simp only [Option.getD_some, List.mem_singleton] at hu
    subst hu
    refine ⟨rfl, ca, hca, huid, params, hp, ⟨some pci⟩, hdev, ?_, pci, rfl, hpu, hpn⟩
    simp [AllocatableDevice.Type]

/-- C10 at a concrete input: on the two-device node the claim `C1` asks for
`nvme` and holds `A`, an allocatable PCI device of resource name `nvme`. -/
theorem C10_assigned_device_matches_request_witness :
    pcidriver.allocate listOrder sampleReady [sampleClaim "C1" "nvme"] = some [("C1", ["A"])] ∧
    ∃ ca ∈ [sampleClaim "C1" "nvme"], ca.Claim.UID = "C1" ∧
      ∃ params, ca.ClaimParameters = .pci params ∧
        ∃ device ∈ sampleReady.Spec.AllocatableDevices, device.Type = PciDeviceType ∧
          ∃ pci, device.Pci = some pci ∧ pci.UUID = "A" ∧
            pci.ResourceName = params.DeviceName :=
  ⟨by decide,
   ((C10_assigned_device_matches_request listOrder fairOrder_listOrder sampleReady
      [sampleClaim "C1" "nvme"] [("C1", ["A"])] "C1" (by decide) (by decide)).2 "A"
      (by decide)).2⟩

/-- C9, the claim as stated, fails on the code. On the Ready node whose only
device is `A`, with an empty cache, the claims `C1` and `C2` both ask for the
supported device name: `C1` receives exactly one device and `C2` none, and
filtering adds the node to the unsuitable list of `C1` as well. On the
two-device node, with `C2` asking for `gpu` and coming first in the batch, the
claim `C1` receives exactly one device and is left without a cache entry. -/
theorem C9_counterexample :
    pcidriver.allocate listOrder sampleSingle [nvmeClaim "C1", nvmeClaim "C2"]
      = some [("C1", ["A"])] ∧
    pcidriver.UnsuitableNode listOrder NewPciDriver sampleSingle
        [nvmeClaim "C1", nvmeClaim "C2"] [nvmeClaim "C1", nvmeClaim "C2"] "n1"
      = some ⟨none,
          [{ nvmeClaim "C1" with UnsuitableNodes := ["n1"] },
           { nvmeClaim "C2" with UnsuitableNodes := ["n1"] }],
          ⟨[(("C1", "n1"), oneDevice "A")]⟩⟩ ∧
    driver.unsuitableNode listOrder sampleFreshDriver (clientOf sampleSingle true)
        [nvmeClaim "C1", nvmeClaim "C2"] "n1"
      = some ⟨none,
          [{ nvmeClaim "C1" with UnsuitableNodes := ["n1"] },
           { nvmeClaim "C2" with UnsuitableNodes := ["n1"] }],
          ⟨[(("C1", "n1"), oneDevice "A")]⟩⟩ ∧
    pcidriver.allocate listOrder sampleReady [sampleClaim "C2" "gpu", sampleClaim "C1" "nvme"]
      = some [("C1", ["A"])] ∧
    pcidriver.UnsuitableNode listOrder NewPciDriver sampleReady
        [sampleClaim "C2" "gpu", sampleClaim "C1" "nvme"]
        [sampleClaim "C2" "gpu", sampleClaim "C1" "nvme"] "n1"
      = some ⟨none,
          [{ sampleClaim "C2" "gpu" with UnsuitableNodes := ["n1"] },
           { sampleClaim "C1" "nvme" with UnsuitableNodes := ["n1"] }],
          ⟨[]⟩⟩ := by
  refine ⟨by decide, by decide, by decide, by decide, by decide⟩

/-- C9, amended: for a batch of PCI claims filtered against a record whose
allocated and cached device sets are of PCI type, `pcidriver.UnsuitableNode`
returns without error, whatever the order in which the `available` map is
walked. If every claim of the batch received exactly one device, each has
afterwards a pending-cache entry for (claim, node) holding that device and no
unsuitable list is changed. If some claim of the batch matched zero or more than
one device, the node is appended to the unsuitable list of every claim of
`allcas`, and the claims that come before the first such claim in batch order
have a cache entry for (claim, node) holding their device. -/
theorem C9_filtering_records_or_rejects (order : RangeOrder) (p : pcidriver)
    (crd : NodeAllocationState) (pcicas allcas : List ClaimAllocation) (potentialNode : String)
    (hpci : ∀ ca ∈ pcicas, ∃ params, ca.ClaimParameters = .pci params)
    (hcrd : ∀ c v, GoMap.get crd.Spec.AllocatedClaims c = some v → v.Pci.isSome = true)
    (hcache : ∀ e ∈ p.PendingAllocatedClaims.allocations, e.2.Pci.isSome = true) :
    ∃ allocated out,
      pcidriver.allocate order (visitNode crd p.PendingAllocatedClaims potentialNode).1 pcicas
        = some allocated ∧
      pcidriver.UnsuitableNode order p crd pcicas allcas potentialNode = some out ∧
      out.err = none ∧
      ((∀ ca ∈ pcicas, ((GoMap.get allocated ca.Claim.UID).getD []).length = 1) →
        out.allcas = allcas ∧
        ∀ ca ∈ pcicas, ∃ u, (GoMap.get allocated ca.Claim.UID).getD [] = [u] ∧
          out.pending.find ca.Claim.UID potentialNode = some ⟨some ⟨[⟨u⟩]⟩⟩) ∧
      (∀ pre ca post, pcicas = pre ++ ca :: post →
        (∀ x ∈ pre, ((GoMap.get allocated x.Claim.UID).getD []).length = 1) →
        ((GoMap.get allocated ca.Claim.UID).getD []).length ≠ 1 →
        out.allcas = allcas.map
          (fun x => { x with UnsuitableNodes := x.UnsuitableNodes ++ [potentialNode] }) ∧
        ∀ x ∈ pre, ∃ u, (GoMap.get allocated x.Claim.UID).getD [] = [u] ∧
          out.pending.find x.Claim.UID potentialNode = some ⟨some ⟨[⟨u⟩]⟩⟩) := by
  obtain ⟨allocated, hall⟩ := allocateLoop_total order
    (visitNode crd p.PendingAllocatedClaims potentialNode).1.Spec.AllocatedClaims
    (visitNode_claims_ok crd p.PendingAllocatedClaims potentialNode hcrd hcache)
    pcicas hpci 0
    (availableDevices (visitNode crd p.PendingAllocatedClaims potentialNode).1) []
  obtain ⟨out, hout, herr⟩ := unsuitableLoop_total allocated potentialNode allcas pcicas hpci
    (visitNode crd p.PendingAllocatedClaims potentialNode).2
  have hA : pcidriver.allocate order (visitNode crd p.PendingAllocatedClaims potentialNode).1
      pcicas = some allocated := hall
  have hone_of : ∀ (l : List ClaimAllocation) (pending2 : PerNodeAllocatedClaims),
      (∀ c u, (GoMap.get allocated c).getD [] = [u] →
        ((visitNode crd p.PendingAllocatedClaims potentialNode).2.find c potentialNode
            = some (oneDevice u) ∨ ∃ ca ∈ l, ca.Claim.UID = c) →
        pending2.find c potentialNode = some (oneDevice u)) →
      (∀ x ∈ l, ((GoMap.get allocated x.Claim.UID).getD []).length = 1) →
      ∀ x ∈ l, ∃ u, (GoMap.get allocated x.Claim.UID).getD [] = [u] ∧
        pending2.find x.Claim.UID potentialNode = some ⟨some ⟨[⟨u⟩]⟩⟩ := by
    intro l pending2 hrec hone x hx
    have hlen := hone x hx
    cases hd : (GoMap.get allocated x.Claim.UID).getD [] with
    | nil => rw [hd] at hlen; cases hlen
    | cons u us =>
      have hus : us = [] := by
        rw [hd] at hlen
        simpa using hlen
      subst hus
      exact ⟨u, rfl, hrec _ u hd (Or.inr ⟨x, hx, rfl⟩)⟩
  refine ⟨allocated, out, hA, ?_, herr, ?_, ?_⟩
  · unfold pcidriver.UnsuitableNode
    simp only [hA, hout]
  · intro hone
    obtain ⟨pending2, heq, hrec⟩ := unsuitableLoop_recorded allocated potentialNode allcas []
      pcicas hpci hone (visitNode crd p.PendingAllocatedClaims potentialNode).2
    rw [List.append_nil, hout] at heq
    simp only [unsuitableLoop, Option.some.injEq] at heq
    subst heq
    exact ⟨rfl, hone_of pcicas pending2 hrec hone⟩
  · intro pre ca post hsplit hone hbad
    have hpre : ∀ x ∈ pre, x ∈ pcicas := by
      intro x hx
      rw [hsplit]
      exact List.mem_append_left _ hx
    obtain ⟨pending2, heq, hrec⟩ := unsuitableLoop_recorded allocated potentialNode allcas
      (ca :: post) pre (fun x hx => hpci x (hpre x hx)) hone
      (visitNode crd p.PendingAllocatedClaims potentialNode).2
    rw [← hsplit, hout] at heq
    obtain ⟨params, hp⟩ := hpci ca (by rw [hsplit]; simp)
    have hlen : ((GoMap.get allocated ca.Claim.UID).getD []).length ≠ 1 := hbad
    simp only [unsuitableLoop, hp, hlen, ne_eq, not_false_eq_true, if_true,
      Option.some.injEq] at heq
    subst heq
    exact ⟨rfl, hone_of pre pending2 hrec hone⟩

/-- C9, amended, at a concrete input: on the Ready two-device node with an empty
cache the claims `C1` and `C2` both ask for `nvme`; each gets its device cached
and no unsuitable list changes. -/
theorem C9_filtering_records_or_rejects_witness :
    pcidriver.UnsuitableNode listOrder NewPciDriver sampleReady
        [sampleClaim "C1" "nvme", sampleClaim "C2" "nvme"]
        [sampleClaim "C1" "nvme", sampleClaim "C2" "nvme"] "n1"
      = some ⟨none, [sampleClaim "C1" "nvme", sampleClaim "C2" "nvme"],
          ⟨[(("C1", "n1"), oneDevice "A"), (("C2", "n1"), oneDevice "B")]⟩⟩ ∧
    ∃ allocated out,
      pcidriver.allocate listOrder
          (visitNode sampleReady NewPciDriver.PendingAllocatedClaims "n1").1
          [sampleClaim "C1" "nvme", sampleClaim "C2" "nvme"] = some allocated ∧
      pcidriver.UnsuitableNode listOrder NewPciDriver sampleReady
          [sampleClaim "C1" "nvme", sampleClaim "C2" "nvme"]
          [sampleClaim "C1" "nvme", sampleClaim "C2" "nvme"] "n1" = some out ∧
      out.err = none :=
  have h := C9_filtering_records_or_rejects listOrder NewPciDriver sampleReady
    [sampleClaim "C1" "nvme", sampleClaim "C2" "nvme"]
    [sampleClaim "C1" "nvme", sampleClaim "C2" "nvme"] "n1"
    (fun ca hca => by
      simp only [List.mem_cons, List.mem_singleton, List.not_mem_nil, or_false] at hca
      rcases hca with hca | hca <;> subst hca <;> exact ⟨_, rfl⟩)
    (fun c v hget => by simp [sampleReady, GoMap.get] at hget)
    (fun e he => by cases he)
  ⟨by decide, h.choose, h.choose_spec.choose, h.choose_spec.choose_spec.1,
    h.choose_spec.choose_spec.2.1, h.choose_spec.choose_spec.2.2.1⟩

/-! ## Readiness gating and commit -/

/-- C3: if fetching the record fails or the fetched record is not Ready,
`driver.unsuitableNode` returns no error, appends the node to the
unsuitable-node list of every claim of the batch and changes nothing else of the
claim allocations (no device is assigned), and leaves the pending cache as it
was. -/
theorem C3_unsuitableNode_not_ready (order : RangeOrder) (d : driver) (client : NasClient)
    (allcas : List ClaimAllocation) (potentialNode : String)
    (h : client.getResult = none ∨
      ∃ crd, client.getResult = some crd ∧ crd.Status ≠ NodeAllocationStateStatusReady) :
    driver.unsuitableNode order d client allcas potentialNode
      = some { err := none,
               allcas := allcas.map
                 (fun ca => { ca with UnsuitableNodes := ca.UnsuitableNodes ++ [potentialNode] }),
               pending := d.pci.PendingAllocatedClaims } := by
  rcases h with h | ⟨crd, hget, hst⟩
  · simp [driver.unsuitableNode, h, markUnsuitable]
  · simp [driver.unsuitableNode, hget, hst, markUnsuitable]

/-- C3 at a concrete input: the record of node `n1` is NotReady, the batch is
the two claims `C1` and `C2`. -/
theorem C3_unsuitableNode_not_ready_witness :
    driver.unsuitableNode listOrder samplePendingDriver (clientOf sampleNotReady true)
        [sampleClaim "C1" "nvme", sampleClaim "C2" "nvme"] "n1"
      = some { err := none,
               allcas := [sampleClaim "C1" "nvme", sampleClaim "C2" "nvme"].map
                 (fun ca => { ca with UnsuitableNodes := ca.UnsuitableNodes ++ ["n1"] }),
               pending := samplePendingDriver.pci.PendingAllocatedClaims } :=
  C3_unsuitableNode_not_ready listOrder samplePendingDriver (clientOf sampleNotReady true)
    [sampleClaim "C1" "nvme", sampleClaim "C2" "nvme"] "n1"
    (Or.inr ⟨sampleNotReady, rfl, by decide⟩)

/-- C4: if the fetched record is not Ready, `driver.allocate` returns an error
(for a non-empty selected node, the status error) and no allocation result,
calls `client.Update` not at all and leaves the pending cache as it was; this
holds for every claim, also one that is in `AllocatedClaims`. -/
theorem C4_allocate_not_ready (d : driver) (client : NasClient) (claim : ResourceClaim)
    (claimParameters : ClaimParameters) (selectedNode : String) (crd : NodeAllocationState)
    (hget : client.getResult = some crd) (hst : crd.Status ≠ NodeAllocationStateStatusReady) :
    (∃ err, (driver.allocate d client claim claimParameters selectedNode).result = .error err) ∧
    (selectedNode ≠ "" →
      (driver.allocate d client claim claimParameters selectedNode).result
        = .error (.statusNotReady crd.Status)) ∧
    (driver.allocate d client claim claimParameters selectedNode).updates = [] ∧
    (driver.allocate d client claim claimParameters selectedNode).pending
      = d.pci.PendingAllocatedClaims := by
  by_cases hn : selectedNode = ""
  · simp [driver.allocate, hn]
  · simp [driver.allocate, hn, hget, hst]

/-- C4 at a concrete input: the claim `X` is committed in a record that is not
Ready. -/
theorem C4_allocate_not_ready_witness :
    (∃ err, (driver.allocate samplePendingDriver
        (clientOf { sampleHeld with Status := NodeAllocationStateStatusNotReady } true)
        ⟨"X", none⟩ (.pci ⟨"nvme"⟩) "n1").result = .error err) ∧
    (driver.allocate samplePendingDriver
        (clientOf { sampleHeld with Status := NodeAllocationStateStatusNotReady } true)
        ⟨"X", none⟩ (.pci ⟨"nvme"⟩) "n1").updates = [] :=
  have h := C4_allocate_not_ready samplePendingDriver
    (clientOf { sampleHeld with Status := NodeAllocationStateStatusNotReady } true)
    ⟨"X", none⟩ (.pci ⟨"nvme"⟩) "n1"
    { sampleHeld with Status := NodeAllocationStateStatusNotReady } rfl (by decide)
  ⟨h.1, h.2.2.1⟩

/-- C5: if the record is Ready and the claim is in `AllocatedClaims`,
`driver.allocate` returns the allocation result that selects the node, calls
`client.Update` not at all (the record, and with it the device assignment of the
claim, stays as fetched) and neither needs nor changes a pending-cache entry;
a second call, from the cache the first one left, does the same. -/
theorem C5_allocate_idempotent (d : driver) (client : NasClient) (claim : ResourceClaim)
    (claimParameters : ClaimParameters) (selectedNode : String) (crd : NodeAllocationState)
    (hnode : selectedNode ≠ "") (hget : client.getResult = some crd)
    (hst : crd.Status = NodeAllocationStateStatusReady)
    (hin : GoMap.has crd.Spec.AllocatedClaims claim.UID = true) :
    (driver.allocate d client claim claimParameters selectedNode).result
      = .ok (buildAllocationResult selectedNode true) ∧
    (buildAllocationResult selectedNode true).AvailableOnNodes
      = some ⟨[⟨[⟨"metadata.name", "In", [selectedNode]⟩]⟩]⟩ ∧
    (driver.allocate d client claim claimParameters selectedNode).updates = [] ∧
    (driver.allocate d client claim claimParameters selectedNode).pending
      = d.pci.PendingAllocatedClaims ∧
    (driver.allocate
        ⟨⟨(driver.allocate d client claim claimParameters selectedNode).pending⟩⟩
        client claim claimParameters selectedNode).result
      = .ok (buildAllocationResult selectedNode true) ∧
    (driver.allocate
        ⟨⟨(driver.allocate d client claim claimParameters selectedNode).pending⟩⟩
        client claim claimParameters selectedNode).updates = [] ∧
    (driver.allocate
        ⟨⟨(driver.allocate d client claim claimParameters selectedNode).pending⟩⟩
        client claim claimParameters selectedNode).pending = d.pci.PendingAllocatedClaims := by
  simp [driver.allocate, hnode, hget, hst, hin, buildAllocationResult]

/-- C5 at a concrete input: the claim `X` holds device `A` in a Ready record and
the cache has no entry for it. -/
theorem C5_allocate_idempotent_witness :
    GoMap.has sampleHeld.Spec.AllocatedClaims "X" = true ∧
    (driver.allocate sampleFreshDriver (clientOf sampleHeld false) ⟨"X", none⟩
        (.pci ⟨"nvme"⟩) "n1").result = .ok (buildAllocationResult "n1" true) :=
  ⟨by decide,
   (C5_allocate_idempotent sampleFreshDriver (clientOf sampleHeld false) ⟨"X", none⟩
      (.pci ⟨"nvme"⟩) "n1" sampleHeld (by decide) rfl rfl (by decide)).1⟩

/-- C6: if the record is Ready, the claim is not in `AllocatedClaims` and the
pending cache has no entry for (claim, selected node), `driver.allocate` returns
an error and calls `client.Update` not at all; for PCI claim parameters the error
is the one `pcidriver.Allocate` returns, and the cache stays as it was. -/
theorem C6_allocate_without_pending (d : driver) (client : NasClient) (claim : ResourceClaim)
    (claimParameters : ClaimParameters) (selectedNode : String) (crd : NodeAllocationState)
    (hget : client.getResult = some crd)
    (hst : crd.Status = NodeAllocationStateStatusReady)
    (hin : GoMap.has crd.Spec.AllocatedClaims claim.UID = false)
    (hno : d.pci.PendingAllocatedClaims.Exists claim.UID selectedNode = false) :
    (∃ err, (driver.allocate d client claim claimParameters selectedNode).result = .error err) ∧
    (driver.allocate d client claim claimParameters selectedNode).updates = [] ∧
    (driver.allocate d client claim claimParameters selectedNode).pending
      = d.pci.PendingAllocatedClaims ∧
    (∃ err, pcidriver.Allocate d.pci crd claim selectedNode = .error err) ∧
    (selectedNode ≠ "" → ∀ params, claimParameters = .pci params →
      (driver.allocate d client claim claimParameters selectedNode).result
        = .error (.unableToAllocate selectedNode
            (.noAllocationsGenerated claim.UID selectedNode))) := by
  have hA : pcidriver.Allocate d.pci crd claim selectedNode
      = .error (.noAllocationsGenerated claim.UID selectedNode) := by
    simp [pcidriver.Allocate, hno]
  by_cases hn : selectedNode = ""
  · subst hn
    simp [driver.allocate, hA]
  · cases claimParameters with
    | pci params => simp [driver.allocate, hn, hget, hst, hin, hA]
    | other => simp [driver.allocate, hn, hget, hst, hin, hA]

/-- C6 at a concrete input: the claim `C2` was never filtered against node `n1`
(the cache holds an entry for `C1` only). -/
theorem C6_allocate_without_pending_witness :
    samplePendingDriver.pci.PendingAllocatedClaims.Exists "C2" "n1" = false ∧
    (∃ err, (driver.allocate samplePendingDriver (clientOf sampleReady true) ⟨"C2", none⟩
        (.pci ⟨"nvme"⟩) "n1").result = .error err) ∧
    (driver.allocate samplePendingDriver (clientOf sampleReady true) ⟨"C2", none⟩
        (.pci ⟨"nvme"⟩) "n1").updates = [] :=
  have h := C6_allocate_without_pending samplePendingDriver (clientOf sampleReady true)
    ⟨"C2", none⟩ (.pci ⟨"nvme"⟩) "n1" sampleReady rfl rfl (by decide) (by decide)
  ⟨by decide, h.1, h.2.1⟩

/-- C7: when `driver.allocate` succeeds for a claim that was not in the fetched
`AllocatedClaims`, it hands `client.Update` exactly one spec: the fetched one,
with the same allocatable devices, the same prepared claims and the same
allocation of every other claim, and with the claim mapped to the device set the
cache held for (claim, selected node); afterwards the cache has no entry for the
claim on any node. -/
theorem C7_allocate_writes_cached_devices (d : driver) (client : NasClient)
    (claim : ResourceClaim) (claimParameters : ClaimParameters) (selectedNode : String)
    (crd : NodeAllocationState) (res : AllocationResult)
    (hget : client.getResult = some crd)
    (hin : GoMap.has crd.Spec.AllocatedClaims claim.UID = false)
    (hok : (driver.allocate d client claim claimParameters selectedNode).result = .ok res) :
    ∃ spec devices,
      (driver.allocate d client claim claimParameters selectedNode).updates = [spec] ∧
      d.pci.PendingAllocatedClaims.find claim.UID selectedNode = some devices ∧
      GoMap.get spec.AllocatedClaims claim.UID = some devices ∧
      (∀ other, other ≠ claim.UID →
        GoMap.get spec.AllocatedClaims other = GoMap.get crd.Spec.AllocatedClaims other) ∧
      spec.AllocatableDevices = crd.Spec.AllocatableDevices ∧
      spec.PreparedClaims = crd.Spec.PreparedClaims ∧
      (∀ node, (driver.allocate d client claim claimParameters selectedNode).pending.Exists
        claim.UID node = false) := by
  by_cases hn : selectedNode = ""
  · simp [driver.allocate, hn] at hok
  by_cases hst : crd.Status = NodeAllocationStateStatusReady
  swap
  · simp [driver.allocate, hn, hget, hst] at hok
  cases claimParameters with
  | other => simp [driver.allocate, hn, hget, hst, hin] at hok
  | pci params =>
    cases hex : d.pci.PendingAllocatedClaims.find claim.UID selectedNode with
    | none =>
      simp [driver.allocate, hn, hget, hst, hin, pcidriver.Allocate,
        PerNodeAllocatedClaims.Exists, hex] at hok
    | some devices =>
      by_cases hup : client.updateOk
          { crd.Spec with
            AllocatedClaims := GoMap.set crd.Spec.AllocatedClaims claim.UID devices } = true
      · refine ⟨{ crd.Spec with
          AllocatedClaims := GoMap.set crd.Spec.AllocatedClaims claim.UID devices }, devices, ?_, rfl, ?_, ?_,
            rfl, rfl, ?_⟩
        · simp [driver.allocate, hn, hget, hst, hin, pcidriver.Allocate,
            PerNodeAllocatedClaims.Exists, PerNodeAllocatedClaims.Get, hex, hup]
        · exact GoMap.get_set_self _ _ _
        · intro other hne
          exact GoMap.get_set_of_ne _ _ _ _ hne
        · intro node
          simp [driver.allocate, hn, hget, hst, hin, pcidriver.Allocate,
            PerNodeAllocatedClaims.Exists, PerNodeAllocatedClaims.Get, hex, hup,
            PerNodeAllocatedClaims.find_Remove_self]
      · simp [driver.allocate, hn, hget, hst, hin, pcidriver.Allocate,
          PerNodeAllocatedClaims.Exists, PerNodeAllocatedClaims.Get, hex, hup] at hok

/-- C7 at a concrete input: the cache holds device `A` for claim `C1` on node
`n1`, the record is Ready and the update succeeds. -/
theorem C7_allocate_writes_cached_devices_witness :
    (driver.allocate samplePendingDriver (clientOf sampleReady true) ⟨"C1", none⟩
        (.pci ⟨"nvme"⟩) "n1").result = .ok (buildAllocationResult "n1" true) ∧
    ∃ spec devices,
      (driver.allocate samplePendingDriver (clientOf sampleReady true) ⟨"C1", none⟩
        (.pci ⟨"nvme"⟩) "n1").updates = [spec] ∧
      samplePendingDriver.pci.PendingAllocatedClaims.find "C1" "n1" = some devices ∧
      GoMap.get spec.AllocatedClaims "C1" = some devices ∧
      (∀ other, other ≠ "C1" →
        GoMap.get spec.AllocatedClaims other
          = GoMap.get sampleReady.Spec.AllocatedClaims other) ∧
      spec.AllocatableDevices = sampleReady.Spec.AllocatableDevices ∧
      spec.PreparedClaims = sampleReady.Spec.PreparedClaims ∧
      (∀ node, (driver.allocate samplePendingDriver (clientOf sampleReady true) ⟨"C1", none⟩
        (.pci ⟨"nvme"⟩) "n1").pending.Exists "C1" node = false) :=
  ⟨rfl, C7_allocate_writes_cached_devices samplePendingDriver (clientOf sampleReady true)
    ⟨"C1", none⟩ (.pci ⟨"nvme"⟩) "n1" sampleReady (buildAllocationResult "n1" true)
    rfl (by decide) rfl⟩

/-- C8: if `driver.allocate` hands a spec to `client.Update` and the update
fails, the call returns an error and the pending cache is as it was, so that the
entry for (claim, selected node) is still there with the device set that was to
be written; a retried commit (against any Ready record that does not hold the
claim) hands `client.Update` a spec that maps the claim to that same device
set. -/
theorem C8_allocate_update_failure (d : driver) (client : NasClient) (claim : ResourceClaim)
    (claimParameters : ClaimParameters) (selectedNode : String) (spec : NodeAllocationStateSpec)
    (hw : (driver.allocate d client claim claimParameters selectedNode).updates = [spec])
    (hfail : client.updateOk spec = false) :
    (driver.allocate d client claim claimParameters selectedNode).result = .error .updatingCRD ∧
    (driver.allocate d client claim claimParameters selectedNode).pending
      = d.pci.PendingAllocatedClaims ∧
    ∃ devices,
      GoMap.get spec.AllocatedClaims claim.UID = some devices ∧
      (driver.allocate d client claim claimParameters selectedNode).pending.find
        claim.UID selectedNode = some devices ∧
      ∀ (retry : NasClient) (crd : NodeAllocationState),
        retry.getResult = some crd → crd.Status = NodeAllocationStateStatusReady →
        GoMap.has crd.Spec.AllocatedClaims claim.UID = false →
        ∃ spec2,
          (driver.allocate
              ⟨⟨(driver.allocate d client claim claimParameters selectedNode).pending⟩⟩
              retry claim claimParameters selectedNode).updates = [spec2] ∧
          GoMap.get spec2.AllocatedClaims claim.UID = some devices := by
  by_cases hn : selectedNode = ""
  · simp [driver.allocate, hn] at hw
  cases hget : client.getResult with
  | none => simp [driver.allocate, hn, hget] at hw
  | some crd0 =>
    by_cases hst : crd0.Status = NodeAllocationStateStatusReady
    swap
    · simp [driver.allocate, hn, hget, hst] at hw
    cases hin : GoMap.has crd0.Spec.AllocatedClaims claim.UID with
    | true => simp [driver.allocate, hn, hget, hst, hin] at hw
    | false =>
      cases claimParameters with
      | other => simp [driver.allocate, hn, hget, hst, hin] at hw
      | pci params =>
        cases hex : d.pci.PendingAllocatedClaims.find claim.UID selectedNode with
        | none =>
          simp [driver.allocate, hn, hget, hst, hin, pcidriver.Allocate,
            PerNodeAllocatedClaims.Exists, hex] at hw
        | some devices =>
          have hspec : spec = { crd0.Spec with
            AllocatedClaims := GoMap.set crd0.Spec.AllocatedClaims claim.UID devices } := by
            by_cases hup : client.updateOk
                { crd0.Spec with
                  AllocatedClaims := GoMap.set crd0.Spec.AllocatedClaims claim.UID devices } = true
            · simp [driver.allocate, hn, hget, hst, hin, pcidriver.Allocate,
                PerNodeAllocatedClaims.Exists, PerNodeAllocatedClaims.Get, hex, hup] at hw
              exact hw.symm
            · simp [driver.allocate, hn, hget, hst, hin, pcidriver.Allocate,
                PerNodeAllocatedClaims.Exists, PerNodeAllocatedClaims.Get, hex, hup] at hw
              exact hw.symm
          rw [hspec] at hfail
          have hpend : (driver.allocate d client claim (.pci params) selectedNode).pending
              = d.pci.PendingAllocatedClaims := by
            simp [driver.allocate, hn, hget, hst, hin, pcidriver.Allocate,
              PerNodeAllocatedClaims.Exists, PerNodeAllocatedClaims.Get, hex, hfail]
          refine ⟨?_, hpend, devices, ?_, ?_, ?_⟩
          · simp [driver.allocate, hn, hget, hst, hin, pcidriver.Allocate,
              PerNodeAllocatedClaims.Exists, PerNodeAllocatedClaims.Get, hex, hfail]
          · rw [hspec]; exact GoMap.get_set_self _ _ _
          · rw [hpend]; exact hex
          · intro retry crd hget2 hst2 hin2
            rw [hpend]
            by_cases hup2 : retry.updateOk
                { crd.Spec with
                  AllocatedClaims := GoMap.set crd.Spec.AllocatedClaims claim.UID devices } = true
            · refine ⟨{ crd.Spec with
              AllocatedClaims := GoMap.set crd.Spec.AllocatedClaims claim.UID devices }, ?_, ?_⟩
              · simp [driver.allocate, hn, hget2, hst2, hin2, pcidriver.Allocate,
                  PerNodeAllocatedClaims.Exists, PerNodeAllocatedClaims.Get, hex, hup2]
              · exact GoMap.get_set_self _ _ _
            · refine ⟨{ crd.Spec with
              AllocatedClaims := GoMap.set crd.Spec.AllocatedClaims claim.UID devices }, ?_, ?_⟩
              · simp [driver.allocate, hn, hget2, hst2, hin2, pcidriver.Allocate,
                  PerNodeAllocatedClaims.Exists, PerNodeAllocatedClaims.Get, hex, hup2]
              · exact GoMap.get_set_self _ _ _

/-- C8 at a concrete input: the cache holds device `A` for claim `C1` on node
`n1`, the record is Ready and every update fails. -/
theorem C8_allocate_update_failure_witness :
    (driver.allocate samplePendingDriver (clientOf sampleReady false) ⟨"C1", none⟩
        (.pci ⟨"nvme"⟩) "n1").updates
      = [{ sampleReady.Spec with AllocatedClaims := [("C1", oneDevice "A")] }] ∧
    (driver.allocate samplePendingDriver (clientOf sampleReady false) ⟨"C1", none⟩
        (.pci ⟨"nvme"⟩) "n1").result = .error .updatingCRD ∧
    (driver.allocate samplePendingDriver (clientOf sampleReady false) ⟨"C1", none⟩
        (.pci ⟨"nvme"⟩) "n1").pending = samplePendingDriver.pci.PendingAllocatedClaims :=
  have h := C8_allocate_update_failure samplePendingDriver (clientOf sampleReady false)
    ⟨"C1", none⟩ (.pci ⟨"nvme"⟩) "n1"
    { sampleReady.Spec with AllocatedClaims := [("C1", oneDevice "A")] } rfl rfl
  ⟨rfl, h.1, h.2.1⟩

/-! ## Filtering without a matching device, deallocation -/

namespace GoMap

variable {V : Type}

/-- Lookup after `delete(m, k)`. -/
theorem get_delete (m : GoMap V) (k j : String) :
    get (delete m k) j = if j = k then none else get m j := by
  unfold delete
  induction m with
  | nil => simp [get]
  | cons e es ih =>
    by_cases hek : e.1 = k
    · simp only [List.filter_cons, hek, ne_eq, not_true_eq_false, decide_False,
        Bool.false_eq_true, if_false, get]
      rw [ih]
      by_cases hjk : j = k
      · simp [hjk]
      · have : ¬ k = j := fun h => hjk h.symm
        simp [hjk, this]
    · simp only [List.filter_cons, hek, ne_eq, not_false_eq_true, decide_True, if_true, get]
      rw [ih]
      by_cases hej : e.1 = j
      · have : ¬ j = k := by rw [← hej]; exact hek
        simp [hej, this]
      · simp [hej]

/-- A value that is looked up belongs to an entry of the map. -/
theorem mem_of_get (m : GoMap V) (k : String) (v : V) (h : get m k = some v) :
    (k, v) ∈ m := by
  induction m with
  | nil => simp [get] at h
  | cons e es ih =>
    simp only [get] at h
    split at h
    · rename_i hek
      simp only [Option.some.injEq] at h
      have : e = (k, v) := by
        cases e
        simp only at hek h
        rw [hek, h]
      rw [this]
      exact List.mem_cons_self _ _
    · exact List.mem_cons_of_mem _ (ih h)

/-- A key is present exactly when it is the key of an entry. -/
theorem has_iff_mem_keys (m : GoMap V) (k : String) :
    has m k = true ↔ k ∈ m.map Prod.fst := by
  unfold has
  induction m with
  | nil => simp [get]
  | cons e es ih =>
    simp only [get, List.map_cons, List.mem_cons]
    by_cases hek : e.1 = k
    · simp [hek]
    · have : ¬ k = e.1 := fun h => hek h.symm
      simp only [hek, if_false, this, false_or]
      exact ih

end GoMap

namespace PerNodeAllocatedClaims

/-- The removal of a claim from the cache creates no entry. -/
theorem find_Remove_of_none (p : PerNodeAllocatedClaims) (x c n : String)
    (h : p.find c n = none) : (p.Remove x).find c n = none := by
  unfold find at h ⊢
  unfold PerNodeAllocatedClaims.Remove
  cases hf : List.find? (fun e => decide (e.1 = (c, n))) p.allocations with
  | some y => rw [hf] at h; cases h
  | none =>
    have hnone : List.find? (fun e => decide (e.1 = (c, n)))
        (List.filter (fun e => decide (e.1.1 ≠ x)) p.allocations) = none := by
      rw [List.find?_eq_none] at hf ⊢
      intro e he
      exact hf e (List.mem_filter.mp he).1
    simp only [hnone, Option.map_none']

end PerNodeAllocatedClaims

/-- The merge of the cache entries of a node creates no cache entry. -/
theorem visitNode_find_none (crd : NodeAllocationState) (pending : PerNodeAllocatedClaims)
    (potentialNode c n : String) (h : pending.find c n = none) :
    (visitNode crd pending potentialNode).2.find c n = none := by
  unfold visitNode
  have key : ∀ (l : List (String × AllocatedDevices))
      (state : NodeAllocationState × PerNodeAllocatedClaims),
      state.2.find c n = none → (l.foldl visitStep state).2.find c n = none := by
    intro l
    induction l with
    | nil => intro state hs; exact hs
    | cons x xs ih =>
      intro state hs
      rw [List.foldl_cons]
      apply ih
      unfold visitStep
      split
      · exact PerNodeAllocatedClaims.find_Remove_of_none _ _ _ _ hs
      · exact hs
  exact key _ (crd, pending) h

/-- The loop of `pcidriver.UnsuitableNode` on a batch of PCI claims one of which
did not get exactly one device: the node becomes unsuitable for every claim,
and no claim without exactly one device gets a cache entry. -/
theorem unsuitableLoop_rejects (allocated : GoMap (List String)) (potentialNode : String)
    (allcas : List ClaimAllocation) (cas : List ClaimAllocation)
    (hpci : ∀ ca ∈ cas, ∃ params, ca.ClaimParameters = .pci params)
    (hbad : ∃ ca ∈ cas, ((GoMap.get allocated ca.Claim.UID).getD []).length ≠ 1) :
    ∀ pending, ∃ out,
      unsuitableLoop allocated potentialNode cas allcas pending = some out ∧
      out.err = none ∧ out.allcas = markUnsuitable allcas potentialNode ∧
      ∀ c, ((GoMap.get allocated c).getD []).length ≠ 1 →
        pending.find c potentialNode = none → out.pending.find c potentialNode = none := by
  induction cas with
  | nil =>
    obtain ⟨ca, hca, _⟩ := hbad
    cases hca
  | cons x xs ih =>
    intro pending
    obtain ⟨params, hp⟩ := hpci x (List.mem_cons_self _ _)
    by_cases hlen : ((GoMap.get allocated x.Claim.UID).getD []).length = 1
    · have hbad2 : ∃ ca ∈ xs, ((GoMap.get allocated ca.Claim.UID).getD []).length ≠ 1 := by
        obtain ⟨ca, hca, hcab⟩ := hbad
        rcases List.mem_cons.mp hca with hca | hca
        · subst hca; exact absurd hlen hcab
        · exact ⟨ca, hca, hcab⟩
      cases hd : (GoMap.get allocated x.Claim.UID).getD [] with
      | nil => rw [hd] at hlen; cases hlen
      | cons u us =>
        obtain ⟨out, hout, herr, hall, hfind⟩ :=
          ih (fun y hy => hpci y (List.mem_cons_of_mem _ hy)) hbad2
            (pending.Set x.Claim.UID potentialNode ⟨some ⟨[⟨u⟩]⟩⟩)
        refine ⟨out, ?_, herr, hall, ?_⟩
        · rw [← hout]
          have hlen2 : (u :: us).length = 1 := by rw [← hd]; exact hlen
          conv => lhs; unfold unsuitableLoop
          simp only [hp, hd, hlen2, ne_eq, not_true_eq_false, if_false]
        · intro c hc hpend
          apply hfind c hc
          rw [PerNodeAllocatedClaims.find_Set]
          have hne : ¬ (c, potentialNode) = (x.Claim.UID, potentialNode) := by
            intro hh
            have hcx : c = x.Claim.UID := (Prod.mk.inj hh).1
            rw [hcx] at hc
            exact hc hlen
          simp only [hne, if_false]
          exact hpend
    · refine ⟨⟨none, markUnsuitable allcas potentialNode, pending⟩, ?_, rfl, rfl, ?_⟩
      · conv => lhs; unfold unsuitableLoop
        simp only [hp, ne_eq, hlen, not_false_eq_true, if_true]
      · intro c _ hpend
        exact hpend

/-- C11: let a batch of PCI claims be filtered against a record whose allocated
and cached device sets are of PCI type, and let a claim of the batch be neither
in the fetched `AllocatedClaims` nor in the pending cache for the node, while no
PCI device of the allocatable set has the resource name the claim asks for.
Then, whatever the order in which the `available` map is walked,
`pcidriver.UnsuitableNode` returns without error, appends the node to the
unsuitable list of every claim of `allcas` (so to the one of that claim), leaves
the cache without an entry for (claim, node), and a later commit of that claim
on that node, against any record that does not hold the claim, returns an error
and writes nothing. -/
theorem C11_no_matching_device_unsuitable (order : RangeOrder) (horder : FairOrder order)
    (p : pcidriver) (crd : NodeAllocationState) (pcicas allcas : List ClaimAllocation)
    (potentialNode c : String)
    (hpci : ∀ ca ∈ pcicas, ∃ params, ca.ClaimParameters = .pci params)
    (hcrd : ∀ c v, GoMap.get crd.Spec.AllocatedClaims c = some v → v.Pci.isSome = true)
    (hcache : ∀ e ∈ p.PendingAllocatedClaims.allocations, e.2.Pci.isSome = true)
    (hbatch : ∃ ca ∈ pcicas, ca.Claim.UID = c)
    (hfresh : GoMap.has crd.Spec.AllocatedClaims c = false)
    (hpending : p.PendingAllocatedClaims.Exists c potentialNode = false)
    (hnone : ∀ ca ∈ pcicas, ca.Claim.UID = c → ∀ params, ca.ClaimParameters = .pci params →
      ∀ device ∈ crd.Spec.AllocatableDevices, ∀ pci, device.Pci = some pci →
        pci.ResourceName ≠ params.DeviceName) :
    ∃ out,
      pcidriver.UnsuitableNode order p crd pcicas allcas potentialNode = some out ∧
      out.err = none ∧
      out.allcas = allcas.map
        (fun ca => { ca with UnsuitableNodes := ca.UnsuitableNodes ++ [potentialNode] }) ∧
      out.pending.Exists c potentialNode = false ∧
      ∀ (client : NasClient) (claim : ResourceClaim) (claimParameters : ClaimParameters),
        claim.UID = c →
        (∀ crd2, client.getResult = some crd2 →
          GoMap.has crd2.Spec.AllocatedClaims c = false) →
        (∃ err, (driver.allocate ⟨⟨out.pending⟩⟩ client claim claimParameters
            potentialNode).result = .error err) ∧
        (driver.allocate ⟨⟨out.pending⟩⟩ client claim claimParameters
            potentialNode).updates = [] := by
  have hn : GoMap.get crd.Spec.AllocatedClaims c = none := by
    simpa [GoMap.has] using hfresh
  have hpn : p.PendingAllocatedClaims.find c potentialNode = none := by
    simpa [PerNodeAllocatedClaims.Exists] using hpending
  have hmerged := visitNode_get_none crd p.PendingAllocatedClaims potentialNode c hn hpn
  have hdevices : ∀ (l : List (String × AllocatedDevices))
      (state : NodeAllocationState × PerNodeAllocatedClaims),
      (l.foldl visitStep state).1.Spec.AllocatableDevices = state.1.Spec.AllocatableDevices := by
    intro l
    induction l with
    | nil => intro state; rfl
    | cons x xs ih =>
      intro state
      rw [List.foldl_cons, ih]
      unfold visitStep
      split <;> rfl
  have hdev : (visitNode crd p.PendingAllocatedClaims potentialNode).1.Spec.AllocatableDevices
      = crd.Spec.AllocatableDevices := hdevices _ _
  obtain ⟨allocated, hall⟩ := allocateLoop_total order
    (visitNode crd p.PendingAllocatedClaims potentialNode).1.Spec.AllocatedClaims
    (visitNode_claims_ok crd p.PendingAllocatedClaims potentialNode hcrd hcache)
    pcicas hpci 0
    (availableDevices (visitNode crd p.PendingAllocatedClaims potentialNode).1) []
  have hA : pcidriver.allocate order (visitNode crd p.PendingAllocatedClaims potentialNode).1
      pcicas = some allocated := hall
  obtain ⟨available, hf⟩ := allocate_fresh order horder _ pcicas allocated hA
  have hgot : GoMap.get allocated c = none := by
    cases hg : GoMap.get allocated c with
    | none => rfl
    | some devs =>
      obtain ⟨u, _, _, ⟨ca, hca, huid, params, pci, hp, hmem, _, hname⟩, _⟩ :=
        hf c hmerged devs hg
      rw [hdev] at hmem
      exact absurd hname (hnone ca hca huid params hp ⟨some pci⟩ hmem pci rfl)
  have hlen : ((GoMap.get allocated c).getD []).length ≠ 1 := by
    rw [hgot]; simp
  obtain ⟨ca0, hca0, huid0⟩ := hbatch
  obtain ⟨out, hout, herr, hallcas, hfind⟩ := unsuitableLoop_rejects allocated potentialNode
    allcas pcicas hpci ⟨ca0, hca0, by rw [huid0]; exact hlen⟩
    (visitNode crd p.PendingAllocatedClaims potentialNode).2
  have hfinal : out.pending.find c potentialNode = none :=
    hfind c hlen (visitNode_find_none crd p.PendingAllocatedClaims potentialNode c
      potentialNode hpn)
  have hex : out.pending.Exists c potentialNode = false := by
    simp [PerNodeAllocatedClaims.Exists, hfinal]
  refine ⟨out, ?_, herr, hallcas, hex, ?_⟩
  · unfold pcidriver.UnsuitableNode
    simp only [hA, hout]
  · intro client claim claimParameters huid hclient
    subst huid
    by_cases hnode : potentialNode = ""
    · simp [driver.allocate, hnode]
    cases hget : client.getResult with
    | none => simp [driver.allocate, hnode, hget]
    | some crd2 =>
      by_cases hst : crd2.Status = NodeAllocationStateStatusReady
      · have hin := hclient crd2 hget
        cases claimParameters with
        | pci params =>
          simp [driver.allocate, hnode, hget, hst, hin, pcidriver.Allocate, hex]
        | other => simp [driver.allocate, hnode, hget, hst, hin]
      · simp [driver.allocate, hnode, hget, hst]

/-- C11 at a concrete input: the only device of the Ready node has the resource
name `devices.kubevirt.io/nvme`, the claim `C1` asks for `gpu`, the cache is
empty. -/
theorem C11_no_matching_device_unsuitable_witness :
    FairOrder listOrder ∧
    ∃ out,
      pcidriver.UnsuitableNode listOrder NewPciDriver sampleSingle [sampleClaim "C1" "gpu"]
        [sampleClaim "C1" "gpu"] "n1" = some out ∧
      out.err = none ∧
      out.allcas = [sampleClaim "C1" "gpu"].map
        (fun ca => { ca with UnsuitableNodes := ca.UnsuitableNodes ++ ["n1"] }) ∧
      out.pending.Exists "C1" "n1" = false :=
  have h := C11_no_matching_device_unsuitable listOrder fairOrder_listOrder NewPciDriver
    sampleSingle [sampleClaim "C1" "gpu"] [sampleClaim "C1" "gpu"] "n1" "C1"
    (fun ca hca => by
      simp only [List.mem_singleton] at hca
      subst hca
      exact ⟨_, rfl⟩)
    (fun c v hget => by simp [sampleSingle, GoMap.get] at hget)
    (fun e he => by cases he)
    ⟨sampleClaim "C1" "gpu", List.mem_singleton.mpr rfl, rfl⟩
    (by decide) (by decide)
    (fun ca hca _ params hp device hdev pci hpci => by
      simp only [List.mem_singleton] at hca
      subst hca
      simp only [sampleSingle, kubevirtDevA, List.mem_singleton] at hdev
      subst hdev
      simp only [Option.some.injEq] at hpci
      subst hpci
      simp only [sampleClaim, ClaimParameters.pci.injEq] at hp
      subst hp
      decide)
  ⟨fairOrder_listOrder, h.choose, h.choose_spec.1, h.choose_spec.2.1, h.choose_spec.2.2.1,
    h.choose_spec.2.2.2.1⟩

/-- What `driver.Deallocate` does to the pending cache when it returns success:
after a write (the claim was in the fetched `AllocatedClaims`, of PCI type) the
cache holds no entry for the claim on any node; without a write (no selected
node, or a claim that is not in the fetched `AllocatedClaims`) the cache is as
it was before the call. -/
theorem deallocate_pending (d : driver) (client : NasClient)
    (claim : ResourceClaim) (out : DeallocateOutcome)
    (h : driver.Deallocate d client claim = some out) (hok : out.err = none) :
    (out.updates ≠ [] → ∀ node, out.pending.Exists claim.UID node = false) ∧
    (out.updates = [] → out.pending = d.pci.PendingAllocatedClaims) ∧
    (out.updates ≠ [] ↔ ∃ node crd devices, getSelectedNode claim = some node ∧ node ≠ "" ∧
      client.getResult = some crd ∧ GoMap.get crd.Spec.AllocatedClaims claim.UID = some devices ∧
      devices.Type = PciDeviceType) := by
  unfold driver.Deallocate at h
  cases hsel : getSelectedNode claim with
  | none => simp [hsel] at h
  | some node =>
    simp only [hsel] at h
    by_cases hnode : node = ""
    · simp only [hnode, if_true, Option.some.injEq] at h
      subst h
      simp [hnode]
    simp only [hnode, if_false] at h
    cases hget : client.getResult with
    | none =>
      simp only [hget, Option.some.injEq] at h
      subst h
      simp at hok
    | some crd =>
      simp only [hget] at h
      by_cases hnil : crd.Spec.AllocatedClaims = []
      · simp only [hnil, if_true, Option.some.injEq] at h
        subst h
        simp [hnil, GoMap.get]
      simp only [hnil, if_false] at h
      cases hc : GoMap.get crd.Spec.AllocatedClaims claim.UID with
      | none =>
        simp only [hc, Option.some.injEq] at h
        subst h
        simp [hc]
      | some devices =>
        simp only [hc] at h
        by_cases hty : devices.Type = PciDeviceType
        · simp only [hty, if_true] at h
          split at h
          · simp only [Option.some.injEq] at h
            subst h
            refine ⟨?_, by simp, ?_⟩
            · intro _ n
              simp [pcidriver.Deallocate, PerNodeAllocatedClaims.Exists,
                PerNodeAllocatedClaims.find_Remove_self]
            · simp [hnode, hc, hty]
          · simp only [Option.some.injEq] at h
            subst h
            simp at hok
        · simp only [hty, if_false, Option.some.injEq] at h
          subst h
          simp at hok

/-- C12: the code at the failing input. The cache holds device `A` for the claim
`C1` on node `n1`, which filtering put there, and `C1` was never committed.
`driver.Deallocate` returns success, writes nothing and leaves that cache entry
where it is, both when `C1` has no selected node and when it selects `n1`, whose
record does not hold it: the call returns before `pcidriver.Deallocate`, which
removes the claim from the cache and which only the path of a claim found in
`AllocatedClaims` reaches. On that path the cache is emptied of the claim. -/
theorem C12_deallocate_keeps_pending_entries :
    samplePendingDriver.pci.PendingAllocatedClaims.Exists "C1" "n1" = true ∧
    getSelectedNode ⟨"C1", none⟩ = some "" ∧
    driver.Deallocate samplePendingDriver (clientOf sampleReady true) ⟨"C1", none⟩
      = some ⟨none, [], ⟨[(("C1", "n1"), oneDevice "A")]⟩⟩ ∧
    GoMap.has sampleReady.Spec.AllocatedClaims "C1" = false ∧
    driver.Deallocate samplePendingDriver (clientOf sampleReady true) (claimOn "C1" "n1")
      = some ⟨none, [], ⟨[(("C1", "n1"), oneDevice "A")]⟩⟩ ∧
    driver.Deallocate samplePendingDriver (clientOf (recordAllocated "Ready") true)
        (claimOn "C1" "n1")
      = some ⟨none, [{ (recordAllocated "Ready").Spec with AllocatedClaims := [] }], ⟨[]⟩⟩ := by
  refine ⟨by decide, by decide, by decide, by decide, by decide, by decide⟩

/-- C13: `getSelectedNode` returns the empty string for a claim without
allocation and for an allocation without node selector; for a claim without
selected node `driver.Deallocate` returns success, hands nothing to
`client.Update` and leaves the cache as it was; and so it does when the record
of the selected node is fetched and its `AllocatedClaims` is absent (empty in
the embedding) or does not contain the claim. -/
theorem C13_deallocate_noop (d : driver) (client : NasClient) (claim : ResourceClaim) :
    (claim.Allocation = none → getSelectedNode claim = some "") ∧
    (∀ allocation, claim.Allocation = some allocation → allocation.AvailableOnNodes = none →
      getSelectedNode claim = some "") ∧
    (getSelectedNode claim = some "" →
      driver.Deallocate d client claim = some ⟨none, [], d.pci.PendingAllocatedClaims⟩) ∧
    (∀ node crd, getSelectedNode claim = some node → client.getResult = some crd →
      (crd.Spec.AllocatedClaims = [] ∨ GoMap.has crd.Spec.AllocatedClaims claim.UID = false) →
      driver.Deallocate d client claim = some ⟨none, [], d.pci.PendingAllocatedClaims⟩) := by
  refine ⟨?_, ?_, ?_, ?_⟩
  · intro h
    simp [getSelectedNode, h]
  · intro allocation h h2
    simp [getSelectedNode, h, h2]
  · intro h
    simp [driver.Deallocate, h]
  · intro node crd hsel hget habs
    by_cases hnode : node = ""
    · simp [driver.Deallocate, hsel, hnode]
    · by_cases hnil : crd.Spec.AllocatedClaims = []
      · simp [driver.Deallocate, hsel, hnode, hget, hnil]
      · have hno : GoMap.get crd.Spec.AllocatedClaims claim.UID = none := by
          rcases habs with habs | habs
          · exact absurd habs hnil
          · simpa [GoMap.has] using habs
        simp [driver.Deallocate, hsel, hnode, hget, hnil, hno]

/-- C13 at a concrete input: the claim `C1` has no allocation; the claim `C2`
selects node `n1`, whose record holds `C1` only. -/
theorem C13_deallocate_noop_witness :
    driver.Deallocate samplePendingDriver (clientOf (recordAllocated "Ready") true)
        ⟨"C1", none⟩
      = some ⟨none, [], samplePendingDriver.pci.PendingAllocatedClaims⟩ ∧
    driver.Deallocate samplePendingDriver (clientOf (recordAllocated "Ready") true)
        (claimOn "C2" "n1")
      = some ⟨none, [], samplePendingDriver.pci.PendingAllocatedClaims⟩ :=
  have h1 := C13_deallocate_noop samplePendingDriver (clientOf (recordAllocated "Ready") true)
    ⟨"C1", none⟩
  have h2 := C13_deallocate_noop samplePendingDriver (clientOf (recordAllocated "Ready") true)
    (claimOn "C2" "n1")
  ⟨h1.2.2.1 (h1.1 rfl), h2.2.2.2 "n1" (recordAllocated "Ready") rfl rfl (Or.inr (by decide))⟩

/-- C14: when `driver.Deallocate` succeeds for a claim that the fetched record of
its selected node holds with a device set of PCI type, it hands `client.Update`
exactly one spec: the fetched one with the claim deleted from `AllocatedClaims`,
so that the claim is absent, every other claim has the allocation it had, and
the allocatable devices and the prepared claims are the fetched ones. -/
theorem C14_deallocate_writes_spec_without_claim (d : driver) (client : NasClient)
    (claim : ResourceClaim) (node : String) (crd : NodeAllocationState)
    (devices : AllocatedDevices) (out : DeallocateOutcome)
    (hsel : getSelectedNode claim = some node) (hnode : node ≠ "")
    (hget : client.getResult = some crd)
    (hin : GoMap.get crd.Spec.AllocatedClaims claim.UID = some devices)
    (hty : devices.Type = PciDeviceType)
    (h : driver.Deallocate d client claim = some out) (hok : out.err = none) :
    ∃ spec, out.updates = [spec] ∧
      spec.AllocatedClaims = GoMap.delete crd.Spec.AllocatedClaims claim.UID ∧
      GoMap.get spec.AllocatedClaims claim.UID = none ∧
      (∀ other, other ≠ claim.UID →
        GoMap.get spec.AllocatedClaims other = GoMap.get crd.Spec.AllocatedClaims other) ∧
      spec.AllocatableDevices = crd.Spec.AllocatableDevices ∧
      spec.PreparedClaims = crd.Spec.PreparedClaims := by
  have hnil : crd.Spec.AllocatedClaims ≠ [] := by
    intro hh
    rw [hh] at hin
    simp [GoMap.get] at hin
  unfold driver.Deallocate at h
  simp only [hsel, hnode, if_false, hget, hnil, hin, hty, if_true] at h
  split at h
  · simp only [Option.some.injEq] at h
    subst h
    refine ⟨_, rfl, rfl, ?_, ?_, rfl, rfl⟩
    · simp only [GoMap.get_delete, if_true]
    · intro other hne
      simp only [GoMap.get_delete, hne, if_false]
  · simp only [Option.some.injEq] at h
    subst h
    simp at hok

/-- C14 at a concrete input: the record of node `n1` holds the claims `C1` and
`C2`, and `C1` is deallocated. -/
theorem C14_deallocate_writes_spec_without_claim_witness :
    ∃ spec,
      [{ (recordAllocated "Ready").Spec with AllocatedClaims := [("C2", oneDevice "B")] }]
        = [spec] ∧
      spec.AllocatedClaims
        = GoMap.delete [("C1", oneDevice "A"), ("C2", oneDevice "B")] "C1" ∧
      GoMap.get spec.AllocatedClaims "C1" = none ∧
      (∀ other, other ≠ "C1" →
        GoMap.get spec.AllocatedClaims other
          = GoMap.get [("C1", oneDevice "A"), ("C2", oneDevice "B")] other) ∧
      spec.AllocatableDevices = (recordAllocated "Ready").Spec.AllocatableDevices ∧
      spec.PreparedClaims = (recordAllocated "Ready").Spec.PreparedClaims :=
  C14_deallocate_writes_spec_without_claim sampleFreshDriver
    (clientOf { recordAllocated "Ready" with
      Spec := { (recordAllocated "Ready").Spec with
        AllocatedClaims := [("C1", oneDevice "A"), ("C2", oneDevice "B")] } } true)
    (claimOn "C1" "n1") "n1"
    { recordAllocated "Ready" with
      Spec := { (recordAllocated "Ready").Spec with
        AllocatedClaims := [("C1", oneDevice "A"), ("C2", oneDevice "B")] } }
    (oneDevice "A")
    ⟨none, [{ (recordAllocated "Ready").Spec with AllocatedClaims := [("C2", oneDevice "B")] }],
      ⟨[]⟩⟩
    rfl (by decide) rfl (by decide) (by decide) (by decide) rfl

/-! ## The device agent: prepare and unprepare -/

namespace KubeletPlugin

/-- The `Prepare` of a claim that is prepared already. -/
theorem prepare_of_prepared (s : DeviceState) (writeOk : Bool) (claimUID : String)
    (allocation : AllocatedDevices) (devices : PreparedDevices)
    (h : GoMap.get s.prepared claimUID = some devices) :
    s.Prepare writeOk claimUID allocation
      = some (match CDIHandler.GetClaimDevices devices with
              | .error err => .error (.getDeviceNames err)
              | .ok cdiDevices => .ok cdiDevices, s) := by
  unfold DeviceState.Prepare
  simp only [h]
  cases CDIHandler.GetClaimDevices devices <;> rfl

/-- The outcomes of `DeviceState.Prepare`: an error that leaves the state as it
was, the handles of a claim that was prepared already, or the handles of a claim
that is prepared now, with its spec file written. -/
theorem prepare_cases (s s2 : DeviceState) (writeOk : Bool) (claimUID : String)
    (allocation : AllocatedDevices) (result : Except NodeError (List String))
    (h : s.Prepare writeOk claimUID allocation = some (result, s2)) :
    (∃ err, result = .error err ∧ s2 = s) ∨
    (∃ handles devices, result = .ok handles ∧ s2 = s ∧
      GoMap.get s.prepared claimUID = some devices ∧
      CDIHandler.GetClaimDevices devices = .ok handles) ∨
    (∃ handles allocated pcis, result = .ok handles ∧
      GoMap.get s.prepared claimUID = none ∧ allocation.Pci = some allocated ∧
      writeOk = true ∧
      s2 = { s with cdi := ⟨GoMap.set s.cdi.claimSpecs claimUID ⟨some pcis⟩⟩,
                    prepared := GoMap.set s.prepared claimUID ⟨some pcis⟩ } ∧
      CDIHandler.GetClaimDevices ⟨some pcis⟩ = .ok handles) := by
  unfold DeviceState.Prepare at h
  cases hp : GoMap.get s.prepared claimUID with
  | some devices =>
    simp only [hp] at h
    cases hg : CDIHandler.GetClaimDevices devices with
    | error err =>
      simp only [hg, Option.some.injEq, Prod.mk.injEq] at h
      exact Or.inl ⟨_, h.1.symm, h.2.symm⟩
    | ok cdiDevices =>
      simp only [hg, Option.some.injEq, Prod.mk.injEq] at h
      exact Or.inr (Or.inl ⟨cdiDevices, devices, h.1.symm, h.2.symm, rfl, hg⟩)
  | none =>
    simp only [hp] at h
    cases ha : allocation.Pci with
    | none =>
      simp only [ha, Option.some.injEq, Prod.mk.injEq] at h
      exact Or.inl ⟨_, h.1.symm, h.2.symm⟩
    | some allocated =>
      simp only [ha] at h
      cases hpp : s.preparePcis allocated with
      | none => simp [hpp] at h
      | some r =>
        cases r with
        | error err =>
          simp only [hpp, Option.some.injEq, Prod.mk.injEq] at h
          exact Or.inl ⟨_, h.1.symm, h.2.symm⟩
        | ok pcis =>
          simp only [hpp] at h
          cases hw : writeOk with
          | false =>
            simp only [hw, CDIHandler.CreateClaimSpecFile, PreparedDevices.Type,
              Option.isSome_some, if_true, Bool.false_eq_true, if_false, Option.some.injEq,
              Prod.mk.injEq] at h
            exact Or.inl ⟨_, h.1.symm, h.2.symm⟩
          | true =>
            simp only [hw, CDIHandler.CreateClaimSpecFile, PreparedDevices.Type,
              Option.isSome_some, if_true, CDIHandler.GetClaimDevices, Option.some.injEq,
              Prod.mk.injEq] at h
            exact Or.inr (Or.inr ⟨_, allocated, pcis, h.1.symm, rfl, rfl, rfl, h.2.symm, rfl⟩)

/-- C15: in a state in which the claim is prepared, `DeviceState.Prepare` returns
what `GetClaimDevices` makes of the prepared devices, whatever the allocation
argument, and returns the state as it was: the prepared map, the allocatable map
and the CDI spec files are unchanged. So a `Prepare` that follows a successful
`Prepare` of the same claim returns the same handle list and changes nothing, for
every allocation argument. -/
theorem C15_prepare_idempotent (s : DeviceState) (claimUID : String) :
    (∀ devices, GoMap.get s.prepared claimUID = some devices →
      ∀ (writeOk : Bool) (allocation : AllocatedDevices),
        ∃ result, s.Prepare writeOk claimUID allocation = some (result, s) ∧
          ∀ handles, CDIHandler.GetClaimDevices devices = .ok handles →
            result = .ok handles) ∧
    (∀ (writeOk : Bool) (allocation : AllocatedDevices) (handles : List String)
        (s2 : DeviceState),
      s.Prepare writeOk claimUID allocation = some (.ok handles, s2) →
      ∀ (writeOk2 : Bool) (allocation2 : AllocatedDevices),
        s2.Prepare writeOk2 claimUID allocation2 = some (.ok handles, s2)) := by
  constructor
  · intro devices hp writeOk allocation
    refine ⟨_, prepare_of_prepared s writeOk claimUID allocation devices hp, ?_⟩
    intro handles hh
    simp only [hh]
  · intro writeOk allocation handles s2 h writeOk2 allocation2
    rcases prepare_cases s s2 writeOk claimUID allocation _ h with
      ⟨err, herr, _⟩ | ⟨handles2, devices, hres, hs, hp, hg⟩ |
      ⟨handles2, allocated, pcis, hres, _, _, _, hs, hg⟩
    · cases herr
    · simp only [Except.ok.injEq] at hres
      subst hres
      subst hs
      rw [prepare_of_prepared s2 writeOk2 claimUID allocation2 devices hp]
      simp only [hg]
    · simp only [Except.ok.injEq] at hres
      subst hres
      have hp2 : GoMap.get s2.prepared claimUID = some ⟨some pcis⟩ := by
        rw [hs]
        exact GoMap.get_set_self _ _ _
      rw [prepare_of_prepared s2 writeOk2 claimUID allocation2 ⟨some pcis⟩ hp2]
      simp only [hg]

/-- C15 at a concrete input: the agent prepares device `A` for claim `C1`, then
is asked again with an empty allocation. -/
theorem C15_prepare_idempotent_witness :
    freshAgent.state.Prepare true "C1" (oneDevice "A")
      = some (.ok [QualifiedName cdiVendor cdiClass "common",
                   QualifiedName cdiVendor cdiClass "A"], preparedAgent.state) ∧
    preparedAgent.state.Prepare false "C1" ⟨none⟩
      = some (.ok [QualifiedName cdiVendor cdiClass "common",
                   QualifiedName cdiVendor cdiClass "A"], preparedAgent.state) :=
  ⟨rfl, (C15_prepare_idempotent freshAgent.state "C1").2 true (oneDevice "A") _
    preparedAgent.state rfl false ⟨none⟩⟩

/-- The loop of `preparePcis` faults as soon as the allocation names a device
that is not a key of the allocatable map. -/
theorem preparePcisLoop_faults (allocatable : AllocatableDevices)
    (allocated : List AllocatedPci)
    (h : ∃ device ∈ allocated, GoMap.get allocatable device.UUID = none) :
    ∀ devices, preparePcisLoop allocatable allocated devices = none := by
  induction allocated with
  | nil =>
    obtain ⟨device, hd, _⟩ := h
    cases hd
  | cons x xs ih =>
    intro devices
    unfold preparePcisLoop
    cases hx : GoMap.get allocatable x.UUID with
    | none => rfl
    | some pciInfo =>
      have hhas : GoMap.has allocatable x.UUID = true := by simp [GoMap.has, hx]
      simp only [hhas, not_true_eq_false, if_false]
      apply ih
      obtain ⟨device, hd, hnone⟩ := h
      rcases List.mem_cons.mp hd with hd | hd
      · subst hd
        rw [hx] at hnone
        cases hnone
      · exact ⟨device, hd, hnone⟩

/-- C16: the code at the failing input. The agent has no allocatable device and
the claim `C1`, not yet prepared, is allocated the device `A`: `preparePcis`
evaluates `s.allocatable[device.UUID].PCIDevice` on the nil pointer the map
returns, before it tests that the key exists, and `Prepare` faults instead of
returning the error. So it does when the agent has the device `A` and the claim
is allocated `A` and the unknown device `B`. -/
theorem C16_prepare_faults_on_unknown_device :
    GoMap.has emptyAgent.state.allocatable "A" = false ∧
    GoMap.has emptyAgent.state.prepared "C1" = false ∧
    emptyAgent.state.preparePcis ⟨[⟨"A"⟩]⟩ = none ∧
    emptyAgent.state.Prepare true "C1" (oneDevice "A") = none ∧
    GoMap.has freshAgent.state.allocatable "B" = false ∧
    freshAgent.state.Prepare true "C1" ⟨some ⟨[⟨"A"⟩, ⟨"B"⟩]⟩⟩ = none := by
  refine ⟨by decide, by decide, rfl, rfl, by decide, rfl⟩

end KubeletPlugin

/-! ## The device agent: a prepare whose record write fails -/

namespace KubeletPlugin

/-- The loop of `syncPreparedDevicesToCRDSpec` returns no error on prepared
claims of PCI type. -/
theorem syncPreparedLoop_ok (l : List (String × PreparedDevices))
    (h : ∀ e ∈ l, e.2.Pci.isSome = true) :
    ∀ outcas, ∃ result, syncPreparedLoop l outcas = .ok result := by
  induction l with
  | nil => intro outcas; exact ⟨outcas, rfl⟩
  | cons e es ih =>
    intro outcas
    obtain ⟨claim, devices⟩ := e
    have he := h (claim, devices) (List.mem_cons_self _ _)
    simp only at he
    cases hp : devices.Pci with
    | none => rw [hp] at he; cases he
    | some pcis =>
      unfold syncPreparedLoop
      simp only [hp]
      exact ih (fun x hx => h x (List.mem_cons_of_mem _ hx)) _

/-- `GetUpdatedSpec` returns a spec when every prepared claim is of PCI type. -/
theorem getUpdatedSpec_ok (walk : SpecWalk) (hfair : walk.Fair) (s : DeviceState)
    (h : ∀ e ∈ s.prepared, e.2.Pci.isSome = true) (inspec : NodeAllocationStateSpec) :
    ∃ spec, s.GetUpdatedSpec walk inspec = .ok spec := by
  have hw : ∀ e ∈ walk.prepared s.prepared, e.2.Pci.isSome = true := by
    intro e he
    exact h e ((hfair.2.2 s.prepared).mem_iff.mp he)
  obtain ⟨outcas, hout⟩ := syncPreparedLoop_ok _ hw []
  unfold DeviceState.GetUpdatedSpec DeviceState.syncPreparedDevicesToCRDSpec
  simp only [hout]
  exact ⟨_, rfl⟩

/-- `Prepare` keeps every prepared claim of PCI type. -/
theorem prepare_allPci (s s2 : DeviceState) (writeOk : Bool) (claimUID : String)
    (allocation : AllocatedDevices) (result : Except NodeError (List String))
    (h : s.Prepare writeOk claimUID allocation = some (result, s2))
    (hall : ∀ e ∈ s.prepared, e.2.Pci.isSome = true) :
    ∀ e ∈ s2.prepared, e.2.Pci.isSome = true := by
  rcases prepare_cases s s2 writeOk claimUID allocation _ h with
    ⟨err, _, hs⟩ | ⟨handles, devices, _, hs, _, _⟩ |
    ⟨handles, allocated, pcis, _, _, _, _, hs, _⟩
  · rw [hs]; exact hall
  · rw [hs]; exact hall
  · rw [hs]
    intro e he
    rcases GoMap.mem_set _ _ _ _ he with he | he
    · exact hall e he
    · rw [he]; rfl

/-- `Unprepare` keeps every prepared claim of PCI type. -/
theorem unprepare_allPci (s : DeviceState) (removeOk : Bool) (claimUID : String)
    (hall : ∀ e ∈ s.prepared, e.2.Pci.isSome = true) :
    ∀ e ∈ (s.Unprepare removeOk claimUID).2.prepared, e.2.Pci.isSome = true := by
  unfold DeviceState.Unprepare
  cases hp : GoMap.get s.prepared claimUID with
  | none => exact hall
  | some devices =>
    simp only
    split
    · cases removeOk with
      | false => simpa [CDIHandler.DeleteClaimSpecFile] using hall
      | true =>
        simp only [CDIHandler.DeleteClaimSpecFile, if_true]
        intro e he
        exact hall e ((GoMap.mem_delete _ _ _).mp he).1
    · exact hall

/-- The `Unprepare` of a prepared claim of PCI type whose spec file is removed
leaves neither the claim in the prepared map nor its spec file. -/
theorem unprepare_removes (s : DeviceState) (claimUID : String) (devices : PreparedDevices)
    (hp : GoMap.get s.prepared claimUID = some devices) (hty : devices.Pci.isSome = true) :
    GoMap.get (s.Unprepare true claimUID).2.prepared claimUID = none ∧
    GoMap.get (s.Unprepare true claimUID).2.cdi.claimSpecs claimUID = none := by
  unfold DeviceState.Unprepare
  simp only [hp, PreparedDevices.Type, hty, if_true, CDIHandler.DeleteClaimSpecFile,
    GoMap.get_delete, and_self]

/-- One run of the function `nodePrepareResource` retries, when the update of the
record fails and the removal of a spec file succeeds: it returns an error, and
either it stopped before the update and left the driver as it was, or it
handed a spec to the update and rolled the claim back. -/
theorem prepareAttempt_failed (walk : SpecWalk) (hfair : walk.Fair) (d : driver) (a : Attempt)
    (claimUID : String) (ao : AttemptOutcome)
    (hall : ∀ e ∈ d.state.prepared, e.2.Pci.isSome = true)
    (hrem : a.removeOk = true) (hupd : a.update ≠ .ok)
    (h : prepareAttempt walk d a claimUID = some ao) :
    (∀ e ∈ ao.driver.state.prepared, e.2.Pci.isSome = true) ∧
    (∃ err, ao.err = some err) ∧
    ((ao.updates = [] ∧ ao.driver = d ∧ ao.retriable = false) ∨
     (ao.updates ≠ [] ∧ GoMap.get ao.driver.state.prepared claimUID = none ∧
      GoMap.get ao.driver.state.cdi.claimSpecs claimUID = none)) := by
  unfold prepareAttempt driver.prepare at h
  cases hf : a.fetched with
  | none =>
    simp only [hf, Option.some.injEq] at h
    subst h
    exact ⟨hall, ⟨_, rfl⟩, Or.inl ⟨rfl, rfl, rfl⟩⟩
  | some nascrd =>
    simp only [hf] at h
    cases hprep : d.state.Prepare a.writeOk claimUID
        ((GoMap.get nascrd.Spec.AllocatedClaims claimUID).getD ⟨none⟩) with
    | none => simp [hprep] at h
    | some r =>
      obtain ⟨result, s1⟩ := r
      have hall1 := prepare_allPci _ _ _ _ _ _ hprep hall
      cases result with
      | error err =>
        simp only [hprep, Option.some.injEq] at h
        subst h
        rcases prepare_cases _ _ _ _ _ _ hprep with
          ⟨_, _, hs⟩ | ⟨_, _, hres, _⟩ | ⟨_, _, _, hres, _⟩
        · refine ⟨hall1, ⟨_, rfl⟩, Or.inl ⟨rfl, ?_, rfl⟩⟩
          simp only [hs]
        · cases hres
        · cases hres
      | ok prepared =>
        simp only [hprep, Option.map_some', Option.getD_some] at h
        obtain ⟨spec, hspec⟩ := getUpdatedSpec_ok walk hfair s1 hall1 nascrd.Spec
        simp only [hspec] at h
        have hin : ∃ devices, GoMap.get s1.prepared claimUID = some devices ∧
            devices.Pci.isSome = true := by
          rcases prepare_cases _ _ _ _ _ _ hprep with
            ⟨_, hres, _⟩ | ⟨_, devices, _, hs, hp, _⟩ | ⟨_, _, pcis, _, _, _, _, hs, _⟩
          · cases hres
          · rw [hs]
            refine ⟨devices, hp, ?_⟩
            exact hall _ (GoMap.mem_of_get _ _ _ hp)
          · rw [hs]
            exact ⟨⟨some pcis⟩, GoMap.get_set_self _ _ _, rfl⟩
        obtain ⟨devices, hp1, hty1⟩ := hin
        have hrm := unprepare_removes s1 claimUID devices hp1 hty1
        have hall2 := unprepare_allPci s1 true claimUID hall1
        cases hu : a.update with
        | ok => exact absurd hu hupd
        | conflict =>
          simp only [hu, hrem, Option.some.injEq] at h
          subst h
          exact ⟨hall2, ⟨_, rfl⟩, Or.inr ⟨by simp, hrm.1, hrm.2⟩⟩
        | failed =>
          simp only [hu, hrem, Option.some.injEq] at h
          subst h
          exact ⟨hall2, ⟨_, rfl⟩, Or.inr ⟨by simp, hrm.1, hrm.2⟩⟩

end KubeletPlugin

namespace KubeletPlugin

/-- The retried function of `nodePrepareResource`, when every update of the
record fails and every removal of a spec file succeeds: the loop ends with an
error, and if a spec was handed to an update, the claim is rolled back. -/
theorem retryPrepare_failed (walk : SpecWalk) (hfair : walk.Fair) (env : Nat → Attempt)
    (claimUID : String) (hrem : ∀ i, (env i).removeOk = true)
    (hupd : ∀ i, (env i).update ≠ .ok) :
    ∀ (steps i : Nat) (d : driver) (updates : List (NodeAllocationStateSpec × UpdateResult))
      (out : AttemptOutcome),
      (∀ e ∈ d.state.prepared, e.2.Pci.isSome = true) →
      (updates ≠ [] → GoMap.get d.state.prepared claimUID = none ∧
        GoMap.get d.state.cdi.claimSpecs claimUID = none) →
      retryOnConflict (fun d a => prepareAttempt walk d a claimUID) env steps i d updates
        = some out →
      (∃ err, out.err = some err) ∧
      (out.updates ≠ [] → GoMap.get out.driver.state.prepared claimUID = none ∧
        GoMap.get out.driver.state.cdi.claimSpecs claimUID = none) := by
  intro steps
  induction steps with
  | zero =>
    intro i d updates out _ hinv h
    simp only [retryOnConflict, Option.some.injEq] at h
    subst h
    exact ⟨⟨_, rfl⟩, hinv⟩
  | succ n ih =>
    intro i d updates out hall hinv h
    unfold retryOnConflict at h
    cases hfn : prepareAttempt walk d (env i) claimUID with
    | none => simp [hfn] at h
    | some ao =>
      obtain ⟨hall2, ⟨err, herr⟩, hcases⟩ :=
        prepareAttempt_failed walk hfair d (env i) claimUID ao hall (hrem i) (hupd i) hfn
      simp only [hfn, herr] at h
      by_cases hre : ao.retriable = true ∧ n ≠ 0
      · simp only [hre, ne_eq, not_false_eq_true, and_self, if_true] at h
        refine ih (i + 1) ao.driver (updates ++ ao.updates) out hall2 ?_ h
        intro _
        rcases hcases with ⟨_, _, hnr⟩ | ⟨_, hp, hc⟩
        · rw [hre.1] at hnr; cases hnr
        · exact ⟨hp, hc⟩
      · have hif : ¬ (ao.retriable = true ∧ n ≠ 0) := hre
        simp only [hif, if_false, Option.some.injEq] at h
        subst h
        refine ⟨⟨err, rfl⟩, ?_⟩
        intro hne
        simp only at hne ⊢
        rcases hcases with ⟨hnil, hd, _⟩ | ⟨_, hp, hc⟩
        · rw [hnil, List.append_nil] at hne
          rw [hd]
          exact hinv hne
        · exact ⟨hp, hc⟩

/-- C17, the claim as stated, fails on the code. The agent prepares device `A`
for the allocated claim `C1`, the update of the record fails, and the removal of
the spec file of the claim fails too: `Unprepare` returns before it deletes the
claim from the prepared map, `nodePrepareResource` only logs that error, and
the call returns with `C1` in the prepared map and its spec file in place. -/
theorem C17_counterexample :
    (freshAgent.nodePrepareResource listWalk
        (fun _ => ⟨some (recordAllocated "Ready"), true, .failed, false⟩) "C1")
      = some ⟨⟨[], some (.preparingResource .updateFailed)⟩,
          [({ (recordAllocated "Ready").Spec with
              PreparedClaims := [("C1", ⟨some ⟨[⟨"A"⟩]⟩⟩)] }, .failed)],
          preparedAgent⟩ ∧
    GoMap.has preparedAgent.state.prepared "C1" = true ∧
    GoMap.has preparedAgent.state.cdi.claimSpecs "C1" = true := by
  refine ⟨by decide, by decide, by decide⟩

/-- C17, amended: let every locally prepared claim be of PCI type and the walks
of `GetUpdatedSpec` be fair. If `nodePrepareResource` hands a spec to
`nasclient.Update` (the local `Prepare` succeeded), the update fails at every
attempt, and every removal of a spec file succeeds, then the response carries an
error and no handles, the claim is not in the local prepared map, and the claim
has no spec file. -/
theorem C17_failed_update_rolls_back (walk : SpecWalk) (hfair : walk.Fair) (d : driver)
    (env : Nat → Attempt) (claimUID : String) (out : PrepareOutcome)
    (hall : ∀ e ∈ d.state.prepared, e.2.Pci.isSome = true)
    (hrem : ∀ i, (env i).removeOk = true)
    (hupd : ∀ i, (env i).update ≠ .ok)
    (h : d.nodePrepareResource walk env claimUID = some out)
    (hw : out.updates ≠ []) :
    (∃ err, out.response.Error = some err) ∧
    out.response.CDIDevices = [] ∧
    GoMap.get out.driver.state.prepared claimUID = none ∧
    GoMap.get out.driver.state.cdi.claimSpecs claimUID = none := by
  unfold driver.nodePrepareResource at h
  cases hr : retryOnConflict (fun d a => prepareAttempt walk d a claimUID) env
      defaultRetrySteps 0 d [] with
  | none => simp [hr] at h
  | some ro =>
    obtain ⟨⟨err, herr⟩, hinv⟩ := retryPrepare_failed walk hfair env claimUID hrem hupd
      defaultRetrySteps 0 d [] ro hall (fun hh => absurd rfl hh) hr
    simp only [hr, herr, Option.some.injEq] at h
    subst h
    simp only at hw
    exact ⟨⟨_, rfl⟩, rfl, hinv hw⟩

/-- C17, amended, at a concrete input: the agent prepares device `A` for the
allocated claim `C1` and every update of the record ends in a conflict, five
times. -/
theorem C17_failed_update_rolls_back_witness :
    freshAgent.nodePrepareResource listWalk
        (fun _ => attemptWith (recordAllocated "Ready") .conflict) "C1"
      = some ⟨⟨[], some (.preparingResource .updateConflict)⟩,
          List.replicate 5
            ({ (recordAllocated "Ready").Spec with
               PreparedClaims := [("C1", ⟨some ⟨[⟨"A"⟩]⟩⟩)] }, .conflict),
          freshAgent⟩ ∧
    GoMap.get freshAgent.state.prepared "C1" = none ∧
    GoMap.get freshAgent.state.cdi.claimSpecs "C1" = none :=
  ⟨by decide,
    (C17_failed_update_rolls_back listWalk
      ⟨fun _ => List.Perm.refl _, fun _ => List.Perm.refl _, fun _ => List.Perm.refl _⟩
      freshAgent (fun _ => attemptWith (recordAllocated "Ready") .conflict) "C1"
      ⟨⟨[], some (.preparingResource .updateConflict)⟩,
        List.replicate 5
          ({ (recordAllocated "Ready").Spec with
             PreparedClaims := [("C1", ⟨some ⟨[⟨"A"⟩]⟩⟩)] }, .conflict),
        freshAgent⟩
      (fun e he => by cases he) (fun _ => rfl) (fun _ hh => by cases hh) (by decide)
      (by decide)).2.2⟩

/-- C18: the code at the failing input. The claim `C1` is prepared with device
`A` in the local prepared map and in the `PreparedClaims` of the record, from an
earlier successful call. A second `nodePrepareResource` for `C1` finds the claim
prepared, the update of the record fails, and the rollback unprepares the
claim: the call returns with an empty local prepared map and without the spec
file, while the record, which was not written, still lists `C1` as prepared.
So it is when the update ends in a conflict at every attempt. -/
theorem C18_failed_update_unprepares_recorded_claim :
    GoMap.has preparedAgent.state.prepared "C1" = true ∧
    GoMap.has recordPrepared.Spec.PreparedClaims "C1" = true ∧
    (preparedAgent.nodePrepareResource listWalk
        (fun _ => attemptWith recordPrepared .failed) "C1")
      = some ⟨⟨[], some (.preparingResource .updateFailed)⟩,
          [(recordPrepared.Spec, .failed)], freshAgent⟩ ∧
    GoMap.has freshAgent.state.prepared "C1" = false ∧
    GoMap.has freshAgent.state.cdi.claimSpecs "C1" = false ∧
    (preparedAgent.nodePrepareResource listWalk
        (fun _ => attemptWith recordPrepared .conflict) "C1").map
        (fun out => (out.response, out.driver))
      = some (⟨[], some (.preparingResource .updateConflict)⟩, freshAgent) := by
  refine ⟨by decide, by decide, by decide, by decide, by decide, by decide⟩

/-- C19, the claim as stated, fails on the code. The record of the node is
NotReady and holds device `A` for the claim `C1`: `driver.prepare` of the agent
returns the handles and marks `C1` prepared, and `driver.unprepare` of the
prepared claim returns no error and removes it from the prepared map. -/
theorem C19_counterexample :
    (recordAllocated NodeAllocationStateStatusNotReady).Status
      ≠ NodeAllocationStateStatusReady ∧
    freshAgent.prepare (some (recordAllocated NodeAllocationStateStatusNotReady)) true "C1"
      = some (.ok [QualifiedName cdiVendor cdiClass "common",
                   QualifiedName cdiVendor cdiClass "A"], preparedAgent) ∧
    preparedAgent.unprepare (some (recordAllocated NodeAllocationStateStatusNotReady)) true "C1"
      = (none, freshAgent) := by
  refine ⟨by decide, rfl, rfl⟩

/-- C19, amended: `driver.prepare` and `driver.unprepare` of the agent return an
error and leave the local state as it was when the fetch of the record fails;
they do not read the status of the fetched record, so that on a record that is
not Ready they do what they do on the Ready record of the same spec; neither of
them writes the record. -/
theorem C19_prepare_ignores_status (d : driver) (crd : NodeAllocationState) (status : String)
    (ok : Bool) (claimUID : String) :
    d.prepare none ok claimUID = some (.error .getFailed, d) ∧
    d.unprepare none ok claimUID = (some .getFailed, d) ∧
    d.prepare (some { crd with Status := status }) ok claimUID
      = d.prepare (some crd) ok claimUID ∧
    d.unprepare (some { crd with Status := status }) ok claimUID
      = d.unprepare (some crd) ok claimUID := by
  refine ⟨rfl, rfl, rfl, rfl⟩

end KubeletPlugin

/-! ## Prepared claims and allocated claims of the record -/

/-- Presence of a key after the assignment `m[k] = v`. -/
theorem GoMap.has_set {V : Type} (m : GoMap V) (k j : String) (v : V) :
    GoMap.has (GoMap.set m k v) j = (decide (j = k) || GoMap.has m j) := by
  unfold GoMap.has
  rw [GoMap.get_set]
  by_cases h : j = k <;> simp [h]

/-- Presence of a key after `delete(m, k)`. -/
theorem GoMap.has_delete {V : Type} (m : GoMap V) (k j : String) :
    GoMap.has (GoMap.delete m k) j = (decide (j ≠ k) && GoMap.has m j) := by
  unfold GoMap.has
  rw [GoMap.get_delete]
  by_cases h : j = k <;> simp [h]

/-- The spec a commit hands to `client.Update` is the fetched one with one more
allocated claim. -/
theorem allocate_updates_spec (d : driver) (client : NasClient) (claim : ResourceClaim)
    (params : ClaimParameters) (node : String) (crd : NodeAllocationState)
    (spec : NodeAllocationStateSpec) (hget : client.getResult = some crd)
    (h : (driver.allocate d client claim params node).updates = [spec]) :
    spec.PreparedClaims = crd.Spec.PreparedClaims ∧
    ∀ c, GoMap.has crd.Spec.AllocatedClaims c = true →
      GoMap.has spec.AllocatedClaims c = true := by
  by_cases hn : node = ""
  · simp [driver.allocate, hn] at h
  by_cases hst : crd.Status = NodeAllocationStateStatusReady
  swap
  · simp [driver.allocate, hn, hget, hst] at h
  cases hin : GoMap.has crd.Spec.AllocatedClaims claim.UID with
  | true => simp [driver.allocate, hn, hget, hst, hin] at h
  | false =>
    cases params with
    | other => simp [driver.allocate, hn, hget, hst, hin] at h
    | pci p =>
      cases hex : d.pci.PendingAllocatedClaims.Exists claim.UID node with
      | false => simp [driver.allocate, hn, hget, hst, hin, pcidriver.Allocate, hex] at h
      | true =>
        have hspec : spec = { crd.Spec with
            AllocatedClaims := GoMap.set crd.Spec.AllocatedClaims claim.UID
              (d.pci.PendingAllocatedClaims.Get claim.UID node) } := by
          by_cases hup : client.updateOk
              { crd.Spec with
                AllocatedClaims := GoMap.set crd.Spec.AllocatedClaims claim.UID
                  (d.pci.PendingAllocatedClaims.Get claim.UID node) } = true
          · simp [driver.allocate, hn, hget, hst, hin, pcidriver.Allocate, hex, hup] at h
            exact h.symm
          · simp [driver.allocate, hn, hget, hst, hin, pcidriver.Allocate, hex, hup] at h
            exact h.symm
        rw [hspec]
        refine ⟨rfl, ?_⟩
        intro c hc
        simp only [GoMap.has_set, hc, Bool.or_true]

/-- The spec a deallocation hands to `client.Update` is the fetched one without
the claim. -/
theorem deallocate_updates_spec (d : driver) (client : NasClient) (claim : ResourceClaim)
    (crd : NodeAllocationState) (out : DeallocateOutcome) (spec : NodeAllocationStateSpec)
    (hget : client.getResult = some crd)
    (h : driver.Deallocate d client claim = some out) (hu : out.updates = [spec]) :
    spec = { crd.Spec with
      AllocatedClaims := GoMap.delete crd.Spec.AllocatedClaims claim.UID } := by
  unfold driver.Deallocate at h
  cases hsel : getSelectedNode claim with
  | none => simp [hsel] at h
  | some node =>
    simp only [hsel, hget] at h
    split at h
    · simp only [Option.some.injEq] at h
      subst h
      simp at hu
    · split at h
      · simp only [Option.some.injEq] at h
        subst h
        simp at hu
      · split at h
        · simp only [Option.some.injEq] at h
          subst h
          simp at hu
        · split at h
          · split at h
            · simp only [Option.some.injEq] at h
              subst h
              simp only [List.cons.injEq, and_true] at hu
              exact hu.symm
            · simp only [Option.some.injEq] at h
              subst h
              simp only [List.cons.injEq, and_true] at hu
              exact hu.symm
          · simp only [Option.some.injEq] at h
            subst h
            simp at hu

namespace KubeletPlugin

/-- The keys of the map the loop of `syncPreparedDevicesToCRDSpec` builds. -/
theorem syncPreparedLoop_has (l : List (String × PreparedDevices)) :
    ∀ (outcas result : GoMap DraPci.PreparedDevices), syncPreparedLoop l outcas = .ok result →
      ∀ c, GoMap.has result c = true ↔ (GoMap.has outcas c = true ∨ c ∈ l.map Prod.fst) := by
  induction l with
  | nil =>
    intro outcas result h c
    simp only [syncPreparedLoop, Except.ok.injEq] at h
    subst h
    simp
  | cons e es ih =>
    intro outcas result h c
    obtain ⟨claim, devices⟩ := e
    unfold syncPreparedLoop at h
    cases hp : devices.Pci with
    | none => simp [hp] at h
    | some pcis =>
      simp only [hp] at h
      rw [ih _ _ h c, GoMap.has_set]
      simp only [Bool.or_eq_true, decide_eq_true_eq, List.map_cons, List.mem_cons]
      constructor
      · rintro ((h1 | h1) | h1)
        · exact Or.inr (Or.inl h1)
        · exact Or.inl h1
        · exact Or.inr (Or.inr h1)
      · rintro (h1 | h1 | h1)
        · exact Or.inl (Or.inr h1)
        · exact Or.inl (Or.inl h1)
        · exact Or.inr h1

/-- The spec of `GetUpdatedSpec`: the allocated claims of the base spec, and
prepared claims with the keys of the local prepared map. -/
theorem getUpdatedSpec_spec (walk : SpecWalk) (hfair : walk.Fair) (s : DeviceState)
    (inspec spec : NodeAllocationStateSpec) (h : s.GetUpdatedSpec walk inspec = .ok spec) :
    spec.AllocatedClaims = inspec.AllocatedClaims ∧
    ∀ c, GoMap.has spec.PreparedClaims c = true ↔ GoMap.has s.prepared c = true := by
  unfold DeviceState.GetUpdatedSpec DeviceState.syncPreparedDevicesToCRDSpec at h
  cases hl : syncPreparedLoop (walk.prepared s.prepared) [] with
  | error err => simp [hl] at h
  | ok outcas =>
    simp only [hl, Except.ok.injEq] at h
    subst h
    refine ⟨rfl, ?_⟩
    intro c
    simp only
    have hperm := (hfair.2.2 s.prepared).map Prod.fst
    have hempty : GoMap.has ([] : GoMap DraPci.PreparedDevices) c = false := rfl
    rw [syncPreparedLoop_has _ _ _ hl c, hempty, GoMap.has_iff_mem_keys s.prepared c]
    simp only [Bool.false_eq_true, false_or]
    exact hperm.mem_iff

/-- A `nodePrepareResource` whose first update succeeds: the local `Prepare`
succeeded and the written spec is the updated spec of the state it left. -/
theorem nodePrepareResource_written (walk : SpecWalk) (d : driver)
    (nascrd : NodeAllocationState) (writeOk removeOk : Bool) (claimUID : String)
    (out : PrepareOutcome) (spec : NodeAllocationStateSpec)
    (h : d.nodePrepareResource walk (fun _ => ⟨some nascrd, writeOk, .ok, removeOk⟩) claimUID
      = some out)
    (hu : out.updates = [(spec, .ok)]) :
    ∃ handles, d.state.Prepare writeOk claimUID
        ((GoMap.get nascrd.Spec.AllocatedClaims claimUID).getD ⟨none⟩)
          = some (.ok handles, out.driver.state) ∧
      out.driver.state.GetUpdatedSpec walk nascrd.Spec = .ok spec := by
  unfold driver.nodePrepareResource at h
  rw [show defaultRetrySteps = 4 + 1 from rfl] at h
  simp only [retryOnConflict, prepareAttempt, driver.prepare] at h
  cases hprep : d.state.Prepare writeOk claimUID
      ((GoMap.get nascrd.Spec.AllocatedClaims claimUID).getD ⟨none⟩) with
  | none => simp [hprep] at h
  | some r =>
    obtain ⟨result, s1⟩ := r
    cases result with
    | error err =>
      simp [hprep] at h
      subst h
      simp at hu
    | ok handles =>
      simp only [hprep, Option.map_some', Option.getD_some] at h
      cases hs : s1.GetUpdatedSpec walk nascrd.Spec with
      | error err =>
        simp [hs] at h
        subst h
        simp at hu
      | ok updatedSpec =>
        simp [hs] at h
        subst h
        simp only [List.cons.injEq, Prod.mk.injEq, and_true] at hu
        subst hu
        exact ⟨handles, rfl, hs⟩

/-- A `nodeUnprepareResource` whose first update succeeds: the written spec is the
updated spec of the state the local `Unprepare` left. -/
theorem nodeUnprepareResource_written (walk : SpecWalk) (d : driver)
    (nascrd : NodeAllocationState) (writeOk removeOk : Bool) (claimUID : String)
    (out : UnprepareOutcome) (spec : NodeAllocationStateSpec)
    (h : d.nodeUnprepareResource walk (fun _ => ⟨some nascrd, writeOk, .ok, removeOk⟩) claimUID
      = some out)
    (hu : out.updates = [(spec, .ok)]) :
    out.driver.state = (d.state.Unprepare removeOk claimUID).2 ∧
    out.driver.state.GetUpdatedSpec walk nascrd.Spec = .ok spec := by
  unfold driver.nodeUnprepareResource at h
  rw [show defaultRetrySteps = 4 + 1 from rfl] at h
  simp only [retryOnConflict, unprepareAttempt, driver.unprepare] at h
  cases hun : d.state.Unprepare removeOk claimUID with
  | mk err s1 =>
    cases err with
    | some e =>
      simp [hun] at h
      subst h
      simp at hu
    | none =>
      simp only [hun, Option.map_some', Option.getD_some] at h
      cases hs : s1.GetUpdatedSpec walk nascrd.Spec with
      | error err =>
        simp [hs] at h
        subst h
        simp at hu
      | ok updatedSpec =>
        simp [hs] at h
        subst h
        simp only [List.cons.injEq, Prod.mk.injEq, and_true] at hu
        subst hu
        exact ⟨rfl, hs⟩

end KubeletPlugin

/-- The walks in list order are fair. -/
theorem KubeletPlugin.fair_listWalk : KubeletPlugin.listWalk.Fair :=
  ⟨fun _ => List.Perm.refl _, fun _ => List.Perm.refl _, fun _ => List.Perm.refl _⟩

/-- A commit hands at most one spec to `client.Update`. -/
theorem allocate_updates_shape (d : driver) (client : NasClient) (claim : ResourceClaim)
    (params : ClaimParameters) (node : String) :
    (driver.allocate d client claim params node).updates = [] ∨
    ∃ spec, (driver.allocate d client claim params node).updates = [spec] := by
  unfold driver.allocate
  split
  · exact Or.inl rfl
  · split
    · exact Or.inl rfl
    · split
      · exact Or.inl rfl
      · split
        · exact Or.inl rfl
        · simp only
          split
          · exact Or.inl rfl
          · split
            · exact Or.inr ⟨_, rfl⟩
            · exact Or.inr ⟨_, rfl⟩

/-- A commit that does not fetch the record hands no spec to `client.Update`. -/
theorem allocate_updates_of_none (d : driver) (client : NasClient) (claim : ResourceClaim)
    (params : ClaimParameters) (node : String) (hget : client.getResult = none) :
    (driver.allocate d client claim params node).updates = [] := by
  unfold driver.allocate
  split
  · rfl
  · simp only [hget]

/-- The record after a commit on a node: the prepared claims are the ones before,
and every allocated claim is still allocated. -/
theorem allocate_written (d : driver) (client : NasClient) (claim : ResourceClaim)
    (params : ClaimParameters) (node : String) (crd : NodeAllocationState)
    (hf : client.getResult = none ∨ client.getResult = some crd) :
    (written client.updateOk (driver.allocate d client claim params node).updates
        crd.Spec).PreparedClaims = crd.Spec.PreparedClaims ∧
    ∀ c, GoMap.has crd.Spec.AllocatedClaims c = true →
      GoMap.has (written client.updateOk (driver.allocate d client claim params node).updates
        crd.Spec).AllocatedClaims c = true := by
  rcases hf with hf | hf
  · rw [allocate_updates_of_none d client claim params node hf]
    exact ⟨rfl, fun _ hc => hc⟩
  · rcases allocate_updates_shape d client claim params node with hu | ⟨spec, hu⟩
    · rw [hu]
      exact ⟨rfl, fun _ hc => hc⟩
    · obtain ⟨hprep, halloc⟩ := allocate_updates_spec d client claim params node crd spec hf hu
      rw [hu]
      simp only [written, List.foldl_cons, List.foldl_nil]
      split
      · exact ⟨hprep, halloc⟩
      · exact ⟨rfl, fun _ hc => hc⟩

/-- A deallocation hands to `client.Update` nothing, or the fetched spec without
the claim. -/
theorem deallocate_updates_shape (d : driver) (client : NasClient) (claim : ResourceClaim)
    (out : DeallocateOutcome) (h : driver.Deallocate d client claim = some out) :
    out.updates = [] ∨
    ∃ crd, client.getResult = some crd ∧
      out.updates = [{ crd.Spec with
        AllocatedClaims := GoMap.delete crd.Spec.AllocatedClaims claim.UID }] := by
  unfold driver.Deallocate at h
  cases hsel : getSelectedNode claim with
  | none => simp [hsel] at h
  | some node =>
    simp only [hsel] at h
    split at h
    · simp only [Option.some.injEq] at h
      subst h
      exact Or.inl rfl
    · cases hget : client.getResult with
      | none =>
        simp only [hget, Option.some.injEq] at h
        subst h
        exact Or.inl rfl
      | some crd =>
        simp only [hget] at h
        split at h
        · simp only [Option.some.injEq] at h
          subst h
          exact Or.inl rfl
        · split at h
          · simp only [Option.some.injEq] at h
            subst h
            exact Or.inl rfl
          · split at h
            · split at h
              · simp only [Option.some.injEq] at h
                subst h
                exact Or.inr ⟨crd, rfl, rfl⟩
              · simp only [Option.some.injEq] at h
                subst h
                exact Or.inr ⟨crd, rfl, rfl⟩
            · simp only [Option.some.injEq] at h
              subst h
              exact Or.inl rfl

namespace KubeletPlugin

/-- Updates that all fail leave the spec of the record as it was. -/
theorem written_of_not_ok (updates : List (NodeAllocationStateSpec × UpdateResult))
    (current : NodeAllocationStateSpec) (h : ∀ u ∈ updates, u.2 ≠ .ok) :
    written updates current = current := by
  unfold written
  induction updates generalizing current with
  | nil => rfl
  | cons u us ih =>
    rw [List.foldl_cons]
    have hu : ¬ u.2 = .ok := h u (List.mem_cons_self _ _)
    simp only [hu, if_false]
    exact ih current (fun x hx => h x (List.mem_cons_of_mem _ hx))

/-- Failed updates before the updates of a run do not change what is written. -/
theorem written_append (updates updates2 : List (NodeAllocationStateSpec × UpdateResult))
    (current : NodeAllocationStateSpec) (h : ∀ u ∈ updates, u.2 ≠ .ok) :
    written (updates ++ updates2) current = written updates2 current := by
  have h1 := written_of_not_ok updates current h
  unfold written at h1 ⊢
  rw [List.foldl_append, h1]

/-- A claim that is prepared after `Unprepare` was prepared before. -/
theorem unprepare_has (s : DeviceState) (removeOk : Bool) (claimUID c : String)
    (h : GoMap.has (s.Unprepare removeOk claimUID).2.prepared c = true) :
    GoMap.has s.prepared c = true := by
  unfold DeviceState.Unprepare at h
  cases hget : GoMap.get s.prepared claimUID with
  | none => simpa [hget] using h
  | some devices =>
    simp only [hget] at h
    split at h
    · cases removeOk with
      | false => simpa [CDIHandler.DeleteClaimSpecFile] using h
      | true =>
        simp only [CDIHandler.DeleteClaimSpecFile, if_true, GoMap.has_delete,
          Bool.and_eq_true] at h
        exact h.2
    · exact h

/-- A claim that is prepared after `Prepare` was prepared before, or is the
claim of the call and is allocated in the record the call read. -/
theorem prepare_has (s s2 : DeviceState) (writeOk : Bool) (claimUID : String)
    (allocatedClaims : GoMap AllocatedDevices) (result : Except NodeError (List String))
    (h : s.Prepare writeOk claimUID ((GoMap.get allocatedClaims claimUID).getD ⟨none⟩)
      = some (result, s2))
    (c : String) (hc : GoMap.has s2.prepared c = true) :
    GoMap.has s.prepared c = true ∨ GoMap.has allocatedClaims c = true := by
  rcases prepare_cases _ _ _ _ _ _ h with
    ⟨_, _, hs⟩ | ⟨_, _, _, hs, _, _⟩ | ⟨_, allocated, pcis, _, _, ha, _, hs, _⟩
  · rw [hs] at hc; exact Or.inl hc
  · rw [hs] at hc; exact Or.inl hc
  · rw [hs] at hc
    simp only [GoMap.has_set, Bool.or_eq_true, decide_eq_true_eq] at hc
    rcases hc with hc | hc
    · subst hc
      right
      cases hg : GoMap.get allocatedClaims c with
      | none => rw [hg] at ha; cases ha
      | some v => simp [GoMap.has, hg]
    · exact Or.inl hc

/-- One run of the function `nodePrepareResource` retries ends without error and
with one successful update, or with an error and no successful update. -/
theorem prepareAttempt_updates (walk : SpecWalk) (d : driver) (a : Attempt)
    (claimUID : String) (out : AttemptOutcome)
    (h : prepareAttempt walk d a claimUID = some out) :
    (out.err = none ∧ ∃ spec, out.updates = [(spec, .ok)]) ∨
    (out.err ≠ none ∧ ∀ u ∈ out.updates, u.2 ≠ .ok) := by
  unfold prepareAttempt at h
  split at h
  · cases h
  · simp only [Option.some.injEq] at h
    subst h
    exact Or.inr ⟨by simp, by simp⟩
  · split at h
    · simp only [Option.some.injEq] at h
      subst h
      exact Or.inr ⟨by simp, by simp⟩
    · split at h
      · simp only [Option.some.injEq] at h
        subst h
        exact Or.inl ⟨rfl, _, rfl⟩
      · simp only [Option.some.injEq] at h
        subst h
        exact Or.inr ⟨by simp, by simp⟩
      · simp only [Option.some.injEq] at h
        subst h
        exact Or.inr ⟨by simp, by simp⟩

/-- One run of the function `nodeUnprepareResource` retries ends without error
and with one successful update, or with an error and no successful update. -/
theorem unprepareAttempt_updates (walk : SpecWalk) (d : driver) (a : Attempt)
    (claimUID : String) (out : AttemptOutcome)
    (h : unprepareAttempt walk d a claimUID = some out) :
    (out.err = none ∧ ∃ spec, out.updates = [(spec, .ok)]) ∨
    (out.err ≠ none ∧ ∀ u ∈ out.updates, u.2 ≠ .ok) := by
  unfold unprepareAttempt at h
  split at h
  · simp only [Option.some.injEq] at h
    subst h
    exact Or.inr ⟨by simp, by simp⟩
  · split at h
    · simp only [Option.some.injEq] at h
      subst h
      exact Or.inr ⟨by simp, by simp⟩
    · split at h
      · simp only [Option.some.injEq] at h
        subst h
        exact Or.inl ⟨rfl, _, rfl⟩
      · simp only [Option.some.injEq] at h
        subst h
        exact Or.inr ⟨by simp, by simp⟩
      · simp only [Option.some.injEq] at h
        subst h
        exact Or.inr ⟨by simp, by simp⟩

/-- One run of the function `nodePrepareResource` retries, on a record whose
allocated claims include its prepared claims and the prepared claims of the
agent: the same holds of the record and the agent afterwards. -/
theorem prepareAttempt_preserves (walk : SpecWalk) (hfair : walk.Fair) (d : driver)
    (a : Attempt) (claimUID : String) (out : AttemptOutcome) (nascrd : NodeAllocationState)
    (hf : a.fetched = none ∨ a.fetched = some nascrd)
    (h : prepareAttempt walk d a claimUID = some out)
    (hlocal : ∀ c, GoMap.has d.state.prepared c = true →
      GoMap.has nascrd.Spec.AllocatedClaims c = true)
    (hrecord : ∀ c, GoMap.has nascrd.Spec.PreparedClaims c = true →
      GoMap.has nascrd.Spec.AllocatedClaims c = true) :
    (∀ c, GoMap.has out.driver.state.prepared c = true →
      GoMap.has (written out.updates nascrd.Spec).AllocatedClaims c = true) ∧
    (∀ c, GoMap.has (written out.updates nascrd.Spec).PreparedClaims c = true →
      GoMap.has (written out.updates nascrd.Spec).AllocatedClaims c = true) := by
  unfold prepareAttempt driver.prepare at h
  cases hfetch : a.fetched with
  | none =>
    simp only [hfetch, Option.some.injEq] at h
    subst h
    exact ⟨hlocal, hrecord⟩
  | some fetched =>
    have hrec : fetched = nascrd := by
      rcases hf with hf | hf
      · rw [hfetch] at hf; cases hf
      · rw [hfetch] at hf; exact Option.some.inj hf
    subst hrec
    simp only [hfetch] at h
    cases hprep : d.state.Prepare a.writeOk claimUID
        ((GoMap.get fetched.Spec.AllocatedClaims claimUID).getD ⟨none⟩) with
    | none => simp [hprep] at h
    | some r =>
      obtain ⟨result, s1⟩ := r
      have hlocal1 : ∀ c, GoMap.has s1.prepared c = true →
          GoMap.has fetched.Spec.AllocatedClaims c = true := by
        intro c hc
        rcases prepare_has _ _ _ _ _ _ hprep c hc with hc | hc
        · exact hlocal c hc
        · exact hc
      cases result with
      | error err =>
        simp only [hprep, Option.some.injEq] at h
        subst h
        exact ⟨hlocal1, hrecord⟩
      | ok prepared =>
        simp only [hprep, Option.map_some', Option.getD_some] at h
        cases hspec : s1.GetUpdatedSpec walk fetched.Spec with
        | error err =>
          simp only [hspec, Option.some.injEq] at h
          subst h
          exact ⟨hlocal1, hrecord⟩
        | ok updatedSpec =>
          simp only [hspec] at h
          obtain ⟨halloc, hkeys⟩ := getUpdatedSpec_spec walk hfair _ _ _ hspec
          cases hu : a.update with
          | ok =>
            simp only [hu, Option.some.injEq] at h
            subst h
            simp only [written, List.foldl_cons, List.foldl_nil, if_true]
            rw [halloc]
            exact ⟨hlocal1, fun c hc => hlocal1 c ((hkeys c).mp hc)⟩
          | conflict =>
            simp only [hu, Option.some.injEq] at h
            subst h
            refine ⟨fun c hc => hlocal1 c (unprepare_has _ _ _ _ hc), hrecord⟩
          | failed =>
            simp only [hu, Option.some.injEq] at h
            subst h
            refine ⟨fun c hc => hlocal1 c (unprepare_has _ _ _ _ hc), hrecord⟩

/-- One run of the function `nodeUnprepareResource` retries, on a record whose
allocated claims include its prepared claims and the prepared claims of the
agent: the same holds of the record and the agent afterwards. -/
theorem unprepareAttempt_preserves (walk : SpecWalk) (hfair : walk.Fair) (d : driver)
    (a : Attempt) (claimUID : String) (out : AttemptOutcome) (nascrd : NodeAllocationState)
    (hf : a.fetched = none ∨ a.fetched = some nascrd)
    (h : unprepareAttempt walk d a claimUID = some out)
    (hlocal : ∀ c, GoMap.has d.state.prepared c = true →
      GoMap.has nascrd.Spec.AllocatedClaims c = true)
    (hrecord : ∀ c, GoMap.has nascrd.Spec.PreparedClaims c = true →
      GoMap.has nascrd.Spec.AllocatedClaims c = true) :
    (∀ c, GoMap.has out.driver.state.prepared c = true →
      GoMap.has (written out.updates nascrd.Spec).AllocatedClaims c = true) ∧
    (∀ c, GoMap.has (written out.updates nascrd.Spec).PreparedClaims c = true →
      GoMap.has (written out.updates nascrd.Spec).AllocatedClaims c = true) := by
  unfold unprepareAttempt driver.unprepare at h
  cases hfetch : a.fetched with
  | none =>
    simp only [hfetch, Option.some.injEq] at h
    subst h
    exact ⟨hlocal, hrecord⟩
  | some fetched =>
    have hrec : fetched = nascrd := by
      rcases hf with hf | hf
      · rw [hfetch] at hf; cases hf
      · rw [hfetch] at hf; exact Option.some.inj hf
    subst hrec
    simp only [hfetch] at h
    have hlocal1 : ∀ c, GoMap.has (d.state.Unprepare a.removeOk claimUID).2.prepared c = true →
        GoMap.has fetched.Spec.AllocatedClaims c = true :=
      fun c hc => hlocal c (unprepare_has _ _ _ _ hc)
    cases hun : d.state.Unprepare a.removeOk claimUID with
    | mk err s1 =>
      rw [hun] at hlocal1
      simp only at hlocal1
      cases err with
      | some e =>
        simp only [hun, Option.some.injEq] at h
        subst h
        exact ⟨hlocal1, hrecord⟩
      | none =>
        simp only [hun, Option.map_some', Option.getD_some] at h
        cases hspec : s1.GetUpdatedSpec walk fetched.Spec with
        | error err =>
          simp only [hspec, Option.some.injEq] at h
          subst h
          exact ⟨hlocal1, hrecord⟩
        | ok updatedSpec =>
          simp only [hspec] at h
          obtain ⟨halloc, hkeys⟩ := getUpdatedSpec_spec walk hfair _ _ _ hspec
          cases hu : a.update with
          | ok =>
            simp only [hu, Option.some.injEq] at h
            subst h
            simp only [written, List.foldl_cons, List.foldl_nil, if_true]
            rw [halloc]
            exact ⟨hlocal1, fun c hc => hlocal1 c ((hkeys c).mp hc)⟩
          | conflict =>
            simp only [hu, Option.some.injEq] at h
            subst h
            exact ⟨hlocal1, hrecord⟩
          | failed =>
            simp only [hu, Option.some.injEq] at h
            subst h
            exact ⟨hlocal1, hrecord⟩

end KubeletPlugin

/-- A run of the agent whose updates all fail changes the agent only. -/
theorem afterAgent_of_not_ok (sys : NodeSystem) (out : KubeletPlugin.AttemptOutcome)
    (h : ∀ u ∈ out.updates, u.2 ≠ .ok) :
    sys.afterAgent out = { sys with agent := out.driver } := by
  unfold NodeSystem.afterAgent
  rw [KubeletPlugin.written_of_not_ok _ _ h]

/-- The calls `retry.RetryOnConflict` makes are steps of the node: what the loop
leaves behind is reached from the node it started on. -/
theorem reachable_retry (guard : DeallocationGuard) (init sys : NodeSystem)
    (fn : KubeletPlugin.driver → KubeletPlugin.Attempt → Option KubeletPlugin.AttemptOutcome)
    (env : Nat → KubeletPlugin.Attempt)
    (hstep : ∀ (t : NodeSystem) (a : KubeletPlugin.Attempt) (out : KubeletPlugin.AttemptOutcome),
      t.Fetches a.fetched → fn t.agent a = some out → SystemStep guard t (t.afterAgent out))
    (hfail : ∀ d a out, fn d a = some out → out.err ≠ none → ∀ u ∈ out.updates, u.2 ≠ .ok)
    (henv : ∀ i, sys.Fetches (env i).fetched) (steps : Nat) :
    ∀ (i : Nat) (d : KubeletPlugin.driver)
      (updates : List (NodeAllocationStateSpec × KubeletPlugin.UpdateResult))
      (out : KubeletPlugin.AttemptOutcome),
      (∀ u ∈ updates, u.2 ≠ .ok) →
      KubeletPlugin.retryOnConflict fn env steps i d updates = some out →
      Reachable guard init { sys with agent := d } →
      Reachable guard init
        { sys with
          record := { sys.record with
            Spec := KubeletPlugin.written out.updates sys.record.Spec }
          agent := out.driver } := by
  induction steps with
  | zero =>
    intro i d updates out hupd h hr
    simp only [KubeletPlugin.retryOnConflict, Option.some.injEq] at h
    subst h
    simp only
    rw [KubeletPlugin.written_of_not_ok _ _ hupd]
    exact hr
  | succ n ih =>
    intro i d updates out hupd h hr
    unfold KubeletPlugin.retryOnConflict at h
    cases hfn : fn d (env i) with
    | none => simp [hfn] at h
    | some o =>
      simp only [hfn] at h
      have hs : SystemStep guard { sys with agent := d }
          (NodeSystem.afterAgent { sys with agent := d } o) :=
        hstep { sys with agent := d } (env i) o (henv i) hfn
      have hr2 := Reachable.step _ _ hr hs
      have hlast : ∀ out2 : KubeletPlugin.AttemptOutcome,
          out2.updates = updates ++ o.updates → out2.driver = o.driver →
          Reachable guard init
            { sys with
              record := { sys.record with
                Spec := KubeletPlugin.written out2.updates sys.record.Spec }
              agent := out2.driver } := by
        intro out2 hup hdr
        rw [hup, hdr, KubeletPlugin.written_append _ _ _ hupd]
        exact hr2
      cases herr : o.err with
      | none =>
        simp only [herr, Option.some.injEq] at h
        subst h
        exact hlast _ rfl rfl
      | some err =>
        simp only [herr] at h
        split at h
        · have hbad := hfail d (env i) o hfn (by rw [herr]; simp)
          rw [afterAgent_of_not_ok _ _ hbad] at hr2
          apply ih (i + 1) o.driver (updates ++ o.updates) out _ h hr2
          intro u hu
          rcases List.mem_append.mp hu with hu | hu
          · exact hupd u hu
          · exact hbad u hu
        · simp only [Option.some.injEq] at h
          subst h
          exact hlast _ rfl rfl

/-- A call of `nodePrepareResource` on a node, whatever its attempts fetch, write
and update, is a sequence of steps of the node. -/
theorem reachable_nodePrepareResource (guard : DeallocationGuard) (init sys : NodeSystem)
    (walk : KubeletPlugin.SpecWalk) (hfair : walk.Fair) (env : Nat → KubeletPlugin.Attempt)
    (henv : ∀ i, sys.Fetches (env i).fetched) (claimUID : String)
    (out : KubeletPlugin.PrepareOutcome)
    (h : sys.agent.nodePrepareResource walk env claimUID = some out)
    (hr : Reachable guard init sys) :
    Reachable guard init
      { sys with
        record := { sys.record with
          Spec := KubeletPlugin.written out.updates sys.record.Spec }
        agent := out.driver } := by
  unfold KubeletPlugin.driver.nodePrepareResource at h
  cases hret : KubeletPlugin.retryOnConflict
      (fun d a => KubeletPlugin.prepareAttempt walk d a claimUID) env
      KubeletPlugin.defaultRetrySteps 0 sys.agent [] with
  | none => simp [hret] at h
  | some ro =>
    have hreach := reachable_retry guard init sys
      (fun d a => KubeletPlugin.prepareAttempt walk d a claimUID) env
      (fun t a o hf ho => SystemStep.prepare t walk a claimUID o hfair hf ho)
      (fun d a o ho herr => by
        rcases KubeletPlugin.prepareAttempt_updates walk d a claimUID o ho with h1 | h1
        · exact absurd h1.1 herr
        · exact h1.2)
      henv KubeletPlugin.defaultRetrySteps 0 sys.agent [] ro (fun _ hu => by cases hu) hret hr
    simp only [hret] at h
    split at h
    · simp only [Option.some.injEq] at h
      subst h
      exact hreach
    · simp only [Option.some.injEq] at h
      subst h
      exact hreach

/-- A call of `nodeUnprepareResource` on a node, whatever its attempts fetch,
remove and update, is a sequence of steps of the node. -/
theorem reachable_nodeUnprepareResource (guard : DeallocationGuard) (init sys : NodeSystem)
    (walk : KubeletPlugin.SpecWalk) (hfair : walk.Fair) (env : Nat → KubeletPlugin.Attempt)
    (henv : ∀ i, sys.Fetches (env i).fetched) (claimUID : String)
    (out : KubeletPlugin.UnprepareOutcome)
    (h : sys.agent.nodeUnprepareResource walk env claimUID = some out)
    (hr : Reachable guard init sys) :
    Reachable guard init
      { sys with
        record := { sys.record with
          Spec := KubeletPlugin.written out.updates sys.record.Spec }
        agent := out.driver } := by
  unfold KubeletPlugin.driver.nodeUnprepareResource at h
  cases hret : KubeletPlugin.retryOnConflict
      (fun d a => KubeletPlugin.unprepareAttempt walk d a claimUID) env
      KubeletPlugin.defaultRetrySteps 0 sys.agent [] with
  | none => simp [hret] at h
  | some ro =>
    have hreach := reachable_retry guard init sys
      (fun d a => KubeletPlugin.unprepareAttempt walk d a claimUID) env
      (fun t a o hf ho => SystemStep.unprepare t walk a claimUID o hfair hf ho)
      (fun d a o ho herr => by
        rcases KubeletPlugin.unprepareAttempt_updates walk d a claimUID o ho with h1 | h1
        · exact absurd h1.1 herr
        · exact h1.2)
      henv KubeletPlugin.defaultRetrySteps 0 sys.agent [] ro (fun _ hu => by cases hu) hret hr
    simp only [hret] at h
    split at h
    · simp only [Option.some.injEq] at h
      subst h
      exact hreach
    · simp only [Option.some.injEq] at h
      subst h
      exact hreach

/-- The node `n1` reaches the state in which `C1` is committed: filter,
commit. -/
theorem reachable_nodeCommitted (guard : DeallocationGuard) :
    Reachable guard sampleNode nodeCommitted := by
  have h1 : SystemStep guard sampleNode nodeFiltered :=
    SystemStep.filter sampleNode listOrder (clientOf sampleSingle true) [nvmeClaim "C1"]
      ⟨none, [nvmeClaim "C1"], ⟨[(("C1", "n1"), oneDevice "A")]⟩⟩ fairOrder_listOrder
      (Or.inr rfl) (by decide)
  have h2 : SystemStep guard nodeFiltered nodeCommitted :=
    SystemStep.commit nodeFiltered (clientOf sampleSingle true) ⟨"C1", none⟩
      (.pci ⟨"devices.kubevirt.io/nvme"⟩) (Or.inr rfl)
  exact Reachable.step _ _ (Reachable.step _ _ Reachable.start h1) h2

/-- The node `n1` reaches the state in which `C1` is committed and prepared:
filter, commit, prepare. -/
theorem reachable_nodePrepared (guard : DeallocationGuard) :
    Reachable guard sampleNode nodePrepared := by
  have h3 : SystemStep guard nodeCommitted nodePrepared :=
    SystemStep.prepare nodeCommitted KubeletPlugin.listWalk
      (KubeletPlugin.attemptWith (recordAllocated NodeAllocationStateStatusReady) .ok) "C1"
      ⟨none, false,
        [KubeletPlugin.QualifiedName KubeletPlugin.cdiVendor KubeletPlugin.cdiClass "common",
          KubeletPlugin.QualifiedName KubeletPlugin.cdiVendor KubeletPlugin.cdiClass "A"],
        [(recordPrepared.Spec, .ok)], KubeletPlugin.preparedAgent⟩
      KubeletPlugin.fair_listWalk (Or.inr rfl) rfl
  exact Reachable.step _ _ (reachable_nodeCommitted guard) h3

/-- A step of the node, with no deallocation of a claim that the record or the
agent lists as prepared, keeps the prepared claims of the agent and the prepared
claims of the record among the allocated claims of the record. -/
theorem systemStep_preserves (sys next : NodeSystem) (h : SystemStep .prepared sys next)
    (hlocal : ∀ c, GoMap.has sys.agent.state.prepared c = true →
      GoMap.has sys.record.Spec.AllocatedClaims c = true)
    (hrecord : ∀ c, GoMap.has sys.record.Spec.PreparedClaims c = true →
      GoMap.has sys.record.Spec.AllocatedClaims c = true) :
    (∀ c, GoMap.has next.agent.state.prepared c = true →
      GoMap.has next.record.Spec.AllocatedClaims c = true) ∧
    (∀ c, GoMap.has next.record.Spec.PreparedClaims c = true →
      GoMap.has next.record.Spec.AllocatedClaims c = true) := by
  cases h with
  | filter order client allcas out _ _ _ => exact ⟨hlocal, hrecord⟩
  | commit client claim params hf =>
    obtain ⟨hprep, halloc⟩ := allocate_written sys.controller client claim params sys.name
      sys.record hf
    simp only [NodeSystem.afterController]
    rw [hprep]
    exact ⟨fun c hc => halloc c (hlocal c hc), fun c hc => halloc c (hrecord c hc)⟩
  | deallocate client claim out hguard hf hd =>
    simp only [NodeSystem.afterController]
    rcases deallocate_updates_shape sys.controller client claim out hd with
      hu | ⟨crd, hget, hu⟩
    · rw [hu]
      exact ⟨hlocal, hrecord⟩
    · have hcrd : crd = sys.record := by
        rcases hf with hf | hf
        · rw [hget] at hf; cases hf
        · rw [hget] at hf; exact Option.some.inj hf
      subst hcrd
      rw [hu]
      simp only [written, List.foldl_cons, List.foldl_nil]
      split
      · have hkeep : ∀ c, c ≠ claim.UID →
            GoMap.has sys.record.Spec.AllocatedClaims c = true →
            GoMap.has (GoMap.delete sys.record.Spec.AllocatedClaims claim.UID) c = true := by
          intro c hne hc
          simp only [GoMap.has_delete, ne_eq, hne, not_false_eq_true, decide_True,
            Bool.true_and]
          exact hc
        constructor
        · intro c hc
          have hne : c ≠ claim.UID := by
            intro heq
            rw [heq, hguard.2] at hc
            cases hc
          exact hkeep c hne (hlocal c hc)
        · intro c hc
          have hne : c ≠ claim.UID := by
            intro heq
            simp only at hc
            rw [heq, hguard.1] at hc
            cases hc
          exact hkeep c hne (hrecord c hc)
      · exact ⟨hlocal, hrecord⟩
  | prepare walk a claimUID out hfair hf hp =>
    exact KubeletPlugin.prepareAttempt_preserves walk hfair sys.agent a claimUID out sys.record
      hf hp hlocal hrecord
  | unprepare walk a claimUID out hfair hf hp =>
    exact KubeletPlugin.unprepareAttempt_preserves walk hfair sys.agent a claimUID out
      sys.record hf hp hlocal hrecord

/-- C20, the claim as stated, fails on the code. From its start the node `n1`
reaches a record whose `PreparedClaims` holds `C1` while its `AllocatedClaims`
does not. Without a guard: by the filtering, the commit and the prepare of `C1`
and then its deallocation, since `driver.Deallocate` deletes the claim from
`AllocatedClaims` and writes the prepared claims as fetched. With deallocation
held back for the claims the record lists as prepared: by the filtering and the
commit of `C1`, a prepare of `C1` whose update of the record and whose removal
of the spec file fail, which leaves `C1` prepared at the agent and not in the
record, the deallocation of `C1`, and a second prepare of `C1`, which writes the
prepared claims of the agent. And with deallocation held back also for the
claims the agent lists as prepared, the same record is reached in one prepare
from a node whose record lists no claim while its agent lists `C1` as
prepared. -/
theorem C20_counterexample :
    sampleNode.Initial ∧
    Reachable .unguarded sampleNode nodeDeallocated ∧
    Reachable .record sampleNode nodeDeallocated ∧
    (nodeUnwrittenDeallocated.record.Spec.AllocatedClaims = [] ∧
      nodeUnwrittenDeallocated.record.Spec.PreparedClaims = [] ∧
      Reachable .prepared nodeUnwrittenDeallocated nodeDeallocated) ∧
    GoMap.has nodeDeallocated.record.Spec.PreparedClaims "C1" = true ∧
    GoMap.has nodeDeallocated.record.Spec.AllocatedClaims "C1" = false := by
  have h4 : SystemStep .unguarded nodePrepared nodeDeallocated :=
    SystemStep.deallocate nodePrepared (clientOf recordPrepared true) (claimOn "C1" "n1")
      ⟨none, [{ recordPrepared.Spec with AllocatedClaims := [] }], ⟨[]⟩⟩
      trivial (Or.inr rfl) (by decide)
  have h5 : SystemStep .record nodeCommitted nodeUnwritten :=
    SystemStep.prepare nodeCommitted KubeletPlugin.listWalk
      (KubeletPlugin.failingAttempt (recordAllocated NodeAllocationStateStatusReady)) "C1"
      ⟨some .updateFailed, false,
        [KubeletPlugin.QualifiedName KubeletPlugin.cdiVendor KubeletPlugin.cdiClass "common",
          KubeletPlugin.QualifiedName KubeletPlugin.cdiVendor KubeletPlugin.cdiClass "A"],
        [(recordPrepared.Spec, .failed)], KubeletPlugin.preparedAgent⟩
      KubeletPlugin.fair_listWalk (Or.inr rfl) rfl
  have h6 : SystemStep .record nodeUnwritten nodeUnwrittenDeallocated :=
    SystemStep.deallocate nodeUnwritten
      (clientOf (recordAllocated NodeAllocationStateStatusReady) true) (claimOn "C1" "n1")
      ⟨none, [sampleSingle.Spec], ⟨[]⟩⟩
      (show GoMap.has nodeUnwritten.record.Spec.PreparedClaims "C1" = false by decide)
      (Or.inr rfl) (by decide)
  have h7 : ∀ guard, SystemStep guard nodeUnwrittenDeallocated nodeDeallocated := fun guard =>
    SystemStep.prepare nodeUnwrittenDeallocated KubeletPlugin.listWalk
      (KubeletPlugin.attemptWith sampleSingle .ok) "C1"
      ⟨none, false,
        [KubeletPlugin.QualifiedName KubeletPlugin.cdiVendor KubeletPlugin.cdiClass "common",
          KubeletPlugin.QualifiedName KubeletPlugin.cdiVendor KubeletPlugin.cdiClass "A"],
        [({ recordPrepared.Spec with AllocatedClaims := [] }, .ok)],
        KubeletPlugin.preparedAgent⟩
      KubeletPlugin.fair_listWalk (Or.inr rfl) rfl
  exact ⟨⟨rfl, rfl, rfl⟩, Reachable.step _ _ (reachable_nodePrepared .unguarded) h4,
    Reachable.step _ _
      (Reachable.step _ _ (Reachable.step _ _ (reachable_nodeCommitted .record) h5) h6)
      (h7 .record),
    ⟨rfl, rfl, Reachable.step _ _ Reachable.start (h7 .prepared)⟩,
    by decide, by decide⟩

/-- C20, amended: in every state a node reaches from a start where the record
lists no claim as allocated or prepared and the agent lists no claim as
prepared, by any sequence of filterings, commits, deallocations of claims that at
that time neither the record nor the agent lists as prepared, and runs of the
prepare and unprepare functions of the agent, each with whatever outcome of its
fetch, its spec file operations and its update, every claim in `PreparedClaims`
of the record is in its `AllocatedClaims`. -/
theorem C20_prepared_claims_are_allocated (init sys : NodeSystem) (hinit : init.Initial)
    (hreach : Reachable .prepared init sys) :
    ∀ c, GoMap.has sys.record.Spec.PreparedClaims c = true →
      GoMap.has sys.record.Spec.AllocatedClaims c = true := by
  have hinv : (∀ c, GoMap.has sys.agent.state.prepared c = true →
        GoMap.has sys.record.Spec.AllocatedClaims c = true) ∧
      (∀ c, GoMap.has sys.record.Spec.PreparedClaims c = true →
        GoMap.has sys.record.Spec.AllocatedClaims c = true) := by
    induction hreach with
    | start =>
      obtain ⟨_, hp, hl⟩ := hinit
      constructor
      · intro c hc
        rw [hl] at hc
        cases hc
      · intro c hc
        rw [hp] at hc
        cases hc
    | step mid next _ hstep ih => exact systemStep_preserves mid next hstep ih.1 ih.2
  exact hinv.2

/-- C20, amended, at a concrete input: the node `n1` after the filtering, the
commit and the prepare of the claim `C1`. -/
theorem C20_prepared_claims_are_allocated_witness :
    sampleNode.Initial ∧ Reachable .prepared sampleNode nodePrepared ∧
    GoMap.has nodePrepared.record.Spec.PreparedClaims "C1" = true ∧
    GoMap.has nodePrepared.record.Spec.AllocatedClaims "C1" = true :=
  ⟨⟨rfl, rfl, rfl⟩, reachable_nodePrepared .prepared, by decide,
    C20_prepared_claims_are_allocated sampleNode nodePrepared ⟨rfl, rfl, rfl⟩
      (reachable_nodePrepared .prepared) "C1" (by decide)⟩

/-! ## Unsuitable-node lists without repetition -/

/-- The loop of `unique` appends to `news` the first occurrences of the strings
that are not in `set`. -/
theorem uniqueLoop_eq (s : List String) :
    ∀ (set : GoMap Unit) (news : List String),
      uniqueLoop s set news =
        news ++ (firstOccurrences s).filter (fun str => !GoMap.has set str) := by
  induction s with
  | nil => intro set news; simp [uniqueLoop, firstOccurrences]
  | cons str rest ih =>
    intro set news
    unfold uniqueLoop
    by_cases hhas : GoMap.has set str = true
    · simp only [hhas, not_true_eq_false, if_false, ih, firstOccurrences, List.filter_cons,
        Bool.not_true, Bool.false_eq_true, List.filter_filter]
      congr 1
      apply List.filter_congr
      intro x _
      by_cases hx : x = str
      · subst hx; simp [hhas]
      · simp [hx]
    · simp only [hhas, not_false_eq_true, if_true, ih, firstOccurrences, List.filter_cons,
        Bool.not_eq_true] at *
      simp only [hhas, Bool.not_false, if_true, List.append_assoc, List.singleton_append,
        List.filter_filter]
      congr 2
      apply List.filter_congr
      intro x _
      rw [GoMap.has_set]
      by_cases hx : x = str
      · subst hx; simp
      · simp [hx]

/-- The function `unique` computes the list of first occurrences. -/
theorem unique_eq_firstOccurrences (s : List String) : unique s = firstOccurrences s := by
  unfold unique
  rw [uniqueLoop_eq]
  have hall : ∀ x ∈ firstOccurrences s,
      (fun str => !GoMap.has ([] : GoMap Unit) str) x = true := fun _ _ => rfl
  rw [List.filter_eq_self.mpr hall]
  rfl

/-- The list of first occurrences has the members of the list. -/
theorem mem_firstOccurrences (s : List String) (x : String) :
    x ∈ firstOccurrences s ↔ x ∈ s := by
  induction s with
  | nil => simp [firstOccurrences]
  | cons str rest ih =>
    simp only [firstOccurrences, List.mem_cons, List.mem_filter, ih, ne_eq, decide_not,
      Bool.not_eq_true', decide_eq_false_iff_not]
    by_cases hx : x = str
    · simp [hx]
    · simp [hx]

/-- The list of first occurrences holds no string twice. -/
theorem nodup_firstOccurrences (s : List String) : (firstOccurrences s).Nodup := by
  induction s with
  | nil => simp [firstOccurrences]
  | cons str rest ih =>
    simp only [firstOccurrences, List.nodup_cons, List.mem_filter, ne_eq, not_true_eq_false,
      decide_False, Bool.false_eq_true, and_false, not_false_eq_true, true_and]
    exact ih.filter _

/-- The list of first occurrences keeps the order of the list. -/
theorem firstOccurrences_sublist (s : List String) : (firstOccurrences s).Sublist s := by
  induction s with
  | nil => simp [firstOccurrences]
  | cons str rest ih =>
    simp only [firstOccurrences]
    exact ((List.filter_sublist _).trans ih).cons₂ _

/-- A list without repetition is its own list of first occurrences. -/
theorem firstOccurrences_of_nodup (s : List String) (h : s.Nodup) : firstOccurrences s = s := by
  induction s with
  | nil => rfl
  | cons str rest ih =>
    rw [List.nodup_cons] at h
    simp only [firstOccurrences, ih h.2]
    congr 1
    apply List.filter_eq_self.mpr
    intro x hx
    have : x ≠ str := fun hxs => h.1 (hxs ▸ hx)
    simp [this]

/-- What `unique` returns: the list of first occurrences, without repetition,
with the members and in the order of its argument, and left alone by a second
`unique`. -/
theorem unique_spec (s : List String) :
    unique s = firstOccurrences s ∧ (unique s).Nodup ∧ (∀ x, x ∈ unique s ↔ x ∈ s) ∧
    (unique s).Sublist s ∧ unique (unique s) = unique s := by
  refine ⟨unique_eq_firstOccurrences s, ?_, ?_, ?_, ?_⟩
  · rw [unique_eq_firstOccurrences]; exact nodup_firstOccurrences s
  · intro x; rw [unique_eq_firstOccurrences]; exact mem_firstOccurrences s x
  · rw [unique_eq_firstOccurrences]; exact firstOccurrences_sublist s
  · rw [unique_eq_firstOccurrences (unique s), unique_eq_firstOccurrences s]
    exact firstOccurrences_of_nodup _ (nodup_firstOccurrences s)

/-- The claim allocations with `appended` added to every unsuitable-node list. -/
theorem markUnsuitable_map (cas : List ClaimAllocation) (appended : List String)
    (node : String) :
    (markUnsuitable cas node).map
        (fun ca => { ca with UnsuitableNodes := ca.UnsuitableNodes ++ appended }) =
      cas.map (fun ca => { ca with UnsuitableNodes := ca.UnsuitableNodes ++ (node :: appended) }) := by
  unfold markUnsuitable
  rw [List.map_map]
  apply List.map_congr_left
  intro ca _
  simp only [Function.comp, List.append_assoc, List.singleton_append]

/-- The loop of `pcidriver.UnsuitableNode` leaves the claim allocations as they
were or appends the node to every unsuitable-node list. -/
theorem unsuitableLoop_allcas (allocated : GoMap (List String)) (potentialNode : String)
    (cas : List ClaimAllocation) :
    ∀ (allcas : List ClaimAllocation) (pending : PerNodeAllocatedClaims) (out : FilterOutcome),
      unsuitableLoop allocated potentialNode cas allcas pending = some out →
      out.allcas = allcas ∨ out.allcas = markUnsuitable allcas potentialNode := by
  induction cas with
  | nil =>
    intro allcas pending out h
    simp only [unsuitableLoop, Option.some.injEq] at h
    subst h
    exact Or.inl rfl
  | cons ca cas ih =>
    intro allcas pending out h
    unfold unsuitableLoop at h
    cases hparams : ca.ClaimParameters with
    | other =>
      simp only [hparams, Option.some.injEq] at h
      subst h
      exact Or.inl rfl
    | pci params =>
      simp only [hparams] at h
      split at h
      · simp only [Option.some.injEq] at h
        subst h
        exact Or.inr rfl
      · split at h
        · cases h
        · exact ih _ _ _ h

/-- The method `driver.unsuitableNode` leaves the claim allocations as they were
or appends the node to every unsuitable-node list. -/
theorem unsuitableNode_allcas (order : RangeOrder) (d : driver) (client : NasClient)
    (allcas : List ClaimAllocation) (potentialNode : String) (out : FilterOutcome)
    (h : driver.unsuitableNode order d client allcas potentialNode = some out) :
    out.allcas = allcas ∨ out.allcas = markUnsuitable allcas potentialNode := by
  unfold driver.unsuitableNode at h
  cases hget : client.getResult with
  | none =>
    simp only [hget, Option.some.injEq] at h
    subst h
    exact Or.inr rfl
  | some crd =>
    simp only [hget] at h
    split at h
    · simp only [Option.some.injEq] at h
      subst h
      exact Or.inr rfl
    · cases hkind : perKindCas allcas with
      | error err =>
        simp only [hkind, Option.some.injEq] at h
        subst h
        exact Or.inl rfl
      | ok pcicas =>
        simp only [hkind] at h
        unfold pcidriver.UnsuitableNode at h
        simp only at h
        cases halloc : pcidriver.allocate order
            (visitNode crd d.pci.PendingAllocatedClaims potentialNode).1 pcicas with
        | none => simp [halloc] at h
        | some allocated =>
          simp only [halloc] at h
          cases hloop : unsuitableLoop allocated potentialNode pcicas allcas
              (visitNode crd d.pci.PendingAllocatedClaims potentialNode).2 with
          | none => simp [hloop] at h
          | some out1 =>
            simp only [hloop] at h
            have h1 := unsuitableLoop_allcas _ _ _ _ _ _ hloop
            cases herr : out1.err with
            | none =>
              simp only [herr, Option.some.injEq] at h
              subst h
              exact h1
            | some err =>
              simp only [herr, Option.some.injEq] at h
              subst h
              exact h1

/-- The first loop of `driver.UnsuitableNodes` appends to every unsuitable-node
list the same nodes, taken in order from the candidate nodes. -/
theorem unsuitableNodesLoop_allcas (order : Nat → RangeOrder) (client : Nat → NasClient)
    (nodes : List String) :
    ∀ (i : Nat) (d : driver) (cas : List ClaimAllocation) (out : FilterOutcome),
      unsuitableNodesLoop order client i nodes d cas = some out →
      ∃ appended, appended.Sublist nodes ∧
        out.allcas =
          cas.map (fun ca => { ca with UnsuitableNodes := ca.UnsuitableNodes ++ appended }) := by
  induction nodes with
  | nil =>
    intro i d cas out h
    simp only [unsuitableNodesLoop, Option.some.injEq] at h
    subst h
    refine ⟨[], List.Sublist.refl _, ?_⟩
    simp
  | cons node rest ih =>
    intro i d cas out h
    unfold unsuitableNodesLoop at h
    cases h1 : driver.unsuitableNode (order i) d (client i) cas node with
    | none => simp [h1] at h
    | some out1 =>
      simp only [h1] at h
      have hcas := unsuitableNode_allcas _ _ _ _ _ _ h1
      cases herr : out1.err with
      | some err =>
        simp only [herr, Option.some.injEq] at h
        subst h
        rcases hcas with hc | hc
        · refine ⟨[], List.nil_sublist _, ?_⟩
          simp [hc]
        · refine ⟨[node], by simp, ?_⟩
          simp only [hc, markUnsuitable]
      | none =>
        simp only [herr] at h
        obtain ⟨appended, hsub, hout⟩ := ih _ _ _ _ h
        rcases hcas with hc | hc
        · exact ⟨appended, hsub.cons _, by rw [hout, hc]⟩
        · refine ⟨node :: appended, hsub.cons₂ _, ?_⟩
          rw [hout, hc, markUnsuitable_map]

/-- C26: after `driver.UnsuitableNodes` returns without error, the
unsuitable-node list of every claim is `unique` of the list filtering built, the
list it had before followed by the nodes that filtering appended, which are
candidate nodes in their order; that result is the list of first occurrences, it
holds no node twice, it has the members and the order of the list filtering
built, and a second `unique` leaves it as it is. -/
theorem C26_unsuitableNodes_unique (order : Nat → RangeOrder) (client : Nat → NasClient)
    (d : driver) (cas : List ClaimAllocation) (potentialNodes : List String)
    (out : FilterOutcome)
    (h : driver.UnsuitableNodes order client d cas potentialNodes = some out)
    (hok : out.err = none) :
    ∃ appended, appended.Sublist potentialNodes ∧
      out.allcas =
        cas.map (fun ca =>
          { ca with UnsuitableNodes := unique (ca.UnsuitableNodes ++ appended) }) ∧
      ∀ ca ∈ cas,
        unique (ca.UnsuitableNodes ++ appended) =
          firstOccurrences (ca.UnsuitableNodes ++ appended) ∧
        (unique (ca.UnsuitableNodes ++ appended)).Nodup ∧
        (∀ node, node ∈ unique (ca.UnsuitableNodes ++ appended) ↔
          node ∈ ca.UnsuitableNodes ++ appended) ∧
        (unique (ca.UnsuitableNodes ++ appended)).Sublist (ca.UnsuitableNodes ++ appended) ∧
        unique (unique (ca.UnsuitableNodes ++ appended)) =
          unique (ca.UnsuitableNodes ++ appended) := by
  unfold driver.UnsuitableNodes at h
  cases hloop : unsuitableNodesLoop order client 0 potentialNodes d cas with
  | none => simp [hloop] at h
  | some raw =>
    simp only [hloop] at h
    obtain ⟨appended, hsub, hraw⟩ := unsuitableNodesLoop_allcas _ _ _ _ _ _ _ hloop
    cases herr : raw.err with
    | some err =>
      simp only [herr, Option.some.injEq] at h
      subst h
      rw [herr] at hok
      cases hok
    | none =>
      simp only [herr, Option.some.injEq] at h
      subst h
      refine ⟨appended, hsub, ?_, fun ca _ => unique_spec _⟩
      simp only [hraw, List.map_map]
      apply List.map_congr_left
      intro ca _
      rfl

/-- C26 on two visits of the node `n1`, whose record is not Ready: both visits
append `n1`, and the claim `C1` is left with the list `[n1]`. -/
theorem C26_unsuitableNodes_unique_witness :
    ∃ out, driver.UnsuitableNodes (fun _ => listOrder) (fun _ => clientOf sampleNotReady true)
        sampleFreshDriver [nvmeClaim "C1"] ["n1", "n1"] = some out ∧
      out.err = none ∧
      out.allcas = [{ nvmeClaim "C1" with UnsuitableNodes := ["n1"] }] ∧
      ∃ appended, appended.Sublist ["n1", "n1"] ∧
        out.allcas =
          [nvmeClaim "C1"].map (fun ca =>
            { ca with UnsuitableNodes := unique (ca.UnsuitableNodes ++ appended) }) ∧
        ∀ ca ∈ [nvmeClaim "C1"],
          unique (ca.UnsuitableNodes ++ appended) =
            firstOccurrences (ca.UnsuitableNodes ++ appended) ∧
          (unique (ca.UnsuitableNodes ++ appended)).Nodup ∧
          (∀ node, node ∈ unique (ca.UnsuitableNodes ++ appended) ↔
            node ∈ ca.UnsuitableNodes ++ appended) ∧
          (unique (ca.UnsuitableNodes ++ appended)).Sublist (ca.UnsuitableNodes ++ appended) ∧
          unique (unique (ca.UnsuitableNodes ++ appended)) =
            unique (ca.UnsuitableNodes ++ appended) :=
  ⟨_, rfl, rfl, by decide,
    C26_unsuitableNodes_unique (fun _ => listOrder) (fun _ => clientOf sampleNotReady true)
      sampleFreshDriver [nvmeClaim "C1"] ["n1", "n1"] _ rfl rfl⟩

/-! ## The handles of a prepared claim -/

namespace KubeletPlugin

/-- C27: for a prepared device set of PCI type with `n` devices,
`CDIHandler.GetClaimDevices` returns `n + 1` handles, first the qualified name
of the device `common`, then at position `i + 1` the qualified name of the UUID
of device `i`; for a device set without PCI part it returns an error and no
handle. -/
theorem C27_getClaimDevices_handles (devices : PreparedDevices) :
    (devices.Type = PciDeviceType →
      ∃ pcis handles, devices.Pci = some pcis ∧
        CDIHandler.GetClaimDevices devices = .ok handles ∧
        handles.length = pcis.Devices.length + 1 ∧
        handles[0]? = some (QualifiedName cdiVendor cdiClass cdiCommonDeviceName) ∧
        ∀ i device, pcis.Devices[i]? = some device →
          handles[i + 1]? = some (QualifiedName cdiVendor cdiClass device.uuid)) ∧
    (devices.Type ≠ PciDeviceType →
      CDIHandler.GetClaimDevices devices = .error (.unknownDeviceType UnknownDeviceType)) := by
  obtain ⟨pci⟩ := devices
  cases pci with
  | none =>
    refine ⟨fun h => ?_, fun _ => rfl⟩
    exact absurd h (by decide)
  | some pcis =>
    refine ⟨fun _ => ⟨pcis, _, rfl, rfl, by simp, by simp, ?_⟩, fun h => absurd rfl h⟩
    intro i device hi
    simp only [List.getElem?_cons_succ, List.getElem?_map, hi, Option.map_some']

/-- C27 on the device set of one device `A`: two handles, and an error for the
device set without PCI part. -/
theorem C27_getClaimDevices_handles_witness :
    (∃ pcis handles, (⟨some ⟨[agentDevA]⟩⟩ : PreparedDevices).Pci = some pcis ∧
        CDIHandler.GetClaimDevices ⟨some ⟨[agentDevA]⟩⟩ = .ok handles ∧
        handles.length = pcis.Devices.length + 1 ∧
        handles[0]? = some (QualifiedName cdiVendor cdiClass cdiCommonDeviceName) ∧
        ∀ i device, pcis.Devices[i]? = some device →
          handles[i + 1]? = some (QualifiedName cdiVendor cdiClass device.uuid)) ∧
    CDIHandler.GetClaimDevices ⟨none⟩ = .error (.unknownDeviceType UnknownDeviceType) :=
  ⟨(C27_getClaimDevices_handles ⟨some ⟨[agentDevA]⟩⟩).1 (by decide),
    (C27_getClaimDevices_handles ⟨none⟩).2 (by decide)⟩

end KubeletPlugin

/-! ## Unprepare -/

namespace GoMap

variable {V : Type}

/-- Deleting a key that is not in the map leaves the association list as it is. -/
theorem delete_of_get_none (m : GoMap V) (k : String) (h : get m k = none) :
    delete m k = m := by
  induction m with
  | nil => rfl
  | cons e es ih =>
    unfold get at h
    by_cases hk : e.1 = k
    · simp [hk] at h
    · simp only [hk, if_false] at h
      have := ih h
      unfold delete at this ⊢
      simp only [List.filter_cons, ne_eq, hk, not_false_eq_true, decide_True, if_true, this]

/-- Setting a key that is not in the map and deleting it again gives back the
association list. -/
theorem delete_set_of_get_none (m : GoMap V) (k : String) (v : V) (h : get m k = none) :
    delete (set m k v) k = m := by
  have hhas : has m k = false := by unfold has; rw [h]; rfl
  unfold set
  simp only [hhas, Bool.false_eq_true, if_false]
  have := delete_of_get_none m k h
  unfold delete at this ⊢
  simp only [List.filter_append, this, List.filter_cons, ne_eq, not_true_eq_false,
    decide_False, Bool.false_eq_true, if_false, List.filter_nil, List.append_nil]

end GoMap

namespace KubeletPlugin

/-- C21, as stated, fails for a claim that was prepared before: on the agent
that has prepared `C1`, `Prepare` of `C1` succeeds and changes nothing, and the
`Unprepare` that follows removes `C1`, so the prepared map is not the one before
the `Prepare`. -/
theorem C21_counterexample :
    ∃ handles s1 s2,
      preparedAgent.state.Prepare true "C1" (oneDevice "A") = some (.ok handles, s1) ∧
      s1.Unprepare true "C1" = (none, s2) ∧
      GoMap.get preparedAgent.state.prepared "C1" = some ⟨some ⟨[agentDevA]⟩⟩ ∧
      GoMap.get s2.prepared "C1" = none :=
  ⟨_, _, _, rfl, rfl, by decide, by decide⟩

/-- C21, amended: `Unprepare` of a claim that is not prepared returns success and
leaves the state, descriptors included, as it was; `Unprepare` of a prepared
claim of PCI type whose descriptor removal succeeds returns success, removes that
claim from the prepared map and its descriptor, and leaves every other prepared
claim and the allocatable map as they were; a successful `Prepare` of a claim
that was not prepared before, followed by `Unprepare` of the same claim, gives
back the prepared map. -/
theorem C21_unprepare_frame (s : DeviceState) (claimUID : String) :
    (GoMap.get s.prepared claimUID = none →
      ∀ removeOk, s.Unprepare removeOk claimUID = (none, s)) ∧
    (∀ devices, GoMap.get s.prepared claimUID = some devices →
      devices.Type = PciDeviceType →
      (s.Unprepare true claimUID).1 = none ∧
      (s.Unprepare true claimUID).2.prepared = GoMap.delete s.prepared claimUID ∧
      GoMap.get (s.Unprepare true claimUID).2.prepared claimUID = none ∧
      (∀ other, other ≠ claimUID →
        GoMap.get (s.Unprepare true claimUID).2.prepared other = GoMap.get s.prepared other) ∧
      (s.Unprepare true claimUID).2.allocatable = s.allocatable ∧
      (s.Unprepare true claimUID).2.cdi.claimSpecs = GoMap.delete s.cdi.claimSpecs claimUID) ∧
    (∀ writeOk allocation handles s1, GoMap.get s.prepared claimUID = none →
      s.Prepare writeOk claimUID allocation = some (.ok handles, s1) →
      (s1.Unprepare true claimUID).1 = none ∧
      (s1.Unprepare true claimUID).2.prepared = s.prepared ∧
      (s1.Unprepare true claimUID).2.allocatable = s.allocatable) := by
  have hpart2 : ∀ (t : DeviceState) devices, GoMap.get t.prepared claimUID = some devices →
      devices.Type = PciDeviceType →
      t.Unprepare true claimUID =
        (none, { t with cdi := ⟨GoMap.delete t.cdi.claimSpecs claimUID⟩,
                        prepared := GoMap.delete t.prepared claimUID }) := by
    intro t devices hp hty
    unfold DeviceState.Unprepare
    simp only [hp, hty, if_true, CDIHandler.DeleteClaimSpecFile]
  refine ⟨?_, ?_, ?_⟩
  · intro hp removeOk
    unfold DeviceState.Unprepare
    simp only [hp]
  · intro devices hp hty
    rw [hpart2 s devices hp hty]
    refine ⟨rfl, rfl, ?_, ?_, rfl, rfl⟩
    · simp only [GoMap.get_delete, if_true]
    · intro other hne
      simp only [GoMap.get_delete, hne, if_false]
  · intro writeOk allocation handles s1 hnone h
    rcases prepare_cases s s1 writeOk claimUID allocation _ h with
      ⟨err, herr, _⟩ | ⟨_, devices, _, _, hp, _⟩ | ⟨_, allocated, pcis, _, _, _, _, hs1, _⟩
    · cases herr
    · rw [hnone] at hp; cases hp
    · have hget : GoMap.get s1.prepared claimUID = some ⟨some pcis⟩ := by
        rw [hs1]; exact GoMap.get_set_self _ _ _
      rw [hpart2 s1 _ hget rfl]
      refine ⟨rfl, ?_, ?_⟩
      · simp only [hs1]
        exact GoMap.delete_set_of_get_none _ _ _ hnone
      · simp only [hs1]

/-- C21 on the agent that discovered device `A`: preparing the claim `C1` and
unpreparing it gives back the empty prepared map. -/
theorem C21_unprepare_frame_witness :
    GoMap.get freshAgent.state.prepared "C1" = none ∧
    freshAgent.state.Prepare true "C1" (oneDevice "A") =
      some (.ok [QualifiedName cdiVendor cdiClass cdiCommonDeviceName,
        QualifiedName cdiVendor cdiClass "A"], preparedAgent.state) ∧
    (preparedAgent.state.Unprepare true "C1").1 = none ∧
    (preparedAgent.state.Unprepare true "C1").2.prepared = freshAgent.state.prepared ∧
    (preparedAgent.state.Unprepare true "C1").2.allocatable = freshAgent.state.allocatable :=
  ⟨by decide, rfl,
    (C21_unprepare_frame freshAgent.state "C1").2.2 true (oneDevice "A") _ _ (by decide) rfl⟩

end KubeletPlugin

/-! ## Startup reconciliation -/

namespace KubeletPlugin

/-- The inner loop of `syncPreparedDevicesFromCRDSpec` faults exactly when the
UUID of one of the devices is no key of the allocatable map. -/
theorem syncDevicesLoop_none (pcis : AllocatableDevices) (recorded : List PreparedPci) :
    ∀ devices, syncDevicesLoop pcis recorded devices = none ↔
      ∃ d ∈ recorded, GoMap.get pcis d.UUID = none := by
  induction recorded with
  | nil => intro devices; simp [syncDevicesLoop]
  | cons d rest ih =>
    intro devices
    unfold syncDevicesLoop
    cases hget : GoMap.get pcis d.UUID with
    | none => simp [hget]
    | some device =>
      simp only [ih, List.mem_cons, exists_eq_or_imp, hget, false_or]
      simp

/-- C24 fails on the code: with a record whose prepared claim `C1` holds the
device `A`, and an inventory in which the device has the newly drawn UUID `A2`,
`syncPreparedDevicesFromCRDSpec` and `NewDeviceState` fault on the nil lookup
`pcis[d.UUID].PCIDevice` and return no error; with the device under the UUID `A`
the reconciliation restores the prepared claim. -/
theorem C24_reconciliation_faults_on_unknown_device :
    GoMap.get recordPrepared.Spec.PreparedClaims "C1" = some ⟨some ⟨[⟨"A"⟩]⟩⟩ ∧
    GoMap.get restartedInventory "A" = none ∧
    DeviceState.syncPreparedDevicesFromCRDSpec listClaimsWalk ⟨⟨[]⟩, restartedInventory, []⟩
      recordPrepared.Spec = none ∧
    NewDeviceState (some ⟨[]⟩) true listClaimsWalk recordPrepared.Spec restartedInventory = none ∧
    NewDeviceState (some ⟨[]⟩) true listClaimsWalk recordPrepared.Spec [("A", agentDevA)] =
      some (.ok ⟨⟨[]⟩, [("A", agentDevA)], [("C1", ⟨some ⟨[agentDevA]⟩⟩)]⟩) :=
  ⟨by decide, by decide, rfl, rfl, rfl⟩

/-! ## Discovery -/

/-- C30 fails on the code: the host has an NVMe device with id `1B36:0010`, which
discovery reports under the lower-case key `1b36:0010`. For the supported class
whose selector is written `1B36:0010`, `enumerateAllPossibleDevices` looks the
discovered devices up under the selector as written and returns no device; for
the selector `1b36:0010` it returns the device under its UUID. -/
theorem C30_uppercase_selector_loses_devices :
    toLower "1B36:0010" = "1b36:0010" ∧
    DiscoverPermittedHostPCIDevices [hostNvme] [("1b36:0010", "devices.kubevirt.io/nvme")] =
      [("1b36:0010", [agentDevA])] ∧
    enumerateAllPossibleDevices (fun m => m) (fun m => m) [hostNvme]
      (supportedClass "1B36:0010" "devices.kubevirt.io/nvme") = [] ∧
    enumerateAllPossibleDevices (fun m => m) (fun m => m) [hostNvme]
      (supportedClass "1b36:0010" "devices.kubevirt.io/nvme") = [("A", agentDevA)] :=
  ⟨by decide, by decide, by decide, by decide⟩

/-! ## Requests of several claims -/

/-- The function `unprepareAttempt` returns for every input. -/
theorem unprepareAttempt_total (walk : SpecWalk) (d : driver) (a : Attempt) (claimUID : String) :
    ∃ out, unprepareAttempt walk d a claimUID = some out := by
  unfold unprepareAttempt
  split
  · exact ⟨_, rfl⟩
  · split
    · exact ⟨_, rfl⟩
    · split <;> exact ⟨_, rfl⟩

/-- The function `retry.RetryOnConflict` returns when the retried function
does. -/
theorem retryOnConflict_total (fn : driver → Attempt → Option AttemptOutcome)
    (hfn : ∀ d a, ∃ out, fn d a = some out) (env : Nat → Attempt) (steps : Nat) :
    ∀ i d updates, ∃ out, retryOnConflict fn env steps i d updates = some out := by
  induction steps with
  | zero => intro i d updates; exact ⟨_, rfl⟩
  | succ n ih =>
    intro i d updates
    obtain ⟨out, hout⟩ := hfn d (env i)
    unfold retryOnConflict
    simp only [hout]
    split
    · exact ⟨_, rfl⟩
    · split
      · exact ih _ _ _
      · exact ⟨_, rfl⟩

/-- The method `nodeUnprepareResource` returns a response for every claim. -/
theorem nodeUnprepareResource_total (walk : SpecWalk) (d : driver) (env : Nat → Attempt)
    (claimUID : String) : ∃ out, d.nodeUnprepareResource walk env claimUID = some out := by
  obtain ⟨out, hout⟩ := retryOnConflict_total (fun d a => unprepareAttempt walk d a claimUID)
    (fun d a => unprepareAttempt_total walk d a claimUID) env defaultRetrySteps 0 d []
  unfold driver.nodeUnprepareResource
  simp only [hout]
  split <;> exact ⟨_, rfl⟩

/-- The loop of `NodeUnprepareResources` returns, without error, a map with one
entry per claim UID of the request. -/
theorem unprepareResourcesLoop_claims (walk : SpecWalk) (env : Nat → Nat → Attempt)
    (claims : List Claim) :
    ∀ (i : Nat) (acc : UnprepareResourcesOutcome), acc.err = none →
      ∃ out, unprepareResourcesLoop walk env i claims acc = some out ∧ out.err = none ∧
        ∀ uid, GoMap.has out.Claims uid = true ↔
          (GoMap.has acc.Claims uid = true ∨ uid ∈ claims.map (fun claim => claim.Uid)) := by
  induction claims with
  | nil =>
    intro i acc hacc
    exact ⟨acc, rfl, hacc, fun uid => by simp⟩
  | cons claim rest ih =>
    intro i acc hacc
    obtain ⟨out1, hout1⟩ := nodeUnprepareResource_total walk acc.driver (env i) claim.Uid
    unfold unprepareResourcesLoop
    simp only [hout1]
    obtain ⟨out, hout, herr, hkeys⟩ := ih (i + 1)
      ⟨GoMap.set acc.Claims claim.Uid out1.response, none, acc.updates ++ out1.updates,
        out1.driver⟩ rfl
    refine ⟨out, hout, herr, fun uid => ?_⟩
    rw [hkeys uid, GoMap.has_set]
    simp only [Bool.or_eq_true, decide_eq_true_eq, List.map_cons, List.mem_cons]
    tauto

/-- The loop of `NodePrepareResources`, when it returns, returns without error a
map with one entry per claim UID of the request. -/
theorem prepareResourcesLoop_claims (walk : SpecWalk) (env : Nat → Nat → Attempt)
    (claims : List Claim) :
    ∀ (i : Nat) (acc out : PrepareResourcesOutcome), acc.err = none →
      prepareResourcesLoop walk env i claims acc = some out →
      out.err = none ∧
        ∀ uid, GoMap.has out.Claims uid = true ↔
          (GoMap.has acc.Claims uid = true ∨ uid ∈ claims.map (fun claim => claim.Uid)) := by
  induction claims with
  | nil =>
    intro i acc out hacc h
    simp only [prepareResourcesLoop, Option.some.injEq] at h
    subst h
    exact ⟨hacc, fun uid => by simp⟩
  | cons claim rest ih =>
    intro i acc out hacc h
    unfold prepareResourcesLoop at h
    cases h1 : acc.driver.nodePrepareResource walk (env i) claim.Uid with
    | none => simp [h1] at h
    | some out1 =>
      simp only [h1] at h
      obtain ⟨herr, hkeys⟩ := ih _ _ _ rfl h
      refine ⟨herr, fun uid => ?_⟩
      rw [hkeys uid, GoMap.has_set]
      simp only [Bool.or_eq_true, decide_eq_true_eq, List.map_cons, List.mem_cons]
      tauto

/-- C25 fails on the code for `NodePrepareResources`: the record commits claim
`C1` to a device `B` that the agent does not know and claim `C2` to its device
`A`. The preparation of `C1` faults in `preparePcis`, so a request for `C1` and
`C2`, in either order, returns no response at all and `C2` gets no entry; the
request for `C2` alone is answered with its handles. -/
theorem C25_prepare_fault_aborts_request :
    driver.NodePrepareResources listWalk freshAgent (fun _ _ => attemptWith recordTwoClaims .ok)
      [requestClaim "C1", requestClaim "C2"] = none ∧
    driver.NodePrepareResources listWalk freshAgent (fun _ _ => attemptWith recordTwoClaims .ok)
      [requestClaim "C2", requestClaim "C1"] = none ∧
    ∃ out, driver.NodePrepareResources listWalk freshAgent
        (fun _ _ => attemptWith recordTwoClaims .ok) [requestClaim "C2"] = some out ∧
      out.err = none ∧
      out.Claims = [("C2", ⟨[QualifiedName cdiVendor cdiClass cdiCommonDeviceName,
        QualifiedName cdiVendor cdiClass "A"], none⟩)] :=
  ⟨rfl, rfl, _, rfl, rfl, rfl⟩

end KubeletPlugin

/-! ## Committed claims in the batch of a filtering call -/

/-- C28 fails on the code: the record commits claim `X` to device `A`, and `X` is
part of the batch. Filtering the Ready node `n1` finds the node suitable and
leaves a cache entry for (`X`, `n1`), whether the cache was empty before or held
an entry for (`X`, `n1`) that the visitor dropped. -/
theorem C28_committed_batch_claim_is_cached :
    GoMap.get sampleHeld.Spec.AllocatedClaims "X" = some (oneDevice "A") ∧
    (∃ out, pcidriver.UnsuitableNode listOrder NewPciDriver sampleHeld [nvmeClaim "X"]
        [nvmeClaim "X"] "n1" = some out ∧ out.err = none ∧ out.allcas = [nvmeClaim "X"] ∧
      out.pending.find "X" "n1" = some (oneDevice "A")) ∧
    (visitNode sampleHeld ⟨[(("X", "n1"), oneDevice "A")]⟩ "n1").2 = ⟨[]⟩ ∧
    (∃ out, pcidriver.UnsuitableNode listOrder ⟨⟨[(("X", "n1"), oneDevice "A")]⟩⟩ sampleHeld
        [nvmeClaim "X"] [nvmeClaim "X"] "n1" = some out ∧ out.err = none ∧
      out.pending.find "X" "n1" = some (oneDevice "A")) ∧
    ∃ out, driver.unsuitableNode listOrder sampleFreshDriver (clientOf sampleHeld true)
        [nvmeClaim "X"] "n1" = some out ∧ out.err = none ∧
      out.pending.Exists "X" "n1" = true :=
  ⟨by decide, ⟨_, rfl, rfl, rfl, by decide⟩, by decide, ⟨_, rfl, rfl, by decide⟩,
    ⟨_, rfl, rfl, by decide⟩⟩

/-! ## The spec the agent writes, and its way back -/

namespace GoMap

variable {V : Type}

/-- The assignment of a key that is not in the map appends an entry. -/
theorem set_of_get_none (m : GoMap V) (k : String) (v : V) (h : get m k = none) :
    set m k v = m ++ [(k, v)] := by
  have hhas : has m k = false := by unfold has; rw [h]; rfl
  unfold set
  simp only [hhas, Bool.false_eq_true, if_false]

/-- The lookup in a map whose values went through a function. -/
theorem get_map_values {W : Type} (f : V → W) (m : GoMap V) (k : String) :
    get (m.map (fun e => (e.1, f e.2))) k = (get m k).map f := by
  induction m with
  | nil => rfl
  | cons e es ih =>
    simp only [List.map_cons, get]
    by_cases hk : e.1 = k
    · simp only [hk, if_true, Option.map_some']
    · simp only [hk, if_false, ih]

/-- The lookup of a key that is no key of the map. -/
theorem get_none_of_not_mem_keys (m : GoMap V) (k : String)
    (h : k ∉ m.map (fun e => e.1)) : get m k = none := by
  cases hg : get m k with
  | none => rfl
  | some v =>
    have := (has_iff_mem_keys m k).mp (by unfold has; rw [hg]; rfl)
    exact absurd this h

/-- In a map with one entry per key, the lookup finds the entries. -/
theorem get_eq_some_iff (m : GoMap V) (hn : NodupKeys m) (k : String) (v : V) :
    get m k = some v ↔ (k, v) ∈ m := by
  constructor
  · exact mem_of_get m k v
  · intro hmem
    induction m with
    | nil => cases hmem
    | cons e es ih =>
      unfold NodupKeys at hn
      rw [List.map_cons, List.nodup_cons] at hn
      unfold get
      rcases List.mem_cons.mp hmem with he | he
      · subst he; simp
      · have hne : e.1 ≠ k := by
          intro hek
          apply hn.1
          rw [hek]
          exact List.mem_map.mpr ⟨(k, v), he, rfl⟩
        simp only [hne, if_false]
        exact ih hn.2 he

/-- The lookup does not depend on the order of a map with one entry per key. -/
theorem get_perm (m m2 : GoMap V) (hperm : m.Perm m2) (hn : NodupKeys m) (k : String) :
    get m k = get m2 k := by
  have hn2 : NodupKeys m2 := (hperm.map _).nodup_iff.mp hn
  cases hg : get m2 k with
  | some v =>
    rw [get_eq_some_iff m hn]
    exact hperm.mem_iff.mpr ((get_eq_some_iff m2 hn2 k v).mp hg)
  | none =>
    cases hg1 : get m k with
    | none => rfl
    | some v =>
      have := (get_eq_some_iff m2 hn2 k v).mpr (hperm.mem_iff.mp ((get_eq_some_iff m hn k v).mp hg1))
      rw [hg] at this
      cases this

end GoMap

namespace KubeletPlugin

/-- The first loop of `syncAllocatableDevicesToCRDSpec` appends one entry per
device when the devices have distinct UUIDs that are no keys yet. -/
theorem foldl_allocatable_eq (l : List (String × PCIDevice))
    (hn : (l.map (fun e => e.2.uuid)).Nodup) :
    ∀ acc : GoMap AllocatableDevice, (∀ e ∈ l, GoMap.get acc e.2.uuid = none) →
      l.foldl (fun pcis entry => GoMap.set pcis entry.2.uuid
          ⟨some ⟨entry.2.uuid, entry.2.resourceName, entry.2.pciAddress⟩⟩) acc =
        acc ++ l.map (fun e =>
          (e.2.uuid, ⟨some ⟨e.2.uuid, e.2.resourceName, e.2.pciAddress⟩⟩)) := by
  induction l with
  | nil => intro acc _; simp
  | cons e es ih =>
    intro acc hacc
    rw [List.map_cons, List.nodup_cons] at hn
    simp only [List.foldl_cons, List.map_cons]
    rw [GoMap.set_of_get_none _ _ _ (hacc e (List.mem_cons_self _ _)), ih hn.2]
    · simp
    · intro e2 he2
      have hne : e2.2.uuid ≠ e.2.uuid := by
        intro heq
        apply hn.1
        rw [← heq]
        exact List.mem_map.mpr ⟨e2, he2, rfl⟩
      rw [GoMap.get_append_of_none _ _ _ (hacc e2 (List.mem_cons_of_mem _ he2))]
      simp only [GoMap.get, hne.symm, if_false]

/-- The loop of `syncPreparedDevicesToCRDSpec` appends one entry per prepared
claim of PCI type when the claims are distinct and no keys yet. -/
theorem syncPreparedLoop_eq (l : List (String × PreparedDevices)) (hn : GoMap.NodupKeys l)
    (hpci : ∀ e ∈ l, e.2.Pci.isSome = true) :
    ∀ outcas : GoMap DraPci.PreparedDevices, (∀ e ∈ l, GoMap.get outcas e.1 = none) →
      syncPreparedLoop l outcas =
        .ok (outcas ++ l.map (fun e =>
          (e.1, ⟨e.2.Pci.map (fun pcis => ⟨pcis.Devices.map (fun device => ⟨device.uuid⟩)⟩)⟩))) := by
  induction l with
  | nil => intro outcas _; simp [syncPreparedLoop]
  | cons e es ih =>
    intro outcas hacc
    obtain ⟨claim, devices⟩ := e
    unfold GoMap.NodupKeys at hn
    rw [List.map_cons, List.nodup_cons] at hn
    have he := hpci (claim, devices) (List.mem_cons_self _ _)
    cases hp : devices.Pci with
    | none => simp only at he; rw [hp] at he; cases he
    | some pcis =>
      unfold syncPreparedLoop
      simp only [hp]
      rw [GoMap.set_of_get_none _ _ _ (hacc (claim, devices) (List.mem_cons_self _ _)),
        ih hn.2 (fun x hx => hpci x (List.mem_cons_of_mem _ hx))]
      · simp [hp]
      · intro e2 he2
        have hne : e2.1 ≠ claim := by
          intro heq
          apply hn.1
          simp only
          rw [← heq]
          exact List.mem_map.mpr ⟨e2, he2, rfl⟩
        rw [GoMap.get_append_of_none _ _ _ (hacc e2 (List.mem_cons_of_mem _ he2))]
        simp only [GoMap.get, hne.symm, if_false]

/-- What `GetUpdatedSpec` returns for an agent state whose prepared claims are of
PCI type and whose allocatable devices have distinct UUIDs: the allocated claims
of the base spec, one allocatable entry per device, and for every prepared claim
the UUIDs of its devices in order. -/
theorem getUpdatedSpec_eq (walk : SpecWalk) (hfair : walk.Fair) (s : DeviceState)
    (hkeys : GoMap.NodupKeys s.prepared) (hpci : AllPci s.prepared)
    (huuid : (s.allocatable.map (fun e => e.2.uuid)).Nodup)
    (inspec : NodeAllocationStateSpec) :
    ∃ spec, s.GetUpdatedSpec walk inspec = .ok spec ∧
      spec.AllocatedClaims = inspec.AllocatedClaims ∧
      spec.AllocatableDevices.Perm
        (s.allocatable.map (fun e => ⟨some ⟨e.2.uuid, e.2.resourceName, e.2.pciAddress⟩⟩)) ∧
      GoMap.NodupKeys spec.PreparedClaims ∧
      ∀ c, GoMap.get spec.PreparedClaims c =
        (GoMap.get s.prepared c).map (fun devices =>
          ⟨devices.Pci.map (fun pcis => ⟨pcis.Devices.map (fun device => ⟨device.uuid⟩)⟩)⟩) := by
  have hpermP := hfair.2.2 s.prepared
  have hpermA := hfair.1 s.allocatable
  have hkeysW : GoMap.NodupKeys (walk.prepared s.prepared) :=
    (hpermP.map _).nodup_iff.mpr hkeys
  have hpciW : ∀ e ∈ walk.prepared s.prepared, e.2.Pci.isSome = true :=
    fun e he => hpci e (hpermP.mem_iff.mp he)
  have hloop := syncPreparedLoop_eq _ hkeysW hpciW [] (fun _ _ => rfl)
  have huuidW : ((walk.allocatable s.allocatable).map (fun e => e.2.uuid)).Nodup :=
    (hpermA.map _).nodup_iff.mpr huuid
  have hfold := foldl_allocatable_eq _ huuidW [] (fun _ _ => rfl)
  unfold DeviceState.GetUpdatedSpec DeviceState.syncPreparedDevicesToCRDSpec
    DeviceState.syncAllocatableDevicesToCRDSpec
  simp only [hloop, hfold, List.nil_append]
  refine ⟨_, rfl, rfl, ?_, ?_, ?_⟩
  · simp only
    refine ((hfair.2.1 _).map _).trans ?_
    rw [List.map_map]
    exact hpermA.map _
  · simp only
    unfold GoMap.NodupKeys
    rw [List.map_map]
    exact hkeysW
  · intro c
    simp only
    rw [← GoMap.get_perm _ _ hpermP hkeysW c]
    exact GoMap.get_map_values
      (fun devices : PreparedDevices =>
        (⟨devices.Pci.map (fun pcis => ⟨pcis.Devices.map (fun device => ⟨device.uuid⟩)⟩)⟩ :
          DraPci.PreparedDevices))
      (walk.prepared s.prepared) c

/-- C22: for every agent state whose prepared map holds one entry per claim, all
of PCI type, and whose allocatable devices have distinct UUIDs, and for every
base spec, `GetUpdatedSpec` returns a spec whose allocated claims are those of
the base spec, whose allocatable devices are, up to order, one PCI entry (UUID,
resource name, bus address) per allocatable device of the agent, and whose
prepared claims map every prepared claim of the agent to the UUIDs of its devices
in order, and no other claim. The function returns only the spec: the base spec
and the agent state are arguments it cannot change. -/
theorem C22_getUpdatedSpec_frame (walk : SpecWalk) (hfair : walk.Fair) (s : DeviceState)
    (hkeys : GoMap.NodupKeys s.prepared) (hpci : AllPci s.prepared)
    (huuid : (s.allocatable.map (fun e => e.2.uuid)).Nodup)
    (inspec : NodeAllocationStateSpec) :
    ∃ spec, s.GetUpdatedSpec walk inspec = .ok spec ∧
      spec.AllocatedClaims = inspec.AllocatedClaims ∧
      spec.AllocatableDevices.Perm
        (s.allocatable.map (fun e => ⟨some ⟨e.2.uuid, e.2.resourceName, e.2.pciAddress⟩⟩)) ∧
      (∀ c devices, GoMap.get s.prepared c = some devices →
        ∃ pcis, devices.Pci = some pcis ∧
          GoMap.get spec.PreparedClaims c =
            some ⟨some ⟨pcis.Devices.map (fun device => ⟨device.uuid⟩)⟩⟩) ∧
      (∀ c, GoMap.get s.prepared c = none → GoMap.get spec.PreparedClaims c = none) := by
  obtain ⟨spec, hspec, hall, hperm, _, hget⟩ :=
    getUpdatedSpec_eq walk hfair s hkeys hpci huuid inspec
  refine ⟨spec, hspec, hall, hperm, ?_, ?_⟩
  · intro c devices hc
    have hmem := GoMap.mem_of_get _ _ _ hc
    have hsome := hpci _ hmem
    simp only at hsome
    cases hp : devices.Pci with
    | none => rw [hp] at hsome; cases hsome
    | some pcis =>
      refine ⟨pcis, rfl, ?_⟩
      rw [hget c, hc, Option.map_some', hp, Option.map_some']
  · intro c hc
    rw [hget c, hc, Option.map_none']

/-- C22 on the agent that has prepared device `A` for claim `C1`, with the record
of the node as base spec. -/
theorem C22_getUpdatedSpec_frame_witness :
    ∃ spec, preparedAgent.state.GetUpdatedSpec listWalk
        (recordAllocated NodeAllocationStateStatusReady).Spec = .ok spec ∧
      spec = recordPrepared.Spec ∧
      spec.AllocatedClaims = (recordAllocated NodeAllocationStateStatusReady).Spec.AllocatedClaims ∧
      spec.AllocatableDevices.Perm
        (preparedAgent.state.allocatable.map
          (fun e => ⟨some ⟨e.2.uuid, e.2.resourceName, e.2.pciAddress⟩⟩)) ∧
      (∀ c devices, GoMap.get preparedAgent.state.prepared c = some devices →
        ∃ pcis, devices.Pci = some pcis ∧
          GoMap.get spec.PreparedClaims c =
            some ⟨some ⟨pcis.Devices.map (fun device => ⟨device.uuid⟩)⟩⟩) ∧
      (∀ c, GoMap.get preparedAgent.state.prepared c = none →
        GoMap.get spec.PreparedClaims c = none) := by
  have h := C22_getUpdatedSpec_frame listWalk
    ⟨fun _ => List.Perm.refl _, fun _ => List.Perm.refl _, fun _ => List.Perm.refl _⟩
    preparedAgent.state (by unfold GoMap.NodupKeys; decide) (by unfold AllPci; decide) (by decide)
    (recordAllocated NodeAllocationStateStatusReady).Spec
  obtain ⟨spec, hspec, hrest⟩ := h
  have hval : preparedAgent.state.GetUpdatedSpec listWalk
      (recordAllocated NodeAllocationStateStatusReady).Spec = .ok recordPrepared.Spec := rfl
  rw [hval] at hspec
  cases hspec
  exact ⟨_, rfl, rfl, hrest⟩

end KubeletPlugin

namespace KubeletPlugin

/-- The inner loop of `syncPreparedDevicesFromCRDSpec` finds again the devices
that are in the allocatable map under their UUIDs. -/
theorem syncDevicesLoop_known (pcis : AllocatableDevices) (devices : List PCIDevice)
    (hknown : ∀ device ∈ devices, GoMap.get pcis device.uuid = some device) :
    ∀ found, syncDevicesLoop pcis (devices.map (fun device => ⟨device.uuid⟩)) found =
      some (found ++ devices) := by
  induction devices with
  | nil => intro found; simp [syncDevicesLoop]
  | cons device rest ih =>
    intro found
    simp only [List.map_cons, syncDevicesLoop, hknown device (List.mem_cons_self _ _)]
    rw [ih (fun x hx => hknown x (List.mem_cons_of_mem _ hx))]
    simp

/-- The loop of `syncPreparedDevicesFromCRDSpec` over prepared claims of the
record, one entry per claim, all of PCI type and with known devices: it returns
a map that gives every claim of the record the devices found for it, and every
other claim what it had. -/
theorem syncClaimsLoop_get (pcis : AllocatableDevices)
    (l : List (String × DraPci.PreparedDevices)) (hn : GoMap.NodupKeys l)
    (hok : ∀ e ∈ l, ∃ recorded found, e.2.Pci = some recorded ∧
      syncDevicesLoop pcis recorded.Devices [] = some found) :
    ∀ acc : PreparedClaims, ∃ result, syncClaimsLoop pcis l acc = some (.ok result) ∧
      ∀ c, (∀ rec, GoMap.get l c = some rec → ∃ recorded found, rec.Pci = some recorded ∧
              syncDevicesLoop pcis recorded.Devices [] = some found ∧
              GoMap.get result c = some ⟨some ⟨found⟩⟩) ∧
        (GoMap.get l c = none → GoMap.get result c = GoMap.get acc c) := by
  induction l with
  | nil =>
    intro acc
    refine ⟨acc, rfl, fun c => ⟨fun rec h => ?_, fun _ => rfl⟩⟩
    cases h
  | cons e es ih =>
    intro acc
    obtain ⟨claim, rec0⟩ := e
    unfold GoMap.NodupKeys at hn
    rw [List.map_cons, List.nodup_cons] at hn
    obtain ⟨recorded, found, hrec, hfound⟩ := hok (claim, rec0) (List.mem_cons_self _ _)
    simp only at hrec
    obtain ⟨result, hres, hget⟩ := ih hn.2 (fun x hx => hok x (List.mem_cons_of_mem _ hx))
      (GoMap.set acc claim ⟨some ⟨found⟩⟩)
    refine ⟨result, ?_, ?_⟩
    · unfold syncClaimsLoop
      simp only [hrec, hfound]
      exact hres
    · intro c
      have hnone : GoMap.get es claim = none := GoMap.get_none_of_not_mem_keys _ _ hn.1
      by_cases hc : claim = c
      · subst hc
        refine ⟨fun rec h => ?_, fun h => ?_⟩
        · simp only [GoMap.get, if_true, Option.some.injEq] at h
          subst h
          refine ⟨recorded, found, hrec, hfound, ?_⟩
          rw [(hget claim).2 hnone]
          exact GoMap.get_set_self _ _ _
        · simp [GoMap.get] at h
      · refine ⟨fun rec h => ?_, fun h => ?_⟩
        · simp only [GoMap.get, hc, if_false] at h
          exact (hget c).1 rec h
        · simp only [GoMap.get, hc, if_false] at h
          rw [(hget c).2 h]
          exact GoMap.get_set_of_ne _ _ _ _ (fun hcc => hc hcc.symm)

/-- C23: for every agent state whose prepared map holds one entry per claim, all
of PCI type, whose allocatable devices have distinct UUIDs, and whose prepared
devices are all in its allocatable map under their UUIDs, `GetUpdatedSpec`
returns a spec, and `syncPreparedDevicesFromCRDSpec` of that spec into the fresh
device state that `NewDeviceState` builds from the same inventory returns a state
with the same allocatable map and a prepared map that gives every claim the same
devices in the same order. -/
theorem C23_spec_roundtrip (walk : SpecWalk) (hfair : walk.Fair)
    (walk2 : GoMap DraPci.PreparedDevices → GoMap DraPci.PreparedDevices)
    (hfair2 : ∀ m, (walk2 m).Perm m) (s : DeviceState)
    (hkeys : GoMap.NodupKeys s.prepared) (hpci : AllPci s.prepared)
    (huuid : (s.allocatable.map (fun e => e.2.uuid)).Nodup) (hknown : PreparedKnown s)
    (inspec : NodeAllocationStateSpec) (cdi : CDIHandler) :
    ∃ spec fresh, s.GetUpdatedSpec walk inspec = .ok spec ∧
      DeviceState.syncPreparedDevicesFromCRDSpec walk2 ⟨cdi, s.allocatable, []⟩ spec =
        some (.ok fresh) ∧
      NewDeviceState (some cdi) true walk2 spec s.allocatable = some (.ok fresh) ∧
      fresh.allocatable = s.allocatable ∧
      ∀ c, GoMap.get fresh.prepared c = GoMap.get s.prepared c := by
  obtain ⟨spec, hspec, _, _, hnodup, hget⟩ :=
    getUpdatedSpec_eq walk hfair s hkeys hpci huuid inspec
  have hperm := hfair2 spec.PreparedClaims
  have hnodupW : GoMap.NodupKeys (walk2 spec.PreparedClaims) :=
    (hperm.map _).nodup_iff.mpr hnodup
  have hgetW : ∀ c, GoMap.get (walk2 spec.PreparedClaims) c =
      (GoMap.get s.prepared c).map (fun devices =>
        (⟨devices.Pci.map (fun pcis => ⟨pcis.Devices.map (fun device => ⟨device.uuid⟩)⟩)⟩ :
          DraPci.PreparedDevices)) := by
    intro c
    rw [GoMap.get_perm _ _ hperm hnodupW c]
    exact hget c
  -- what the record holds for a claim comes from a prepared claim of the agent
  have hback : ∀ c rec, GoMap.get (walk2 spec.PreparedClaims) c = some rec →
      ∃ pcis, GoMap.get s.prepared c = some ⟨some pcis⟩ ∧
        rec = ⟨some ⟨pcis.Devices.map (fun device => ⟨device.uuid⟩)⟩⟩ ∧
        syncDevicesLoop s.allocatable (pcis.Devices.map (fun device => ⟨device.uuid⟩)) [] =
          some pcis.Devices := by
    intro c rec hc
    rw [hgetW c] at hc
    cases hs : GoMap.get s.prepared c with
    | none => rw [hs] at hc; cases hc
    | some devices =>
      rw [hs, Option.map_some', Option.some.injEq] at hc
      have hmem := GoMap.mem_of_get _ _ _ hs
      have hsome := hpci _ hmem
      simp only at hsome
      obtain ⟨pci⟩ := devices
      cases pci with
      | none => cases hsome
      | some pcis =>
        refine ⟨pcis, rfl, hc.symm, ?_⟩
        have := syncDevicesLoop_known s.allocatable pcis.Devices
          (fun device hd => hknown _ hmem pcis rfl device hd) []
        simpa using this
  have hok : ∀ e ∈ walk2 spec.PreparedClaims, ∃ recorded found, e.2.Pci = some recorded ∧
      syncDevicesLoop s.allocatable recorded.Devices [] = some found := by
    intro e he
    have hge := (GoMap.get_eq_some_iff _ hnodupW e.1 e.2).mpr he
    obtain ⟨pcis, _, hrec, hloop⟩ := hback e.1 e.2 hge
    exact ⟨_, _, by rw [hrec], hloop⟩
  obtain ⟨result, hres, hresult⟩ := syncClaimsLoop_get s.allocatable _ hnodupW hok []
  have hsync : DeviceState.syncPreparedDevicesFromCRDSpec walk2 ⟨cdi, s.allocatable, []⟩ spec =
      some (.ok ⟨cdi, s.allocatable, result⟩) := by
    unfold DeviceState.syncPreparedDevicesFromCRDSpec
    simp only [hres]
  refine ⟨spec, ⟨cdi, s.allocatable, result⟩, hspec, hsync, ?_, rfl, ?_⟩
  · unfold NewDeviceState
    simp only [hsync, not_true_eq_false, if_false]
  · intro c
    simp only
    cases hc : GoMap.get (walk2 spec.PreparedClaims) c with
    | none =>
      rw [(hresult c).2 hc]
      rw [hgetW c] at hc
      cases hs : GoMap.get s.prepared c with
      | none => rfl
      | some devices => rw [hs] at hc; cases hc
    | some rec =>
      obtain ⟨pcis, hs, hrec, hloop⟩ := hback c rec hc
      obtain ⟨recorded, found, hrecorded, hfound, hgr⟩ := (hresult c).1 rec hc
      rw [hrec] at hrecorded
      cases hrecorded
      rw [hloop] at hfound
      cases hfound
      rw [hgr, hs]

/-- C23 on the agent that has prepared device `A` for claim `C1`: the spec it
writes is the one of `recordPrepared`, and the reconciliation of a fresh state
over the same inventory gives back the prepared claim `C1` with device `A`. -/
theorem C23_spec_roundtrip_witness :
    preparedAgent.state.GetUpdatedSpec listWalk
        (recordAllocated NodeAllocationStateStatusReady).Spec = .ok recordPrepared.Spec ∧
    NewDeviceState (some ⟨[]⟩) true listClaimsWalk recordPrepared.Spec
        preparedAgent.state.allocatable =
      some (.ok ⟨⟨[]⟩, [("A", agentDevA)], [("C1", ⟨some ⟨[agentDevA]⟩⟩)]⟩) ∧
    ∃ spec fresh, preparedAgent.state.GetUpdatedSpec listWalk
        (recordAllocated NodeAllocationStateStatusReady).Spec = .ok spec ∧
      DeviceState.syncPreparedDevicesFromCRDSpec listClaimsWalk
        ⟨⟨[]⟩, preparedAgent.state.allocatable, []⟩ spec = some (.ok fresh) ∧
      NewDeviceState (some ⟨[]⟩) true listClaimsWalk spec preparedAgent.state.allocatable =
        some (.ok fresh) ∧
      fresh.allocatable = preparedAgent.state.allocatable ∧
      ∀ c, GoMap.get fresh.prepared c = GoMap.get preparedAgent.state.prepared c :=
  ⟨rfl, rfl,
    C23_spec_roundtrip listWalk
      ⟨fun _ => List.Perm.refl _, fun _ => List.Perm.refl _, fun _ => List.Perm.refl _⟩
      listClaimsWalk (fun _ => List.Perm.refl _) preparedAgent.state
      (by unfold GoMap.NodupKeys; decide) (by unfold AllPci; decide) (by decide)
      (by unfold PreparedKnown; decide)
      (recordAllocated NodeAllocationStateStatusReady).Spec ⟨[]⟩⟩

end KubeletPlugin

/-! ## Which claims of a batch receive a device -/

namespace GoMap

variable {V : Type}

/-- The assignment `m[k] = v` keeps one entry per key. -/
theorem nodupKeys_set (m : GoMap V) (hn : NodupKeys m) (k : String) (v : V) :
    NodupKeys (set m k v) := by
  unfold NodupKeys at hn ⊢
  unfold set
  by_cases hhas : has m k = true
  · simp only [hhas, if_true, List.map_map]
    have : (fun e : String × V => e.1) ∘ (fun e => if e.1 = k then (k, v) else e) =
        fun e => e.1 := by
      funext e
      simp only [Function.comp]
      by_cases he : e.1 = k
      · simp [he]
      · simp [he]
    rw [this]
    exact hn
  · simp only [hhas, Bool.false_eq_true, if_false, List.map_append, List.map_cons, List.map_nil]
    have hk : k ∉ m.map (fun e => e.1) := by
      intro hmem
      apply hhas
      rw [has_iff_mem_keys]
      simpa using hmem
    exact List.Nodup.append hn (List.nodup_singleton _)
      (by
        intro x hx hx2
        rw [List.mem_singleton] at hx2
        subst hx2
        exact hk hx)

/-- The builtin `delete(m, k)` keeps one entry per key. -/
theorem nodupKeys_delete (m : GoMap V) (hn : NodupKeys m) (k : String) :
    NodupKeys (delete m k) := by
  unfold NodupKeys at hn ⊢
  unfold delete
  exact hn.sublist ((List.filter_sublist _).map _)

/-- Deleting the key of an entry of a map with one entry per key removes that
entry from every count. -/
theorem countP_delete (p : String × V → Bool) (m : GoMap V) (hn : NodupKeys m) (k : String)
    (v : V) (hmem : (k, v) ∈ m) :
    m.countP p = (delete m k).countP p + (if p (k, v) = true then 1 else 0) := by
  induction m with
  | nil => cases hmem
  | cons e es ih =>
    have hn0 := hn
    unfold NodupKeys at hn
    rw [List.map_cons, List.nodup_cons] at hn
    rcases List.mem_cons.mp hmem with he | he
    · subst he
      have hnone : get es k = none := get_none_of_not_mem_keys _ _ hn.1
      have hdel : delete ((k, v) :: es) k = es := by
        have := delete_of_get_none es k hnone
        unfold delete at this ⊢
        simp only [List.filter_cons, ne_eq, not_true_eq_false, decide_False,
          Bool.false_eq_true, if_false, this]
      rw [hdel, List.countP_cons]
    · have hne : e.1 ≠ k := by
        intro hek
        apply hn.1
        rw [hek]
        exact List.mem_map.mpr ⟨(k, v), he, rfl⟩
      have hdel : delete (e :: es) k = e :: delete es k := by
        unfold delete
        simp only [List.filter_cons, ne_eq, hne, not_false_eq_true, decide_True, if_true]
      rw [hdel, List.countP_cons, List.countP_cons, ih hn.2 he]
      omega

end GoMap

/-- The `available` map of a record holds one entry per key. -/
theorem availableDevices_nodupKeys (crd : NodeAllocationState) :
    GoMap.NodupKeys (availableDevices crd) := by
  unfold availableDevices
  have hgen : ∀ (l : List AllocatableDevice) (acc : GoMap AllocatablePci),
      GoMap.NodupKeys acc →
      GoMap.NodupKeys (l.foldl (availableStep crd.Spec.AllocatedClaims) acc) := by
    intro l
    induction l with
    | nil => intro acc hacc; exact hacc
    | cons d ds ih =>
      intro acc hacc
      rw [List.foldl_cons]
      apply ih
      unfold availableStep
      split
      · exact hacc
      · split
        · exact hacc
        · split
          · exact hacc
          · exact GoMap.nodupKeys_set _ hacc _ _
  exact hgen _ _ List.nodup_nil

/-- The inner loop finds a device exactly when `available` counts one of the
requested resource name. -/
theorem firstMatch_none_iff (walk available : GoMap AllocatablePci) (hperm : walk.Perm available)
    (deviceName : String) :
    firstMatch walk deviceName = none ↔ countDevices deviceName available = 0 := by
  unfold firstMatch countDevices
  rw [← hperm.countP_eq, List.find?_eq_none, List.countP_eq_zero]

/-- The second loop of `pcidriver.allocate`, for a batch of distinct claims: a
claim outside the batch keeps what `allocated` held for it, and the claim at
position `k` that is not in `AllocatedClaims` and asks for a resource name gets
one device exactly when fewer such claims for that resource name stand before
it than `available` counts devices of that resource name. -/
theorem allocateLoop_by_position (order : RangeOrder) (horder : FairOrder order)
    (allocatedClaims : GoMap AllocatedDevices) (cas : List ClaimAllocation) :
    ∀ (i : Nat) (available : GoMap AllocatablePci) (allocated result : GoMap (List String)),
      GoMap.NodupKeys available →
      (cas.map (fun ca => ca.Claim.UID)).Nodup →
      (∀ ca ∈ cas, GoMap.get allocated ca.Claim.UID = none) →
      allocateLoop order allocatedClaims i cas available allocated = some result →
      (∀ uid, uid ∉ cas.map (fun ca => ca.Claim.UID) →
        GoMap.get result uid = GoMap.get allocated uid) ∧
      ∀ k ca params, cas[k]? = some ca →
        GoMap.get allocatedClaims ca.Claim.UID = none → ca.ClaimParameters = .pci params →
        ((∃ u, GoMap.get result ca.Claim.UID = some [u]) ↔
          countRequests allocatedClaims params.DeviceName (cas.take k) <
            countDevices params.DeviceName available) := by
  induction cas with
  | nil =>
    intro i available allocated result _ _ _ h
    simp only [allocateLoop, Option.some.injEq] at h
    subst h
    refine ⟨fun _ _ => rfl, fun k ca params hk => ?_⟩
    simp at hk
  | cons hd tl ih =>
    intro i available allocated result hnodup hdistinct hnone h
    rw [List.map_cons, List.nodup_cons] at hdistinct
    have hne : ∀ ca ∈ tl, ca.Claim.UID ≠ hd.Claim.UID := by
      intro ca hca heq
      apply hdistinct.1
      rw [← heq]
      exact List.mem_map.mpr ⟨ca, hca, rfl⟩
    -- the run of the loop on the tail, from the state the head leaves
    have hstep : ∃ available2 allocated2 delta,
        allocateLoop order allocatedClaims (i + 1) tl available2 allocated2 = some result ∧
        GoMap.NodupKeys available2 ∧
        (∀ uid, uid ≠ hd.Claim.UID → GoMap.get allocated2 uid = GoMap.get allocated uid) ∧
        (∀ deviceName,
          countDevices deviceName available = countDevices deviceName available2 +
            (if delta = some deviceName then 1 else 0)) ∧
        (∀ deviceName, delta = some deviceName →
          requestsFresh allocatedClaims deviceName hd = true) ∧
        (∀ deviceName, requestsFresh allocatedClaims deviceName hd = true →
          delta ≠ some deviceName → countDevices deviceName available = 0) ∧
        (∀ params, GoMap.get allocatedClaims hd.Claim.UID = none →
          hd.ClaimParameters = .pci params →
          ((∃ u, GoMap.get allocated2 hd.Claim.UID = some [u]) ↔
            0 < countDevices params.DeviceName available)) := by
      unfold allocateLoop at h
      cases hc : GoMap.get allocatedClaims hd.Claim.UID with
      | some v =>
        simp only [hc] at h
        cases hvp : v.Pci with
        | none => simp [hvp] at h
        | some pcis =>
          simp only [hvp] at h
          refine ⟨available, _, none, h, hnodup,
            fun uid huid => appendAllocated_get_of_ne _ _ _ _ huid, (fun _ => by simp),
            (fun _ hd2 => by cases hd2), ?_, (fun params hcc => by cases hcc)⟩
          intro deviceName hreq
          simp [requestsFresh, hc] at hreq
      | none =>
        simp only [hc] at h
        cases hparams : hd.ClaimParameters with
        | other =>
          simp only [hparams] at h
          split at h
          · refine ⟨available, allocated, none, h, hnodup, fun _ _ => rfl, (fun _ => by simp),
              (fun _ hd2 => by cases hd2), ?_, (fun params _ hcc => by cases hcc)⟩
            intro deviceName hreq
            simp [requestsFresh, hc, hparams] at hreq
          · cases h
        | pci claimParams =>
          simp only [hparams] at h
          cases hm : firstMatch (order i available) claimParams.DeviceName with
          | some e =>
            obtain ⟨uuid, device⟩ := e
            simp only [hm] at h
            obtain ⟨hmem, hname⟩ := firstMatch_some _ _ _ hm
            simp only at hname
            have hmem2 : (uuid, device) ∈ available := (horder i available).mem_iff.mp hmem
            have hcount := fun deviceName => GoMap.countP_delete
              (fun e : String × AllocatablePci => decide (e.2.ResourceName = deviceName))
              available hnodup uuid device hmem2
            refine ⟨_, _, some claimParams.DeviceName, h, GoMap.nodupKeys_delete _ hnodup _,
              fun uid huid => GoMap.get_set_of_ne _ _ _ _ huid, ?_, ?_, ?_, ?_⟩
            · intro deviceName
              unfold countDevices
              rw [hcount deviceName]
              simp only [hname, decide_eq_true_eq, Option.some.injEq]
            · intro deviceName hdn
              simp only [Option.some.injEq] at hdn
              simp [requestsFresh, hc, hparams, hdn]
            · intro deviceName hreq hdn
              simp only [requestsFresh, hc, hparams, decide_eq_true_eq] at hreq
              exact absurd (congrArg some hreq) hdn
            · intro params _ hpp
              cases hpp
              constructor
              · intro _
                unfold countDevices
                exact List.countP_pos_iff.mpr ⟨(uuid, device), hmem2, by simpa using hname⟩
              · intro _
                exact ⟨device.UUID, GoMap.get_set_self _ _ _⟩
          | none =>
            simp only [hm] at h
            have hzero := (firstMatch_none_iff _ _ (horder i available) _).mp hm
            refine ⟨available, allocated, none, h, hnodup, fun _ _ => rfl, (fun _ => by simp),
              (fun _ hd2 => by cases hd2), ?_, ?_⟩
            · intro deviceName hreq _
              simp only [requestsFresh, hc, hparams, decide_eq_true_eq] at hreq
              rw [← hreq]
              exact hzero
            · intro params _ hpp
              cases hpp
              rw [hzero, hnone hd (List.mem_cons_self _ _)]
              simp
    obtain ⟨available2, allocated2, delta, hrun, hnodup2, hframe, hcount, hdelta, hmiss, hhead⟩ :=
      hstep
    have hnone2 : ∀ ca ∈ tl, GoMap.get allocated2 ca.Claim.UID = none := by
      intro ca hca
      rw [hframe _ (hne ca hca)]
      exact hnone ca (List.mem_cons_of_mem _ hca)
    obtain ⟨ihframe, ihpos⟩ := ih (i + 1) available2 allocated2 result hnodup2 hdistinct.2 hnone2 hrun
    refine ⟨?_, ?_⟩
    · intro uid huid
      rw [List.map_cons, List.mem_cons, not_or] at huid
      rw [ihframe uid huid.2, hframe uid huid.1]
    · intro k ca params hk hfresh hparams
      cases k with
      | zero =>
        simp only [List.getElem?_cons_zero, Option.some.injEq] at hk
        subst hk
        rw [ihframe _ hdistinct.1]
        simp only [List.take_zero, countRequests, List.countP_nil]
        exact hhead params hfresh hparams
      | succ k2 =>
        simp only [List.getElem?_cons_succ] at hk
        rw [ihpos k2 ca params hk hfresh hparams, List.take_succ_cons]
        unfold countRequests
        rw [List.countP_cons, hcount params.DeviceName]
        by_cases hreq : requestsFresh allocatedClaims params.DeviceName hd = true
        · by_cases hdn : delta = some params.DeviceName
          · simp only [hreq, hdn, if_true]
            omega
          · have hz := hmiss _ hreq hdn
            rw [hcount params.DeviceName] at hz
            simp only [hreq, hdn, if_true, if_false]
            omega
        · have hdn : delta ≠ some params.DeviceName := fun hdn => hreq (hdelta _ hdn)
          simp only [hreq, hdn, if_false, Bool.false_eq_true]
          omega

/-- The method `pcidriver.allocate`, for a batch of distinct claims: the claim
at position `k` that is not in `AllocatedClaims` gets one device exactly when
fewer such claims for its resource name stand before it than `available` counts
devices of that resource name. -/
theorem allocate_by_position (order : RangeOrder) (horder : FairOrder order)
    (crd : NodeAllocationState) (pcicas : List ClaimAllocation)
    (hdistinct : (pcicas.map (fun ca => ca.Claim.UID)).Nodup)
    (allocated : GoMap (List String)) (h : pcidriver.allocate order crd pcicas = some allocated)
    (k : Nat) (ca : ClaimAllocation) (params : PciClaimParametersSpec)
    (hk : pcicas[k]? = some ca)
    (hfresh : GoMap.get crd.Spec.AllocatedClaims ca.Claim.UID = none)
    (hparams : ca.ClaimParameters = .pci params) :
    (∃ u, GoMap.get allocated ca.Claim.UID = some [u]) ↔
      countRequests crd.Spec.AllocatedClaims params.DeviceName (pcicas.take k) <
        countDevices params.DeviceName (availableDevices crd) :=
  (allocateLoop_by_position order horder crd.Spec.AllocatedClaims pcicas 0 _ [] allocated
    (availableDevices_nodupKeys crd) hdistinct (fun _ _ => rfl) h).2 k ca params hk hfresh hparams

/-- C29: in `pcidriver.allocate` on a batch of distinct claims, under every fair
walk order, the claim at batch position `k` that is not in `AllocatedClaims` and
asks for a resource name receives a device exactly when the number of earlier
batch positions that hold a claim not in `AllocatedClaims` asking for the same
resource name is smaller than the number of available devices of that resource
name; so it receives a device under one fair walk order exactly when it does
under any other. -/
theorem C29_allocation_by_position (order : RangeOrder) (horder : FairOrder order)
    (crd : NodeAllocationState) (pcicas : List ClaimAllocation)
    (hdistinct : (pcicas.map (fun ca => ca.Claim.UID)).Nodup)
    (allocated : GoMap (List String)) (h : pcidriver.allocate order crd pcicas = some allocated)
    (k : Nat) (ca : ClaimAllocation) (params : PciClaimParametersSpec)
    (hk : pcicas[k]? = some ca)
    (hfresh : GoMap.get crd.Spec.AllocatedClaims ca.Claim.UID = none)
    (hparams : ca.ClaimParameters = .pci params) :
    ((∃ u, GoMap.get allocated ca.Claim.UID = some [u]) ↔
      countRequests crd.Spec.AllocatedClaims params.DeviceName (pcicas.take k) <
        countDevices params.DeviceName (availableDevices crd)) ∧
    ∀ order2 allocated2, FairOrder order2 →
      pcidriver.allocate order2 crd pcicas = some allocated2 →
      ((∃ u, GoMap.get allocated ca.Claim.UID = some [u]) ↔
        ∃ u, GoMap.get allocated2 ca.Claim.UID = some [u]) := by
  have h1 := allocate_by_position order horder crd pcicas hdistinct allocated h k ca params hk
    hfresh hparams
  refine ⟨h1, fun order2 allocated2 horder2 h2 => ?_⟩
  rw [h1, allocate_by_position order2 horder2 crd pcicas hdistinct allocated2 h2 k ca params hk
    hfresh hparams]

/-- C29 on the record with the single device `A` and the batch of the claims
`C1` and `C2`, which both ask for its resource name: `C2`, at position 1, stands
behind one request for one device and receives none. -/
theorem C29_allocation_by_position_witness :
    pcidriver.allocate listOrder sampleSingle [nvmeClaim "C1", nvmeClaim "C2"] =
      some [("C1", ["A"])] ∧
    countRequests sampleSingle.Spec.AllocatedClaims "devices.kubevirt.io/nvme"
      ([nvmeClaim "C1", nvmeClaim "C2"].take 1) = 1 ∧
    countDevices "devices.kubevirt.io/nvme" (availableDevices sampleSingle) = 1 ∧
    (((∃ u, GoMap.get [("C1", ["A"])] (nvmeClaim "C2").Claim.UID = some [u]) ↔
      countRequests sampleSingle.Spec.AllocatedClaims "devices.kubevirt.io/nvme"
          ([nvmeClaim "C1", nvmeClaim "C2"].take 1) <
        countDevices "devices.kubevirt.io/nvme" (availableDevices sampleSingle)) ∧
    ∀ order2 allocated2, FairOrder order2 →
      pcidriver.allocate order2 sampleSingle [nvmeClaim "C1", nvmeClaim "C2"] = some allocated2 →
      ((∃ u, GoMap.get [("C1", ["A"])] (nvmeClaim "C2").Claim.UID = some [u]) ↔
        ∃ u, GoMap.get allocated2 (nvmeClaim "C2").Claim.UID = some [u])) :=
  ⟨rfl, by decide, by decide,
    C29_allocation_by_position listOrder (fun _ _ => List.Perm.refl _) sampleSingle
      [nvmeClaim "C1", nvmeClaim "C2"] (by decide) [("C1", ["A"])] rfl 1 (nvmeClaim "C2")
      ⟨"devices.kubevirt.io/nvme"⟩ rfl (by decide) rfl⟩

/-! ## The invariants of the agent state -/

namespace KubeletPlugin

/-- In a map that stores every device under its UUID, a device found under some
key is found under its UUID. -/
theorem get_uuid_of_get (m : AllocatableDevices) (hkeyed : ∀ e ∈ m, e.1 = e.2.uuid)
    (k : String) (device : PCIDevice) (h : GoMap.get m k = some device) :
    GoMap.get m device.uuid = some device := by
  have hk := hkeyed _ (GoMap.mem_of_get _ _ _ h)
  simp only at hk
  rw [← hk]
  exact h

/-- The devices of a well-formed state have distinct UUIDs. -/
theorem wellFormed_uuids (s : DeviceState) (hwf : s.WellFormed) :
    (s.allocatable.map (fun e => e.2.uuid)).Nodup := by
  have : s.allocatable.map (fun e => e.2.uuid) = s.allocatable.map (fun e => e.1) :=
    List.map_congr_left (fun e he => (hwf.2.1 e he).symm)
  rw [this]
  exact hwf.1

/-- The devices `preparePcis` returns are in the allocatable map under their
UUIDs. -/
theorem preparePcisLoop_known (allocatable : AllocatableDevices)
    (hkeyed : ∀ e ∈ allocatable, e.1 = e.2.uuid) (l : List AllocatedPci) :
    ∀ (devices : List PCIDevice) (pcis : PreparedPcis),
      preparePcisLoop allocatable l devices = some (.ok pcis) →
      (∀ d ∈ devices, GoMap.get allocatable d.uuid = some d) →
      ∀ d ∈ pcis.Devices, GoMap.get allocatable d.uuid = some d := by
  induction l with
  | nil =>
    intro devices pcis h hacc
    simp only [preparePcisLoop, Option.some.injEq, Except.ok.injEq] at h
    subst h
    exact hacc
  | cons device rest ih =>
    intro devices pcis h hacc
    unfold preparePcisLoop at h
    cases hget : GoMap.get allocatable device.UUID with
    | none => simp [hget] at h
    | some pciInfo =>
      simp only [hget] at h
      split at h
      · cases h
      · apply ih _ _ h
        intro d hd
        rcases List.mem_append.mp hd with hd | hd
        · exact hacc d hd
        · rw [List.mem_singleton] at hd
          subst hd
          exact get_uuid_of_get _ hkeyed _ _ hget

/-- `Prepare` keeps the state well formed. -/
theorem prepare_wellFormed (s s2 : DeviceState) (writeOk : Bool) (claimUID : String)
    (allocation : AllocatedDevices) (result : Except NodeError (List String))
    (h : s.Prepare writeOk claimUID allocation = some (result, s2)) (hwf : s.WellFormed) :
    s2.WellFormed := by
  obtain ⟨hka, hkeyed, hkp, hpci, hknown⟩ := hwf
  unfold DeviceState.Prepare at h
  cases hp : GoMap.get s.prepared claimUID with
  | some devices =>
    simp only [hp] at h
    cases hg : CDIHandler.GetClaimDevices devices with
    | error err =>
      simp only [hg, Option.some.injEq, Prod.mk.injEq] at h
      rw [← h.2]
      exact ⟨hka, hkeyed, hkp, hpci, hknown⟩
    | ok cdiDevices =>
      simp only [hg, Option.some.injEq, Prod.mk.injEq] at h
      rw [← h.2]
      exact ⟨hka, hkeyed, hkp, hpci, hknown⟩
  | none =>
    simp only [hp] at h
    cases ha : allocation.Pci with
    | none =>
      simp only [ha, Option.some.injEq, Prod.mk.injEq] at h
      rw [← h.2]
      exact ⟨hka, hkeyed, hkp, hpci, hknown⟩
    | some allocated =>
      simp only [ha] at h
      cases hpp : s.preparePcis allocated with
      | none => simp [hpp] at h
      | some r =>
        cases r with
        | error err =>
          simp only [hpp, Option.some.injEq, Prod.mk.injEq] at h
          rw [← h.2]
          exact ⟨hka, hkeyed, hkp, hpci, hknown⟩
        | ok pcis =>
          simp only [hpp] at h
          have hnew := preparePcisLoop_known s.allocatable hkeyed allocated.Devices [] pcis hpp
            (fun _ hd => by cases hd)
          cases hw : writeOk with
          | false =>
            simp only [hw, CDIHandler.CreateClaimSpecFile, PreparedDevices.Type,
              Option.isSome_some, if_true, Bool.false_eq_true, if_false, Option.some.injEq,
              Prod.mk.injEq] at h
            rw [← h.2]
            exact ⟨hka, hkeyed, hkp, hpci, hknown⟩
          | true =>
            simp only [hw, CDIHandler.CreateClaimSpecFile, PreparedDevices.Type,
              Option.isSome_some, if_true, CDIHandler.GetClaimDevices, Option.some.injEq,
              Prod.mk.injEq] at h
            rw [← h.2]
            refine ⟨hka, hkeyed, GoMap.nodupKeys_set _ hkp _ _, ?_, ?_⟩
            · intro e he
              rcases GoMap.mem_set _ _ _ _ he with he | he
              · exact hpci e he
              · rw [he]; rfl
            · intro e he p hep device hdev
              rcases GoMap.mem_set _ _ _ _ he with he | he
              · exact hknown e he p hep device hdev
              · rw [he] at hep
                simp only [Option.some.injEq] at hep
                subst hep
                exact hnew device hdev

/-- `Unprepare` keeps the state well formed. -/
theorem unprepare_wellFormed (s : DeviceState) (removeOk : Bool) (claimUID : String)
    (hwf : s.WellFormed) : (s.Unprepare removeOk claimUID).2.WellFormed := by
  obtain ⟨hka, hkeyed, hkp, hpci, hknown⟩ := hwf
  unfold DeviceState.Unprepare
  cases hp : GoMap.get s.prepared claimUID with
  | none => exact ⟨hka, hkeyed, hkp, hpci, hknown⟩
  | some devices =>
    simp only
    split
    · cases removeOk with
      | false =>
        simp only [CDIHandler.DeleteClaimSpecFile, Bool.false_eq_true, if_false]
        exact ⟨hka, hkeyed, hkp, hpci, hknown⟩
      | true =>
        simp only [CDIHandler.DeleteClaimSpecFile, if_true]
        refine ⟨hka, hkeyed, GoMap.nodupKeys_delete _ hkp _, ?_, ?_⟩
        · intro e he
          exact hpci e ((GoMap.mem_delete _ _ _).mp he).1
        · intro e he
          exact hknown e ((GoMap.mem_delete _ _ _).mp he).1
    · exact ⟨hka, hkeyed, hkp, hpci, hknown⟩

/-- The devices the inner loop of `syncPreparedDevicesFromCRDSpec` finds are in
the allocatable map under their UUIDs. -/
theorem syncDevicesLoop_found (pcis : AllocatableDevices)
    (hkeyed : ∀ e ∈ pcis, e.1 = e.2.uuid) (recorded : List PreparedPci) :
    ∀ devices found, syncDevicesLoop pcis recorded devices = some found →
      (∀ d ∈ devices, GoMap.get pcis d.uuid = some d) →
      ∀ d ∈ found, GoMap.get pcis d.uuid = some d := by
  induction recorded with
  | nil =>
    intro devices found h hacc
    simp only [syncDevicesLoop, Option.some.injEq] at h
    subst h
    exact hacc
  | cons r rest ih =>
    intro devices found h hacc
    unfold syncDevicesLoop at h
    cases hget : GoMap.get pcis r.UUID with
    | none => simp [hget] at h
    | some device =>
      simp only [hget] at h
      apply ih _ _ h
      intro d hd
      rcases List.mem_append.mp hd with hd | hd
      · exact hacc d hd
      · rw [List.mem_singleton] at hd
        subst hd
        exact get_uuid_of_get _ hkeyed _ _ hget

/-- The loop of `syncPreparedDevicesFromCRDSpec` builds a prepared map with one
entry per claim, every entry of PCI type, every device in the allocatable
map. -/
theorem syncClaimsLoop_wellFormed (cdi : CDIHandler) (pcis : AllocatableDevices)
    (hkeyed : ∀ e ∈ pcis, e.1 = e.2.uuid) (l : List (String × DraPci.PreparedDevices)) :
    ∀ (acc result : PreparedClaims), syncClaimsLoop pcis l acc = some (.ok result) →
      GoMap.NodupKeys acc ∧ AllPci acc ∧ PreparedKnown ⟨cdi, pcis, acc⟩ →
      GoMap.NodupKeys result ∧ AllPci result ∧ PreparedKnown ⟨cdi, pcis, result⟩ := by
  induction l with
  | nil =>
    intro acc result h hacc
    simp only [syncClaimsLoop, Option.some.injEq, Except.ok.injEq] at h
    subst h
    exact hacc
  | cons e es ih =>
    intro acc result h hacc
    obtain ⟨claim, rec⟩ := e
    obtain ⟨hn, hpci, hknown⟩ := hacc
    unfold syncClaimsLoop at h
    cases hrec : rec.Pci with
    | none => simp [hrec] at h
    | some recorded =>
      simp only [hrec] at h
      cases hfound : syncDevicesLoop pcis recorded.Devices [] with
      | none => simp [hfound] at h
      | some found =>
        simp only [hfound] at h
        have hnew := syncDevicesLoop_found pcis hkeyed _ _ _ hfound (fun _ hd => by cases hd)
        apply ih _ _ h
        refine ⟨GoMap.nodupKeys_set _ hn _ _, ?_, ?_⟩
        · intro x hx
          rcases GoMap.mem_set _ _ _ _ hx with hx | hx
          · exact hpci x hx
          · rw [hx]; rfl
        · intro x hx p hxp device hdev
          rcases GoMap.mem_set _ _ _ _ hx with hx | hx
          · exact hknown x hx p hxp device hdev
          · rw [hx] at hxp
            simp only [Option.some.injEq] at hxp
            subst hxp
            exact hnew device hdev

/-- The state `NewDeviceState` returns over an inventory that stores every device
under its UUID is well formed, and its allocatable map is the inventory. -/
theorem newDeviceState_wellFormed (handler : Option CDIHandler) (commonOk : Bool)
    (walk : GoMap DraPci.PreparedDevices → GoMap DraPci.PreparedDevices)
    (spec : NodeAllocationStateSpec) (possibleDevices : AllocatableDevices)
    (hn : GoMap.NodupKeys possibleDevices) (hkeyed : ∀ e ∈ possibleDevices, e.1 = e.2.uuid)
    (s : DeviceState)
    (h : NewDeviceState handler commonOk walk spec possibleDevices = some (.ok s)) :
    s.WellFormed ∧ s.allocatable = possibleDevices := by
  unfold NewDeviceState at h
  cases handler with
  | none => simp at h
  | some cdi =>
    simp only at h
    split at h
    · simp at h
    · unfold DeviceState.syncPreparedDevicesFromCRDSpec at h
      simp only at h
      cases hloop : syncClaimsLoop possibleDevices (walk spec.PreparedClaims) [] with
      | none => simp [hloop] at h
      | some r =>
        cases r with
        | error err => simp [hloop] at h
        | ok prepared =>
          simp only [hloop, Option.some.injEq, Except.ok.injEq] at h
          subst h
          obtain ⟨h1, h2, h3⟩ := syncClaimsLoop_wellFormed cdi possibleDevices hkeyed _ _ _ hloop
            ⟨List.nodup_nil, (fun _ he => by cases he), (fun _ he => by cases he)⟩
          exact ⟨⟨hn, hkeyed, h1, h2, h3⟩, rfl⟩

/-- The map `enumerateAllPossibleDevices` returns holds one entry per key and
stores every device under its UUID. -/
theorem enumerateAllPossibleDevices_keyed (walk walk2 : AllocatableDevices → AllocatableDevices)
    (host : List HostPCIDevice) (supported : AllocatableDevices) :
    GoMap.NodupKeys (enumerateAllPossibleDevices walk walk2 host supported) ∧
    ∀ e ∈ enumerateAllPossibleDevices walk walk2 host supported, e.1 = e.2.uuid := by
  have hinner : ∀ (devices : List PCIDevice) (all : AllocatableDevices),
      (GoMap.NodupKeys all ∧ ∀ e ∈ all, e.1 = e.2.uuid) →
      (GoMap.NodupKeys (devices.foldl (fun all d => GoMap.set all d.uuid d) all) ∧
        ∀ e ∈ devices.foldl (fun all d => GoMap.set all d.uuid d) all, e.1 = e.2.uuid) := by
    intro devices
    induction devices with
    | nil => intro all hall; exact hall
    | cons d ds ih =>
      intro all hall
      rw [List.foldl_cons]
      apply ih
      refine ⟨GoMap.nodupKeys_set _ hall.1 _ _, ?_⟩
      intro e he
      rcases GoMap.mem_set _ _ _ _ he with he | he
      · exact hall.2 e he
      · rw [he]
  have houter : ∀ (discovered : GoMap (List PCIDevice)) (l : List (String × PCIDevice))
      (all : AllocatableDevices),
      (GoMap.NodupKeys all ∧ ∀ e ∈ all, e.1 = e.2.uuid) →
      (GoMap.NodupKeys (l.foldl (fun allDevices device =>
          match GoMap.get discovered device.2.vendorSelector with
          | some devices => devices.foldl (fun all d => GoMap.set all d.uuid d) allDevices
          | none => allDevices) all) ∧
        ∀ e ∈ l.foldl (fun allDevices device =>
          match GoMap.get discovered device.2.vendorSelector with
          | some devices => devices.foldl (fun all d => GoMap.set all d.uuid d) allDevices
          | none => allDevices) all, e.1 = e.2.uuid) := by
    intro discovered l
    induction l with
    | nil => intro all hall; exact hall
    | cons x xs ih =>
      intro all hall
      rw [List.foldl_cons]
      apply ih
      cases hg : GoMap.get discovered x.2.vendorSelector with
      | none => exact hall
      | some devices => exact hinner devices all hall
  unfold enumerateAllPossibleDevices
  exact houter _ _ [] ⟨List.nodup_nil, fun _ he => by cases he⟩

end KubeletPlugin

end DraPci
